import Mathlib

/-! # flux: request routing and middleware dispatch

A shallow embedding of the Go package `flux` (`context.go`, `engine.go`,
`group.go`, `route.go`, `helpers.go`, `middlewares.go`).

Modelling conventions.

* Go strings and byte slices are Lean `String`s.  The only byte-indexed code,
  `extractToken`, compares against an ASCII literal, for which byte and
  character positions coincide.
* A handler (`HandlerFunc`, `AuthFunc`, `Middleware`: all `func(*Context)`) is
  client code.  It is represented by the tree `Prog` of the calls it makes on
  its `*Context`, with branching on everything it can read.  The cursor
  `Index`, the flag `Aborted` and `HandlersChain` are changed only by `Next`
  and `Abort`; every other field can be assigned freely (`Prog.assign`).
* `http.ResponseWriter` is the list of calls made on it, in call order.
* Results of library calls on the request (`mime`, `net/http`, `io`) are
  fields of `Request`; the calls made are recorded in `Request.calls`.
* `Context.trace` and `Context.panicking` are ghost fields: the first records
  which chain positions were started, when `Abort` ran and when a handler
  panicked (with what had been written to the response by then), the second
  holds the value of a panic that is unwinding the stack.
* `[]HandlerFunc` values are Go slices: a pointer into a heap of backing
  arrays, a length and a capacity.  `append` writes in place when the
  capacity allows and allocates otherwise; the capacity of a fresh array is
  chosen by the runtime and is a parameter `grow` of the model.
-/

namespace Flux

/-! ## Values carried by a Context -/

/-- A value of Go type `any`, as far as the custom-data store needs it. -/
inductive Any where
  | nil : Any
  | str (s : String) : Any
  | int (n : Int) : Any
  | bool (b : Bool) : Any
deriving DecidableEq, Repr

/-- The struct `Client` of `context.go`. -/
structure Client where
  UserID : Int
  RoleID : Int
  SessionToken : String
deriving DecidableEq, Repr

/-- One call on the `http.ResponseWriter`. -/
inductive WriterCall where
  | setHeader (key value : String) : WriterCall
  | writeHeader (code : Int) : WriterCall
  | write (bytes : String) : WriterCall
deriving DecidableEq, Repr

/-- One library call made on the `*http.Request`. -/
inductive ReqCall where
  | parseMediaType : ReqCall
  | parseMultipartForm : ReqCall
  | parseForm : ReqCall
  | readAll : ReqCall
deriving DecidableEq, Repr

/-- The `*http.Request` as the package uses it.  `mediaType`, `multipart`,
`formErr`, `formReadsBody` and `readErr` are the results the library calls
give on this request; `unread` is the part of `Body` not yet consumed. -/
structure Request where
  Method : String
  Path : String
  Authorization : String
  ContentType : String
  mediaType : Except String String
  multipart : Except String String
  formErr : Option String
  formReadsBody : Bool
  readErr : Option String
  unread : String
  MultipartForm : Option String
  calls : List ReqCall
deriving Repr

/-- Every field of `Context` other than the chain, its cursor and the abort
flag.  `Body = none` is the nil slice, `CustomData = none` the nil map. -/
structure Data where
  Writer : List WriterCall
  Request : Request
  FullPath : String
  Client : Client
  Body : Option String
  MultipartForm : Option String
  CustomData : Option (List (String × Any))
  StatusCode : Int
  AllowedRoles : List Int
  CreatedAt : Nat
deriving Repr

/-- What a handler can read of its Context. -/
structure View where
  data : Data
  Index : Nat
  Aborted : Bool
  chainLen : Nat

/-- The argument `data any` of `JSON`, given by what `json.Encoder.Encode`
makes of it: the JSON text, or the encoding error. -/
abbrev Payload := Except String String

/-- A handler body: the calls it makes on its `*Context`. -/
inductive Prog where
  | ret : Prog
  | next (k : Prog) : Prog
  | abort (k : Prog) : Prog
  | abortWithStatus (status : Int) (k : Prog) : Prog
  | abortWithStatusJSON (status : Int) (json : Payload) (k : Prog) : Prog
  | set (key : String) (value : Any) (k : Prog) : Prog
  | get (key : String) (k : Any → Bool → Prog) : Prog
  | status (code : Int) (k : Prog) : Prog
  | json (code : Int) (data : Payload) (k : Option String → Prog) : Prog
  | read (k : View → Prog) : Prog
  | assign (f : Data → Data) (k : Prog) : Prog
  | panic (value : String) : Prog

instance : Inhabited Prog := ⟨Prog.ret⟩

/-- Ghost events of one request. -/
inductive Event where
  | invoke (i : Nat) : Event
  | abort : Event
  | auth : Event
  | parse (err : Option String) : Event
  | panic (value : String) (written : List WriterCall) : Event
deriving DecidableEq, Repr

/-- The struct `Context` of `context.go`. -/
structure Context where
  data : Data
  HandlersChain : List Prog
  Index : Nat
  Aborted : Bool
  trace : List Event
  panicking : Option String

/-- The view a handler has of a Context. -/
def Context.view (c : Context) : View :=
  { data := c.data, Index := c.Index, Aborted := c.Aborted, chainLen := c.HandlersChain.length }

/-! ## Context operations (`context.go`) -/

/-- Embeds `Context.Abort`. -/
def Context.Abort (c : Context) : Context :=
  { c with Aborted := true, trace := c.trace ++ [Event.abort] }

/-- Embeds `Context.Status`: records the code and calls `Writer.WriteHeader`. -/
def Context.Status (c : Context) (code : Int) : Context :=
  { c with data := { c.data with StatusCode := code,
                                 Writer := c.data.Writer ++ [WriterCall.writeHeader code] } }

/-- Embeds `json.NewEncoder(w).Encode(data)`: the text and a newline are written, or
nothing is written and the error is returned. -/
def encode (w : List WriterCall) (data : Payload) : List WriterCall × Option String :=
  match data with
  | .ok text => (w ++ [WriterCall.write (text ++ "\n")], none)
  | .error e => (w, some e)

/-- Embeds `Context.JSON`. -/
def Context.JSON (c : Context) (code : Int) (data : Payload) : Context × Option String :=
  let c1 : Context :=
    { c with data := { c.data with
        Writer := c.data.Writer ++ [WriterCall.setHeader "Content-Type" "application/json"] } }
  let c2 := c1.Status code
  let r := encode c2.data.Writer data
  ({ c2 with data := { c2.data with Writer := r.1 } }, r.2)

/-- Embeds `Context.AbortWithStatus`. -/
def Context.AbortWithStatus (c : Context) (status : Int) : Context :=
  (c.Abort).Status status

/-- Embeds `Context.AbortWithStatusJSON`. -/
def Context.AbortWithStatusJSON (c : Context) (status : Int) (json : Payload) : Context :=
  ((c.Abort).JSON status json).1

/-- Assignment `m[key] = value` on a Go map kept as an association list. -/
def mapSet (m : List (String × Any)) (key : String) (value : Any) : List (String × Any) :=
  match m with
  | [] => [(key, value)]
  | (k, v) :: rest => if k = key then (key, value) :: rest else (k, v) :: mapSet rest key value

/-- Lookup `m[key]` with the comma-ok result. -/
def mapGet (m : List (String × Any)) (key : String) : Any × Bool :=
  match m with
  | [] => (Any.nil, false)
  | (k, v) :: rest => if k = key then (v, true) else mapGet rest key

/-- Embeds `Context.Set`. -/
def Context.Set (c : Context) (key : String) (value : Any) : Context :=
  let m := match c.data.CustomData with
    | none => []
    | some m => m
  { c with data := { c.data with CustomData := some (mapSet m key value) } }

/-- Embeds `Context.Get`. -/
def Context.Get (c : Context) (key : String) : Any × Bool :=
  match c.data.CustomData with
  | none => (Any.nil, false)
  | some m => mapGet m key

/-- Runs a handler body on a Context; `next` is what `c.Next()` does.  A panic
stops the body; a panic raised below a `Next` call unwinds through the
caller. -/
def Prog.exec (next : Context → Option Context) : Prog → Context → Option Context
  | .ret, c => some c
  | .next k, c =>
    match next c with
    | none => none
    | some c1 => if c1.panicking.isSome then some c1 else k.exec next c1
  | .abort k, c => k.exec next c.Abort
  | .abortWithStatus s k, c => k.exec next (c.AbortWithStatus s)
  | .abortWithStatusJSON s j k, c => k.exec next (c.AbortWithStatusJSON s j)
  | .set key v k, c => k.exec next (c.Set key v)
  | .get key k, c => (k (c.Get key).1 (c.Get key).2).exec next c
  | .status code k, c => k.exec next (c.Status code)
  | .json code d k, c => (k (c.JSON code d).2).exec next (c.JSON code d).1
  | .read k, c => (k c.view).exec next c
  | .assign f k, c => k.exec next { c with data := f c.data }
  | .panic v, c =>
    some { c with panicking := some v, trace := c.trace ++ [Event.panic v c.data.Writer] }

/-- Embeds `Context.Next`.  `fuel` bounds the depth of nested handler calls; `none`
means the bound was reached. -/
def Context.Next (fuel : Nat) (c : Context) : Option Context :=
  if c.Index < c.HandlersChain.length then
    if c.Aborted then some c
    else
      match fuel with
      | 0 => none
      | fuel + 1 =>
        let handler := c.HandlersChain.getD c.Index Prog.ret
        handler.exec (Context.Next fuel)
          { c with Index := c.Index + 1, trace := c.trace ++ [Event.invoke c.Index] }
  else some c

/-- Lines 189-199 of `Context.parseBody`, on the request `req`:
`ParseForm`, then `io.ReadAll` of the body.  The pair is the Context
afterwards and the returned error. -/
def Context.readBody (c : Context) (req : Request) : Context × Option String :=
  let req1 : Request := { req with calls := req.calls ++ [ReqCall.parseForm] }
  match req.formErr with
  | some e => ({ c with data := { c.data with Request := req1 } }, some e)
  | none =>
    let req2 : Request :=
      { req1 with unread := if req.formReadsBody then "" else req.unread,
                  calls := req1.calls ++ [ReqCall.readAll] }
    match req.readErr with
    | some e => ({ c with data := { c.data with Request := req2 } }, some e)
    | none =>
      ({ c with data := { c.data with Request := { req2 with unread := "" },
                                      Body := some req2.unread } }, none)

/-- Embeds `Context.parseBody`.  The pair is the Context afterwards and the returned
error.  `ParseMultipartForm` has no effect on a request whose multipart form
is already parsed (net/http); a successful multipart parse and `io.ReadAll`
consume the body. -/
def Context.parseBody (c : Context) : Context × Option String :=
  if c.data.Body.isSome then (c, none)
  else if c.data.Request.ContentType ≠ "" then
    let req1 : Request :=
      { c.data.Request with calls := c.data.Request.calls ++ [ReqCall.parseMediaType] }
    match c.data.Request.mediaType with
    | .error e => ({ c with data := { c.data with Request := req1 } }, some e)
    | .ok mt =>
      if mt = "multipart/form-data" then
        let req2 : Request := { req1 with calls := req1.calls ++ [ReqCall.parseMultipartForm] }
        match c.data.Request.MultipartForm with
        | some form =>
          ({ c with data := { c.data with Request := req2, MultipartForm := some form } }, none)
        | none =>
          match c.data.Request.multipart with
          | .error e => ({ c with data := { c.data with Request := req2 } }, some e)
          | .ok form =>
            ({ c with data := { c.data with
                Request := { req2 with MultipartForm := some form, unread := "" },
                MultipartForm := some form } }, none)
      else c.readBody req1
  else c.readBody c.data.Request

/-! ## Slices of handlers -/

/-- A Go slice header: backing array (an index into the heap), length and
capacity.  No slice of the package is ever re-sliced, so every slice starts
at the beginning of its array. -/
structure Slice where
  ptr : Nat
  len : Nat
  cap : Nat
deriving DecidableEq, Repr

/-- The nil slice. -/
def Slice.nil : Slice := { ptr := 0, len := 0, cap := 0 }

/-- A backing array: its capacity and the elements written so far. -/
structure BackingArray (H : Type) where
  cap : Nat
  elems : List H
deriving DecidableEq, Repr

/-- The elements of a slice. -/
def readSlice {H : Type} (heap : List (BackingArray H)) (s : Slice) : List H :=
  match heap[s.ptr]? with
  | none => []
  | some a => a.elems.take s.len

/-- The builtin `append(s, xs...)`: in place when the capacity suffices, into
a fresh array of capacity `grow s.cap (s.len + xs.length)` otherwise. -/
def appendSlice {H : Type} (grow : Nat → Nat → Nat) (heap : List (BackingArray H))
    (s : Slice) (xs : List H) : List (BackingArray H) × Slice :=
  if s.len + xs.length ≤ s.cap then
    match heap[s.ptr]? with
    | none => (heap, { s with len := s.len + xs.length })
    | some a =>
      (heap.set s.ptr
          { a with elems := a.elems.take s.len ++ xs ++ a.elems.drop (s.len + xs.length) },
        { s with len := s.len + xs.length })
  else
    let cap := grow s.cap (s.len + xs.length)
    (heap ++ [{ cap := cap, elems := readSlice heap s ++ xs }],
      { ptr := heap.length, len := s.len + xs.length, cap := cap })

/-- The capacity the gc runtime gives a grown slice below its doubling
threshold of 256 elements, before rounding up to an allocation size class
(`nextslicecap` of `runtime/slice.go`).  The sample registrations below only
grow slices of one-word elements to the capacities 1, 2 and 4, which are
size classes (8, 16 and 32 bytes), so the rounding changes nothing there. -/
def gcGrow (oldCap newLen : Nat) : Nat :=
  if newLen > oldCap + oldCap then newLen else oldCap + oldCap

/-! ## Routes, groups, engine -/

/-- The struct `Route` of `route.go`. -/
structure Route (H : Type) where
  path : String
  method : String
  handler : H
  middlewaresChain : Slice
  requireAuth : Bool
  allowedRoles : List Int
deriving Repr

/-- The struct `RouteGroup` of `group.go`; `routes` holds `*Route` pointers. -/
structure RouteGroup where
  basePath : String
  routes : List Nat
  groupMiddlewares : Slice
deriving DecidableEq, Repr

/-- The struct `Engine` of `engine.go`; `routes` and `routeGroups` hold
pointers. -/
structure Engine (H : Type) where
  routes : List Nat
  routeGroups : List Nat
  authFunc : Option H
  globalMiddlewares : Slice
deriving Repr

/-- The program state during registration: the engine, the `Route` and
`RouteGroup` objects it points to, the heap of backing arrays, and the
patterns given to `http.HandleFunc`. -/
structure World (H : Type) where
  heap : List (BackingArray H)
  routeObjs : List (Route H)
  groupObjs : List RouteGroup
  engine : Engine H
  mux : List (String × Nat)
deriving Repr

variable {H : Type}

/-- Embeds `New`. -/
def New : World H :=
  { heap := [], routeObjs := [], groupObjs := [],
    engine := { routes := [], routeGroups := [], authFunc := none, globalMiddlewares := Slice.nil },
    mux := [] }

/-- Assignment through a `*Route`. -/
def World.updRoute (w : World H) (r : Nat) (f : Route H → Route H) : World H :=
  match w.routeObjs[r]? with
  | none => w
  | some route => { w with routeObjs := w.routeObjs.set r (f route) }

/-- Assignment through a `*RouteGroup`. -/
def World.updGroup (w : World H) (g : Nat) (f : RouteGroup → RouteGroup) : World H :=
  match w.groupObjs[g]? with
  | none => w
  | some group => { w with groupObjs := w.groupObjs.set g (f group) }

/-- The handlers of a route's `middlewaresChain`. -/
def World.chain (w : World H) (r : Nat) : List H :=
  match w.routeObjs[r]? with
  | none => []
  | some route => readSlice w.heap route.middlewaresChain

/-- The handlers of a group's `groupMiddlewares`. -/
def World.groupChain (w : World H) (g : Nat) : List H :=
  match w.groupObjs[g]? with
  | none => []
  | some group => readSlice w.heap group.groupMiddlewares

/-- The handlers of the engine's `globalMiddlewares`. -/
def World.globalChain (w : World H) : List H :=
  readSlice w.heap w.engine.globalMiddlewares

/-- Embeds `Engine.UseAuth`. -/
def Engine.UseAuth (w : World H) (authFunc : H) : World H :=
  { w with engine := { w.engine with authFunc := some authFunc } }

/-- Embeds `Engine.AllowAllCORS`; `cors` is the package function `allowAllCORS`. -/
def Engine.AllowAllCORS (grow : Nat → Nat → Nat) (cors : H) (w : World H) : World H :=
  let lit : Slice := { ptr := w.heap.length, len := 1, cap := 1 }
  let heap1 := w.heap ++ [{ cap := 1, elems := [cors] }]
  let r := appendSlice grow heap1 lit (readSlice heap1 w.engine.globalMiddlewares)
  { w with heap := r.1, engine := { w.engine with globalMiddlewares := r.2 } }

/-- Embeds `Engine.Use`. -/
def Engine.Use (grow : Nat → Nat → Nat) (w : World H) (middlewares : List H) : World H :=
  let r := appendSlice grow w.heap w.engine.globalMiddlewares middlewares
  { w with heap := r.1, engine := { w.engine with globalMiddlewares := r.2 } }

/-- Embeds `Engine.register`; the second component is the new `*Route`. -/
def Engine.register (w : World H) (path method : String) (handler : H) : World H × Nat :=
  let route : Route H :=
    { path := path, method := method, handler := handler, middlewaresChain := Slice.nil,
      requireAuth := false, allowedRoles := [] }
  ({ w with routeObjs := w.routeObjs ++ [route],
            engine := { w.engine with routes := w.engine.routes ++ [w.routeObjs.length] } },
    w.routeObjs.length)

/-- Embeds `Engine.Group`; the second component is the new `*RouteGroup`. -/
def Engine.Group (w : World H) (path : String) : World H × Nat :=
  let group : RouteGroup :=
    { basePath := "/" ++ path, routes := [], groupMiddlewares := w.engine.globalMiddlewares }
  ({ w with groupObjs := w.groupObjs ++ [group],
            engine := { w.engine with routeGroups := w.engine.routeGroups ++ [w.groupObjs.length] } },
    w.groupObjs.length)

/-- Embeds `Engine.POST`. -/
def Engine.POST (w : World H) (path : String) (handler : H) : World H × Nat :=
  Engine.register w path "POST" handler

/-- Embeds `Engine.GET`. -/
def Engine.GET (w : World H) (path : String) (handler : H) : World H × Nat :=
  Engine.register w path "GET" handler

/-- Embeds `Engine.DELETE`. -/
def Engine.DELETE (w : World H) (path : String) (handler : H) : World H × Nat :=
  Engine.register w path "DELETE" handler

/-- Embeds `Engine.PUT`. -/
def Engine.PUT (w : World H) (path : String) (handler : H) : World H × Nat :=
  Engine.register w path "PUT" handler

/-- Embeds `Engine.PATCH`. -/
def Engine.PATCH (w : World H) (path : String) (handler : H) : World H × Nat :=
  Engine.register w path "PATCH" handler

/-- Embeds `RouteGroup.Use` on the group `rg`. -/
def RouteGroup.Use (grow : Nat → Nat → Nat) (w : World H) (rg : Nat) (middlewares : List H) :
    World H :=
  match w.groupObjs[rg]? with
  | none => w
  | some group =>
    let r := appendSlice grow w.heap group.groupMiddlewares middlewares
    { w with heap := r.1, groupObjs := w.groupObjs.set rg { group with groupMiddlewares := r.2 } }

/-- Embeds `RouteGroup.register` on the group `rg`; the second component is the new
`*Route`. -/
def RouteGroup.register (w : World H) (rg : Nat) (path method : String) (handler : H) :
    World H × Nat :=
  match w.groupObjs[rg]? with
  | none => (w, w.routeObjs.length)
  | some group =>
    let route : Route H :=
      { path := path, method := method, handler := handler,
        middlewaresChain := group.groupMiddlewares, requireAuth := false, allowedRoles := [] }
    ({ w with routeObjs := w.routeObjs ++ [route],
              groupObjs := w.groupObjs.set rg
                { group with routes := group.routes ++ [w.routeObjs.length] } },
      w.routeObjs.length)

/-- Embeds `RouteGroup.POST`. -/
def RouteGroup.POST (w : World H) (rg : Nat) (path : String) (handler : H) : World H × Nat :=
  RouteGroup.register w rg path "POST" handler

/-- Embeds `RouteGroup.GET`. -/
def RouteGroup.GET (w : World H) (rg : Nat) (path : String) (handler : H) : World H × Nat :=
  RouteGroup.register w rg path "GET" handler

/-- Embeds `RouteGroup.DELETE`. -/
def RouteGroup.DELETE (w : World H) (rg : Nat) (path : String) (handler : H) : World H × Nat :=
  RouteGroup.register w rg path "DELETE" handler

/-- Embeds `RouteGroup.PUT`. -/
def RouteGroup.PUT (w : World H) (rg : Nat) (path : String) (handler : H) : World H × Nat :=
  RouteGroup.register w rg path "PUT" handler

/-- Embeds `RouteGroup.PATCH`. -/
def RouteGroup.PATCH (w : World H) (rg : Nat) (path : String) (handler : H) : World H × Nat :=
  RouteGroup.register w rg path "PATCH" handler

/-- Embeds `Route.Auth` on the route `r`. -/
def Route.Auth (w : World H) (r : Nat) : World H :=
  w.updRoute r fun route => { route with requireAuth := true }

/-- Embeds `Route.Roles` on the route `r`. -/
def Route.Roles (w : World H) (r : Nat) (roles : List Int) : World H :=
  w.updRoute r fun route =>
    { route with requireAuth := true, allowedRoles := route.allowedRoles ++ roles }

/-- Embeds `Route.Use` on the route `r`. -/
def Route.Use (grow : Nat → Nat → Nat) (w : World H) (r : Nat) (middlewares : List H) : World H :=
  match w.routeObjs[r]? with
  | none => w
  | some route =>
    let res := appendSlice grow w.heap route.middlewaresChain middlewares
    { w with heap := res.1, routeObjs := w.routeObjs.set r { route with middlewaresChain := res.2 } }

/-- Embeds `Engine.isPathExist`. -/
def Engine.isPathExist (w : World H) (path : String) : Bool :=
  (w.engine.routes.any fun r =>
      match w.routeObjs[r]? with
      | none => false
      | some route => route.path == path) ||
  (w.engine.routeGroups.any fun g =>
      match w.groupObjs[g]? with
      | none => false
      | some group =>
        group.routes.any fun r =>
          match w.routeObjs[r]? with
          | none => false
          | some route => route.path == path)

/-- The registration half of `Engine.handle`: `http.HandleFunc(route.path, ...)`.
The function value registered is `Engine.handle` below, run on the state the
program has when the request arrives. -/
def Engine.mount (w : World H) (r : Nat) : World H :=
  match w.routeObjs[r]? with
  | none => w
  | some route => { w with mux := w.mux ++ [(route.path, r)] }

/-- The body of the first loop of `Engine.Apply`, for one top-level route. -/
def Engine.applyRoute (grow : Nat → Nat → Nat) (w : World H) (r : Nat) : World H :=
  match w.routeObjs[r]? with
  | none => w
  | some route =>
    let res := appendSlice grow w.heap route.middlewaresChain [route.handler]
    Engine.mount
      { w with heap := res.1,
               routeObjs := w.routeObjs.set r { route with middlewaresChain := res.2 } } r

/-- The body of the inner loop of `Engine.Apply`, for one route of a group
with base path `basePath`. -/
def Engine.applyGroupRoute (grow : Nat → Nat → Nat) (basePath : String) (w : World H) (r : Nat) :
    World H :=
  match w.routeObjs[r]? with
  | none => w
  | some route =>
    let res := appendSlice grow w.heap route.middlewaresChain [route.handler]
    Engine.mount
      { w with heap := res.1,
               routeObjs := w.routeObjs.set r
                 { route with middlewaresChain := res.2, path := basePath ++ route.path } } r

/-- The body of the outer group loop of `Engine.Apply`. -/
def Engine.applyGroup (grow : Nat → Nat → Nat) (w : World H) (g : Nat) : World H :=
  match w.groupObjs[g]? with
  | none => w
  | some group => group.routes.foldl (Engine.applyGroupRoute grow group.basePath) w

/-- Embeds `Engine.Apply`. -/
def Engine.Apply (grow : Nat → Nat → Nat) (w : World H) : World H :=
  let w1 := w.engine.routes.foldl (Engine.applyRoute grow) w
  w1.engine.routeGroups.foldl (Engine.applyGroup grow) w1

/-! ## Dispatch (`engine.go`, `helpers.go`, `middlewares.go`) -/

/-- Embeds `Engine.extractToken`. -/
def Engine.extractToken (req : Request) : String :=
  let token := req.Authorization
  if token.length > 7 && token.take 7 == "Bearer " then token.drop 7 else token

/-- Embeds `Engine.newContext`; `now` is the value of `time.Now()`. -/
def Engine.newContext (w : World Prog) (wr : List WriterCall) (req : Request)
    (route : Route Prog) (now : Nat) : Context :=
  { data :=
      { Writer := wr, Request := req, FullPath := route.path,
        Client := { UserID := 0, RoleID := 0, SessionToken := Engine.extractToken req },
        Body := none, MultipartForm := none, CustomData := none, StatusCode := 200,
        AllowedRoles := route.allowedRoles, CreatedAt := now },
    HandlersChain := readSlice w.heap route.middlewaresChain,
    Index := 0, Aborted := false, trace := [], panicking := none }

/-- Embeds `Engine.recoverPanic`, run as the deferred call of a request whose final
Context is `c`: the lines it logs.  A failing read of the body is taken to
fail before the first byte. -/
def Engine.recoverPanic (c : Context) : List String :=
  match c.panicking with
  | none => []
  | some err =>
    let body := if c.data.Request.readErr.isSome then "" else c.data.Request.unread
    ["[PANIC RECOVERED]:\n" ++ err ++ "\nEndpoint: " ++ c.data.Request.Path ++
      "\nBody: " ++ body ++ "\n\n"]

/-- What one request leaves behind: the calls made on the response writer,
the ghost trace, the final Context when one was built, and the log lines. -/
structure Outcome where
  Writer : List WriterCall
  trace : List Event
  final : Option Context
  log : List String

/-- The calls `http.NotFound` makes on the writer. -/
def notFound : List WriterCall :=
  [WriterCall.setHeader "Content-Type" "text/plain; charset=utf-8",
   WriterCall.setHeader "X-Content-Type-Options" "nosniff",
   WriterCall.writeHeader 404,
   WriterCall.write "404 page not found\n"]

/-- The payload `H{"error": "couldn't parse request body"}` as encoded. -/
def parseErrorPayload : Payload :=
  .ok "\x7b\"error\":\"couldn\x27t parse request body\"\x7d"

/-- The end of a request that built a Context: the deferred `recoverPanic`
has run. -/
def Outcome.ofContext (c : Context) : Outcome :=
  { Writer := c.data.Writer, trace := c.trace, final := some c, log := Engine.recoverPanic c }

/-- Lines 105-107 of `Engine.handle`: the auth hook is called when the route
requires auth and a hook is installed. -/
def Engine.callAuth (w : World Prog) (route : Route Prog) (fuel : Nat) (c : Context) :
    Option Context :=
  match route.requireAuth, w.engine.authFunc with
  | true, some authFunc =>
    authFunc.exec (Context.Next fuel) { c with trace := c.trace ++ [Event.auth] }
  | _, _ => some c

/-- Lines 109-111 of `Engine.handle`: the body is parsed, and a failure is
reported with `AbortWithStatusJSON`. -/
def Engine.parseOrAbort (c : Context) : Context :=
  let r := c.parseBody
  let c1 : Context := { r.1 with trace := r.1.trace ++ [Event.parse r.2] }
  match r.2 with
  | some _ => c1.AbortWithStatusJSON 500 parseErrorPayload
  | none => c1

/-- The function `Engine.handle` registers for `route`, run on one request
against the state `w`.  Nested handler calls are bounded by the length of
the chain; `none` means the bound was reached.  A panic in the auth hook
skips the rest of the function. -/
def Engine.handle (w : World Prog) (route : Route Prog) (now : Nat) (req : Request) :
    Option Outcome :=
  if !Engine.isPathExist w req.Path then
    some { Writer := notFound, trace := [], final := none, log := [] }
  else if req.Method ≠ route.method then
    some { Writer := [WriterCall.writeHeader 405], trace := [], final := none, log := [] }
  else
    let c := Engine.newContext w [] req route now
    let fuel := c.HandlersChain.length
    match Engine.callAuth w route fuel c with
    | none => none
    | some c1 =>
      if c1.panicking.isSome then some (Outcome.ofContext c1)
      else
        match (Engine.parseOrAbort c1).Next fuel with
        | none => none
        | some c3 => some (Outcome.ofContext c3)

/-- The function registered for the route `r` by `Engine.mount`. -/
def World.serve (w : World Prog) (r : Nat) (now : Nat) (req : Request) : Option Outcome :=
  match w.routeObjs[r]? with
  | none => none
  | some route => Engine.handle w route now req

/-- Embeds `allowAllCORS` of `middlewares.go`. -/
def allowAllCORS : Prog :=
  .assign (fun d => { d with Writer :=
      d.Writer ++ [WriterCall.setHeader "Access-Control-Allow-Origin" "*"] }) <|
  .read fun v =>
    if v.data.Request.Method = "OPTIONS" then
      .assign (fun d => { d with Writer := d.Writer ++ [WriterCall.writeHeader 200] }) .ret
    else .next .ret

/-- The status line the transport sends for a sequence of writer calls: the
first `WriteHeader` wins, and a `Write` before any `WriteHeader` sends 200. -/
def statusSent : List WriterCall → Option Int
  | [] => none
  | .writeHeader code :: _ => some code
  | .write _ :: _ => some 200
  | .setHeader _ _ :: rest => statusSent rest

/-- The invoked chain positions of a trace, in order. -/
def invoked : List Event → List Nat
  | [] => []
  | .invoke i :: rest => i :: invoked rest
  | _ :: rest => invoked rest

/-- A plain request: no headers, empty body, every library call succeeds. -/
def Request.plain (method path : String) : Request :=
  { Method := method, Path := path, Authorization := "", ContentType := "",
    mediaType := .error "mime: no media type",
    multipart := .error "request Content-Type isn\x27t multipart/form-data",
    formErr := none, formReadsBody := false, readErr := none, unread := "",
    MultipartForm := none, calls := [] }

/-! ## Traces -/

/-- Whether `Abort` ran in a trace. -/
def hasAbort : List Event → Bool
  | [] => false
  | .abort :: _ => true
  | _ :: rest => hasAbort rest

/-- Whether no handler is started once the flag is set; the first argument
says whether it is set at the start of the trace. -/
def okAfter : Bool → List Event → Bool
  | _, [] => true
  | aborted, .invoke _ :: rest => !aborted && okAfter aborted rest
  | _, .abort :: rest => okAfter true rest
  | aborted, _ :: rest => okAfter aborted rest

/-- Whether a trace holds only the events handlers produce. -/
def handlerOnly : List Event → Bool
  | [] => true
  | .invoke _ :: rest => handlerOnly rest
  | .abort :: rest => handlerOnly rest
  | .panic _ _ :: rest => handlerOnly rest
  | _ :: _ => false

/-- The step relation of a traversal: the chain is fixed, the cursor moves
forward by exactly the positions started, the flag is set exactly by the
`Abort` calls made, and no position is started once it is set. -/
structure Advances (c c' : Context) : Prop where
  chain : c'.HandlersChain = c.HandlersChain
  idx : c.Index ≤ c'.Index
  bound : c.Index ≤ c.HandlersChain.length → c'.Index ≤ c.HandlersChain.length
  ev : ∃ t, c'.trace = c.trace ++ t ∧ invoked t = List.range' c.Index (c'.Index - c.Index) ∧
    handlerOnly t = true ∧ c'.Aborted = (c.Aborted || hasAbort t) ∧ okAfter c.Aborted t = true

/-! ## Classes of handler bodies -/

/-- A body that, whatever it reads, never aborts and never panics. -/
def Prog.Quiet : Prog → Prop
  | .ret => True
  | .next k => k.Quiet
  | .abort _ => False
  | .abortWithStatus _ _ => False
  | .abortWithStatusJSON _ _ _ => False
  | .set _ _ k => k.Quiet
  | .get _ k => ∀ v b, (k v b).Quiet
  | .status _ k => k.Quiet
  | .json _ _ k => ∀ e, (k e).Quiet
  | .read k => ∀ v, (k v).Quiet
  | .assign _ k => k.Quiet
  | .panic _ => False

/-- A body that, whatever it reads, calls `Next` exactly `n` times, never
aborts and never panics. -/
def Prog.CallsNext : Prog → Nat → Prop
  | .ret, n => n = 0
  | .next k, n => ∃ m, n = m + 1 ∧ k.CallsNext m
  | .abort _, _ => False
  | .abortWithStatus _ _, _ => False
  | .abortWithStatusJSON _ _ _, _ => False
  | .set _ _ k, n => k.CallsNext n
  | .get _ k, n => ∀ v b, (k v b).CallsNext n
  | .status _ k, n => k.CallsNext n
  | .json _ _ k, n => ∀ e, (k e).CallsNext n
  | .read k, n => ∀ v, (k v).CallsNext n
  | .assign _ k, n => k.CallsNext n
  | .panic _, _ => False

/-- A body that, whatever it reads, never calls `Next`. -/
def Prog.NoNext : Prog → Prop
  | .ret => True
  | .next _ => False
  | .abort k => k.NoNext
  | .abortWithStatus _ k => k.NoNext
  | .abortWithStatusJSON _ _ k => k.NoNext
  | .set _ _ k => k.NoNext
  | .get _ k => ∀ v b, (k v b).NoNext
  | .status _ k => k.NoNext
  | .json _ _ k => ∀ e, (k e).NoNext
  | .read k => ∀ v, (k v).NoNext
  | .assign _ k => k.NoNext
  | .panic _ => True

/-! ## Registered routes -/

/-- The routes the engine reaches: its top-level routes, then the routes of
its groups. -/
def World.allRoutes (w : World H) : List Nat :=
  w.engine.routes ++
    w.engine.routeGroups.flatMap fun g =>
      match w.groupObjs[g]? with
      | none => []
      | some group => group.routes

/-- The current paths of the routes the engine reaches. -/
def World.finalPaths (w : World H) : List String :=
  w.allRoutes.filterMap fun r =>
    match w.routeObjs[r]? with
    | none => none
    | some route => some route.path

/-- The condition of line 105 of `engine.go`. -/
def Engine.authGate (w : World Prog) (route : Route Prog) : Bool :=
  route.requireAuth && w.engine.authFunc.isSome

/-- A Context at the start of a traversal of `chain`, for a plain `GET /`. -/
def Context.start (chain : List Prog) : Context :=
  { data :=
      { Writer := [], Request := Request.plain "GET" "/", FullPath := "/",
        Client := { UserID := 0, RoleID := 0, SessionToken := "" },
        Body := none, MultipartForm := none, CustomData := none, StatusCode := 200,
        AllowedRoles := [], CreatedAt := 0 },
    HandlersChain := chain, Index := 0, Aborted := false, trace := [], panicking := none }

/-! ## Sample programs and engines -/

/-- A middleware that only calls `Next`. -/
def passThrough : Prog := .next .ret

/-- The handler of scenario 1: `c.JSON(200, H{"status": "ok"})`. -/
def healthHandler : Prog := .json 200 (.ok "\x7b\"status\":\"ok\"\x7d") fun _ => .ret

/-- An auth hook that fills in the client and returns. -/
def fillClient : Prog :=
  .assign (fun d => { d with Client := { d.Client with UserID := 7, RoleID := 1 } }) .ret

/-- An auth hook that rejects every request with 401. -/
def rejectAll : Prog := .abortWithStatus 401 .ret

/-- The engine built by `UseAuth(hook)`, `GET("/health", healthHandler)`,
`Use(passThrough)` and `Auth()` on that route, then `Apply()`. -/
def healthWorld (hook : Prog) : World Prog :=
  let w0 := Engine.UseAuth New hook
  let w1 := Engine.GET w0 "/health" healthHandler
  let w2 := Route.Use gcGrow w1.1 w1.2 [passThrough]
  let w3 := Route.Auth w2 w1.2
  Engine.Apply gcGrow w3

/-- The route object of `healthWorld` after `Apply`. -/
def healthRoute : Route Prog :=
  { path := "/health", method := "GET", handler := healthHandler,
    middlewaresChain := { ptr := 1, len := 2, cap := 2 }, requireAuth := true,
    allowedRoles := [] }

/-- A request whose Content-Type header `mime.ParseMediaType` rejects. -/
def Request.malformed (method path : String) : Request :=
  { Request.plain method path with
    ContentType := "text/html; charset", mediaType := .error "mime: invalid media parameter" }

/-- The registration `e.Use(m1); e.Use(m2); e.Use(m3); g := e.Group("api");
g.GET("/a", ha); g.GET("/b", hb)`, with handlers named by strings.  The
routes `/a` and `/b` are the objects 0 and 1, the group is the object 0. -/
def siblingSetup : World String :=
  let w1 := Engine.Use gcGrow New ["m1"]
  let w2 := Engine.Use gcGrow w1 ["m2"]
  let w3 := Engine.Use gcGrow w2 ["m3"]
  let g := Engine.Group w3 "api"
  let a := RouteGroup.GET g.1 g.2 "/a" "ha"
  let b := RouteGroup.GET a.1 g.2 "/b" "hb"
  b.1

/-- The registration `e.Use(m); e.GET("/x", h)`. -/
def topLevelSetup : World String :=
  let w1 := Engine.Use gcGrow New ["m"]
  (Engine.GET w1 "/x" "h").1

/-- The registration `e.Use(m1); e.Use(m2); e.Use(m3); h := e.Group("h");
e.Use(m4); g := e.Group("g")`: the group `h` is the object 0, `g` is 1. -/
def twoGroupSetup : World String :=
  let w1 := Engine.Use gcGrow New ["m1"]
  let w2 := Engine.Use gcGrow w1 ["m2"]
  let w3 := Engine.Use gcGrow w2 ["m3"]
  let h := Engine.Group w3 "h"
  let w4 := Engine.Use gcGrow h.1 ["m4"]
  (Engine.Group w4 "g").1

/-- The registration `e.Use(m1); e.Use(m2); e.Use(m3); g := e.Group("g");
r := g.GET("/a", ha); r.Use(x)`: the route is the object 0. -/
def routeUseSetup : World String :=
  let w1 := Engine.Use gcGrow New ["m1"]
  let w2 := Engine.Use gcGrow w1 ["m2"]
  let w3 := Engine.Use gcGrow w2 ["m3"]
  let g := Engine.Group w3 "g"
  let r := RouteGroup.GET g.1 g.2 "/a" "ha"
  Route.Use gcGrow r.1 r.2 ["x"]

/-! ## Registration scripts -/

/-- One registration call made by client code before `Apply`.  Routes and
groups are named by their object numbers; a call on an object that does not
exist does nothing. -/
inductive Cmd (H : Type) where
  | useAuth (authFunc : H) : Cmd H
  | allowAllCORS : Cmd H
  | use (middlewares : List H) : Cmd H
  | register (path method : String) (handler : H) : Cmd H
  | group (path : String) : Cmd H
  | groupUse (rg : Nat) (middlewares : List H) : Cmd H
  | groupRegister (rg : Nat) (path method : String) (handler : H) : Cmd H
  | routeAuth (r : Nat) : Cmd H
  | routeRoles (r : Nat) (roles : List Int) : Cmd H
  | routeUse (r : Nat) (middlewares : List H) : Cmd H

/-- The effect of one registration call. -/
def Cmd.run (grow : Nat → Nat → Nat) (cors : H) (w : World H) : Cmd H → World H
  | .useAuth f => Engine.UseAuth w f
  | .allowAllCORS => Engine.AllowAllCORS grow cors w
  | .use mws => Engine.Use grow w mws
  | .register path method handler => (Engine.register w path method handler).1
  | .group path => (Engine.Group w path).1
  | .groupUse rg mws => RouteGroup.Use grow w rg mws
  | .groupRegister rg path method handler => (RouteGroup.register w rg path method handler).1
  | .routeAuth r => Route.Auth w r
  | .routeRoles r roles => Route.Roles w r roles
  | .routeUse r mws => Route.Use grow w r mws

/-- The effect of a sequence of registration calls. -/
def runCmds (grow : Nat → Nat → Nat) (cors : H) (w : World H) (cmds : List (Cmd H)) : World H :=
  cmds.foldl (Cmd.run grow cors) w

/-- The current path of a route object. -/
def World.pathOf (w : World H) (r : Nat) : Option String :=
  (w.routeObjs[r]?).map fun route => route.path

/-- The routes of a group object. -/
def World.routesOf (w : World H) (g : Nat) : Option (List Nat) :=
  (w.groupObjs[g]?).map fun group => group.routes

/-- The base path of a group object. -/
def World.baseOf (w : World H) (g : Nat) : Option String :=
  (w.groupObjs[g]?).map fun group => group.basePath

/-- Pointer structure of a state built by registration calls: every group
is listed once, every route belongs to one list only and occurs once in it,
and every pointer points to an object. -/
structure World.Sound (w : World H) : Prop where
  gnodup : w.engine.routeGroups.Nodup
  gbound : ∀ g ∈ w.engine.routeGroups, g < w.groupObjs.length
  rnodup : ∀ g rs, w.routesOf g = some rs → rs.Nodup
  rbound : ∀ g rs, w.routesOf g = some rs → ∀ r ∈ rs, r < w.routeObjs.length
  owner : ∀ g g' rs rs' r, w.routesOf g = some rs → w.routesOf g' = some rs' →
    r ∈ rs → r ∈ rs' → g = g'
  top : ∀ r ∈ w.engine.routes,
    r < w.routeObjs.length ∧ ∀ g rs, w.routesOf g = some rs → r ∉ rs

/-- What registration calls keep: paths, base paths, and membership of routes
and groups. -/
structure World.Extends (w w' : World H) : Prop where
  paths : ∀ r q, w.pathOf r = some q → w'.pathOf r = some q
  bases : ∀ g b, w.baseOf g = some b → w'.baseOf g = some b
  members : ∀ g rs, w.routesOf g = some rs → ∃ rs', w'.routesOf g = some rs' ∧ ∀ r ∈ rs, r ∈ rs'
  tops : ∀ r ∈ w.engine.routes, r ∈ w'.engine.routes
  groups : ∀ g ∈ w.engine.routeGroups, g ∈ w'.engine.routeGroups

/-- Two states with the same routes, groups and paths. -/
structure World.SameShape (w w' : World H) : Prop where
  paths : ∀ r, w'.pathOf r = w.pathOf r
  bases : ∀ g, w'.baseOf g = w.baseOf g
  members : ∀ g, w'.routesOf g = w.routesOf g
  nroutes : w'.routeObjs.length = w.routeObjs.length
  ngroups : w'.groupObjs.length = w.groupObjs.length
  tops : w'.engine.routes = w.engine.routes
  groups : w'.engine.routeGroups = w.engine.routeGroups

/-! ## Sequences of Context operations -/

/-- A sequence of `Set` calls, in call order. -/
def Context.setAll (c : Context) (sets : List (String × Any)) : Context :=
  sets.foldl (fun c kv => c.Set kv.1 kv.2) c

/-- The value given by the most recent `Set` of `key` in a sequence of `Set`
calls, if there is one. -/
def lastSet (sets : List (String × Any)) (key : String) : Option Any :=
  match sets with
  | [] => none
  | (k, v) :: rest =>
    match lastSet rest key with
    | some v' => some v'
    | none => if k = key then some v else none

/-- A call of one of the exported cursor and store operations of `Context`. -/
inductive Op where
  | next : Op
  | abort : Op
  | abortWithStatus (status : Int) : Op
  | abortWithStatusJSON (status : Int) (json : Payload) : Op
  | set (key : String) (value : Any) : Op
  | get (key : String) : Op
  | status (code : Int) : Op

/-- The Context after one operation (`Get` only returns a value). -/
def Op.run (fuel : Nat) (c : Context) : Op → Option Context
  | .next => c.Next fuel
  | .abort => some c.Abort
  | .abortWithStatus s => some (c.AbortWithStatus s)
  | .abortWithStatusJSON s j => some (c.AbortWithStatusJSON s j)
  | .set key v => some (c.Set key v)
  | .get _ => some c
  | .status code => some (c.Status code)

/-- The Contexts after each operation of a sequence run by one caller; a
panic raised under `Next` ends the sequence. -/
def runOps (fuel : Nat) (c : Context) : List Op → Option (List Context)
  | [] => some []
  | op :: ops =>
    match op.run fuel c with
    | none => none
    | some c1 =>
      if c1.panicking.isSome then some [c1]
      else (runOps fuel c1 ops).map fun rest => c1 :: rest

/-! ## Panics -/

/-- A handler that writes a status and then panics. -/
def statusThenPanic : Prog := .status 202 (.panic "boom")

/-- The engine built by `POST("/x", statusThenPanic)`, `Use(passThrough)` on
that route, then `Apply()`; the route is the object 0. -/
def panicWorld : World Prog :=
  let w1 := Engine.POST New "/x" statusThenPanic
  let w2 := Route.Use gcGrow w1.1 w1.2 [passThrough]
  Engine.Apply gcGrow w2

/-- A request with a JSON body that every library call accepts. -/
def Request.json (method path body : String) : Request :=
  { Request.plain method path with
    ContentType := "application/json", mediaType := .ok "application/json", unread := body }

/-! ## Verbs -/

/-- The verb of a route object. -/
def World.verbOf (w : World H) (r : Nat) : Option String :=
  (w.routeObjs[r]?).map fun route => route.method

/-- The verbs of the exported registration methods `GET`, `POST`, `PUT`,
`PATCH` and `DELETE` of `Engine` and `RouteGroup`. -/
def publicVerbs : List String := ["GET", "POST", "PUT", "PATCH", "DELETE"]

/-! ## Allowed roles -/

/-- The fields of a Context other than `AllowedRoles`. -/
def Data.eraseRoles (d : Data) : Data := { d with AllowedRoles := [] }

/-- A view without `AllowedRoles`. -/
def View.eraseRoles (v : View) : View := { v with data := v.data.eraseRoles }

/-- A Context without `AllowedRoles`. -/
def Context.eraseRoles (c : Context) : Context := { c with data := c.data.eraseRoles }

/-- A body that never reads `Context.AllowedRoles`: what it does after a read
does not depend on that field, and neither does what its assignments give
to the other fields. -/
def Prog.RolesBlind : Prog → Prop
  | .ret => True
  | .next k => k.RolesBlind
  | .abort k => k.RolesBlind
  | .abortWithStatus _ k => k.RolesBlind
  | .abortWithStatusJSON _ _ k => k.RolesBlind
  | .set _ _ k => k.RolesBlind
  | .get _ k => ∀ v b, (k v b).RolesBlind
  | .status _ k => k.RolesBlind
  | .json _ _ k => ∀ e, (k e).RolesBlind
  | .read k => (∀ v, k v = k v.eraseRoles) ∧ ∀ v, (k v).RolesBlind
  | .assign f k => (∀ d, (f d).eraseRoles = (f d.eraseRoles).eraseRoles) ∧ k.RolesBlind
  | .panic _ => True

/-- What a client and the log see of a request: the calls on the response
writer, the trace and the log lines. -/
def Outcome.observable (o : Outcome) : List WriterCall × List Event × List String :=
  (o.Writer, o.trace, o.log)

/-! ## Sample requests for body parsing -/

/-- A multipart request that every library call accepts, with its form given
as a string. -/
def Request.multipartForm (method path body form : String) : Request :=
  { Request.plain method path with
    ContentType := "multipart/form-data; boundary=x", mediaType := .ok "multipart/form-data",
    multipart := .ok form, unread := body }

/-- A fresh Context for the request `req`, with an empty chain. -/
def Context.ofRequest (req : Request) : Context :=
  { Context.start [] with data := { (Context.start []).data with Request := req } }

/-- A Context with library calls added to the call log of its request, and
nothing else changed. -/
def Context.withCalls (c : Context) (extra : List ReqCall) : Context :=
  { c with data := { c.data with
      Request := { c.data.Request with calls := c.data.Request.calls ++ extra } } }

/-! ## Validation (`context.go`, `helpers.go`) -/

/-- What `reflect` shows of a value to `isEmpty`: its kind, with what the
accessor of that kind returns.  `float` holds whether `v.Float() == 0`;
`array` and `other` (struct, func, complex, uintptr, unsafe pointer) hold
whether the value equals the zero value of its type. -/
inductive ValueData where
  | string (s : String) : ValueData
  | int (n : Int) : ValueData
  | uint (n : Nat) : ValueData
  | float (isZero : Bool) : ValueData
  | bool (b : Bool) : ValueData
  | slice (isNil : Bool) : ValueData
  | map (isNil : Bool) : ValueData
  | array (isZero : Bool) : ValueData
  | chan (isNil : Bool) : ValueData
  | ptr (isNil : Bool) : ValueData
  | iface (isNil : Bool) : ValueData
  | other (isZero : Bool) : ValueData
deriving DecidableEq, Repr

/-- A `reflect.Value` got with `val.Field(i)`: the name of its type, whether
it comes from an unexported field (then `Interface` panics), and its data. -/
structure Value where
  typeName : String
  readOnly : Bool
  data : ValueData
deriving DecidableEq, Repr

/-- One field of a struct value: its name, the value of its `binding` tag
(empty when there is none) and its value. -/
structure Field where
  Name : String
  binding : String
  value : Value
deriving DecidableEq, Repr

/-- Embeds `reflect.Value.String`: the string itself for a string, and
`<T Value>` for a value of any other type `T`. -/
def Value.String (v : Value) : String :=
  match v.data with
  | .string s => s
  | _ => "<" ++ v.typeName ++ " Value>"

/-- Embeds `isEmpty` of `helpers.go`.  `Except.error` is a panic: `IsNil`
panics on an array, and `Interface` panics on a value got from an unexported
field. -/
def isEmpty (v : Value) : Except String Bool :=
  match v.data with
  | .string s => .ok (s.length == 0)
  | .int n => .ok (n == 0)
  | .uint n => .ok (n == 0)
  | .float isZero => .ok isZero
  | .bool b => .ok (!b)
  | .slice isNil => .ok isNil
  | .map isNil => .ok isNil
  | .array _ => .error "reflect: call of reflect.Value.IsNil on array Value"
  | .chan isNil => .ok isNil
  | .ptr isNil => .ok isNil
  | .iface isNil => .ok isNil
  | .other isZero =>
    if v.readOnly then
      .error "reflect.Value.Interface: cannot return value obtained from unexported field or method"
    else .ok isZero

deriving instance DecidableEq for Except

/-- A regular expression over characters. -/
inductive Regex where
  | fail : Regex
  | eps : Regex
  | set (p : Char → Bool) : Regex
  | cat (a b : Regex) : Regex
  | alt (a b : Regex) : Regex
  | star (a : Regex) : Regex

/-- Whether a regular expression accepts the empty string. -/
def Regex.nullable : Regex → Bool
  | .fail => false
  | .eps => true
  | .set _ => false
  | .cat a b => a.nullable && b.nullable
  | .alt a b => a.nullable || b.nullable
  | .star _ => true

/-- The derivative of a regular expression by a character. -/
def Regex.deriv (c : Char) : Regex → Regex
  | .fail => .fail
  | .eps => .fail
  | .set p => if p c then .eps else .fail
  | .cat a b => if a.nullable then .alt (.cat (a.deriv c) b) (b.deriv c) else .cat (a.deriv c) b
  | .alt a b => .alt (a.deriv c) (b.deriv c)
  | .star a => .cat (a.deriv c) (.star a)

/-- Whether the whole of a string is in the language of a regular
expression. -/
def Regex.accepts (r : Regex) : List Char → Bool
  | [] => r.nullable
  | c :: cs => (r.deriv c).accepts cs

/-- One or more repetitions. -/
def Regex.plus (a : Regex) : Regex := .cat a (.star a)

/-- The pattern `^[a-zA-Z0-9._%+-]+@[a-zA-Z0-9.-]+\.[a-zA-Z]{2,}$` of
`isValidEmail`. -/
def emailRegex : Regex :=
  .cat (Regex.plus (.set fun c => c.isAlphanum || c == '.' || c == '_' || c == '%' ||
      c == '+' || c == '-'))
    (.cat (.set fun c => c == '@')
      (.cat (Regex.plus (.set fun c => c.isAlphanum || c == '.' || c == '-'))
        (.cat (.set fun c => c == '.')
          (.cat (.set Char.isAlpha) (.cat (.set Char.isAlpha) (.star (.set Char.isAlpha)))))))

/-- Embeds `isValidEmail` of `helpers.go`. -/
def isValidEmail (email : String) : Bool :=
  emailRegex.accepts email.data

/-- The pieces of a string between commas, as `strings.Split(tag, ",")`
gives them. -/
def splitComma : List Char → List (List Char)
  | [] => [[]]
  | c :: cs =>
    if c = ',' then [] :: splitComma cs
    else
      match splitComma cs with
      | [] => [[c]]
      | w :: ws => (c :: w) :: ws

/-- The rules of a `binding` tag. -/
def rulesOf (tag : String) : List String :=
  (splitComma tag.data).map String.mk

/-- The inner loop of `validateStruct` over the rules of one field: a panic,
or the error returned, or `none` when the loop ends. -/
def checkRules (name : String) (v : Value) : List String → Except String (Option String)
  | [] => .ok none
  | rule :: rest =>
    if rule = "required" then
      match isEmpty v with
      | .error p => .error p
      | .ok true => .ok (some (name ++ " is required"))
      | .ok false => checkRules name v rest
    else if rule = "email" then
      if !isValidEmail v.String then .ok (some "invalid email format")
      else checkRules name v rest
    else checkRules name v rest

/-- Embeds `validateStruct` of `context.go`, on the fields of a struct value
in declaration order: a panic, or the returned error, or `none` for nil. -/
def validateStruct : List Field → Except String (Option String)
  | [] => .ok none
  | f :: fs =>
    if f.binding = "" then validateStruct fs
    else
      match checkRules f.Name f.value (rulesOf f.binding) with
      | .error p => .error p
      | .ok (some e) => .ok (some e)
      | .ok none => validateStruct fs

/-- Whether a value is the zero value of its type. -/
def ValueData.isZero : ValueData → Bool
  | .string s => s.length == 0
  | .int n => n == 0
  | .uint n => n == 0
  | .float z => z
  | .bool b => !b
  | .slice n => n
  | .map n => n
  | .array z => z
  | .chan n => n
  | .ptr n => n
  | .iface n => n
  | .other z => z

/-- The rules a field violates, in tag order, as error messages. -/
def Field.violations (f : Field) : List String :=
  (rulesOf f.binding).filterMap fun rule =>
    if rule = "required" then
      if f.value.data.isZero then some (f.Name ++ " is required") else none
    else if rule = "email" then
      if !isValidEmail f.value.String then some "invalid email format" else none
    else none

/-- A field on which `isEmpty` is not called or does not panic. -/
def Field.Safe (f : Field) : Prop :=
  "required" ∈ rulesOf f.binding →
    (∀ z, f.value.data ≠ ValueData.array z) ∧
    (∀ z, f.value.data = ValueData.other z → f.value.readOnly = false)

/-- A string field `Email` with the tag `binding:"required,email"`. -/
def emailField (s : String) : Field :=
  { Name := "Email", binding := "required,email",
    value := { typeName := "string", readOnly := false, data := .string s } }

/-- A field `A [2]int` with the tag `binding:"required"`. -/
def arrayField (isZero : Bool) : Field :=
  { Name := "A", binding := "required",
    value := { typeName := "[2]int", readOnly := false, data := .array isZero } }

/-- An unexported field `inner Inner`, of a struct type, with the tag
`binding:"required"`. -/
def innerField (isZero : Bool) : Field :=
  { Name := "inner", binding := "required",
    value := { typeName := "flux.Inner", readOnly := true, data := .other isZero } }

/-! ## The auth requirement -/

/-- An auth hook that calls `Next` and then rejects the request with 401. -/
def nextThenReject : Prog := .next (.abortWithStatus 401 .ret)

/-- An auth hook that checks the bearer token: it rejects the request with
401 when the token is not `secret`, and calls `Next` otherwise. -/
def checkToken : Prog :=
  .read fun v =>
    if v.data.Client.SessionToken = "secret" then .next .ret else .abortWithStatus 401 .ret

/-- The `requireAuth` flag of a route object. -/
def World.authOf (w : World H) (r : Nat) : Option Bool :=
  (w.routeObjs[r]?).map fun route => route.requireAuth

/-- Whether a registration call is `Auth` or `Roles` on the route `r`. -/
def Cmd.callsAuthOn (r : Nat) : Cmd H → Bool
  | .routeAuth r' => r' == r
  | .routeRoles r' _ => r' == r
  | _ => false

/-! # Properties -/

theorem invoked_append (s t : List Event) : invoked (s ++ t) = invoked s ++ invoked t := by
  induction s with
  | nil => rfl
  | cons e s ih => cases e <;> simp [invoked, ih]

theorem hasAbort_append (s t : List Event) : hasAbort (s ++ t) = (hasAbort s || hasAbort t) := by
  induction s with
  | nil => simp [hasAbort]
  | cons e s ih => cases e <;> simp [hasAbort, ih]

theorem handlerOnly_append (s t : List Event) :
    handlerOnly (s ++ t) = (handlerOnly s && handlerOnly t) := by
  induction s with
  | nil => simp [handlerOnly]
  | cons e s ih => cases e <;> simp [handlerOnly, ih]

theorem okAfter_append (a : Bool) (s t : List Event) :
    okAfter a (s ++ t) = (okAfter a s && okAfter (a || hasAbort s) t) := by
  induction s generalizing a with
  | nil => simp [okAfter, hasAbort]
  | cons e s ih => cases e <;> simp [okAfter, hasAbort, ih, Bool.and_assoc]

theorem okAfter_true_invoked (t : List Event) (h : okAfter true t = true) : invoked t = [] := by
  induction t with
  | nil => rfl
  | cons e t ih => cases e <;> simp_all [okAfter, invoked]

theorem invoked_nil_iff (t : List Event) : invoked t = [] ↔ ∀ i, Event.invoke i ∉ t := by
  induction t with
  | nil => simp [invoked]
  | cons e t ih =>
    cases e with
    | invoke j =>
      simp only [invoked, List.cons_ne_nil, false_iff, not_forall, not_not]
      exact ⟨j, List.mem_cons_self _ _⟩
    | abort => simp [invoked, ih]
    | auth => simp [invoked, ih]
    | parse err => simp [invoked, ih]
    | panic v w => simp [invoked, ih]

theorem okAfter_split (a : Bool) (t pre post : List Event) (h : okAfter a t = true)
    (ht : t = pre ++ Event.abort :: post) : ∀ i, Event.invoke i ∉ post := by
  subst ht
  rw [okAfter_append] at h
  simp only [Bool.and_eq_true, okAfter] at h
  exact (invoked_nil_iff post).1 (okAfter_true_invoked post h.2)

theorem Advances.refl (c : Context) : Advances c c :=
  ⟨rfl, Nat.le_refl _, fun h => h, [], by simp [invoked, handlerOnly, hasAbort, okAfter]⟩

theorem Advances.trans {a b c : Context} (h1 : Advances a b) (h2 : Advances b c) :
    Advances a c := by
  obtain ⟨ch1, i1, b1, t1, e1, v1, o1, f1, k1⟩ := h1
  obtain ⟨ch2, i2, b2, t2, e2, v2, o2, f2, k2⟩ := h2
  refine ⟨ch2.trans ch1, Nat.le_trans i1 i2, fun h => ?_, t1 ++ t2, ?_, ?_, ?_, ?_, ?_⟩
  · have := b1 h
    rw [ch1] at b2
    exact b2 this
  · rw [e2, e1, List.append_assoc]
  · rw [invoked_append, v1, v2]
    have h1 : c.Index - a.Index = (c.Index - b.Index) + (b.Index - a.Index) := by omega
    have h2 : b.Index = a.Index + (b.Index - a.Index) := by omega
    rw [h1, ← List.range'_append_1, ← h2]
  · rw [handlerOnly_append, o1, o2]; rfl
  · rw [f2, f1, hasAbort_append, Bool.or_assoc]
  · rw [okAfter_append, k1, ← f1, k2]; rfl

/-- A change of fields other than the cursor, the flag and the trace. -/
theorem Advances.of_data (c : Context) (d : Data) : Advances c { c with data := d } :=
  ⟨rfl, Nat.le_refl _, fun h => h, [], by simp [invoked, handlerOnly, hasAbort, okAfter]⟩

theorem Advances.abort (c : Context) : Advances c c.Abort :=
  ⟨rfl, Nat.le_refl _, fun h => h, [Event.abort],
    by simp [Context.Abort, invoked, handlerOnly, hasAbort, okAfter]⟩

theorem Advances.status (c : Context) (code : Int) : Advances c (c.Status code) :=
  Advances.of_data c _

theorem Advances.json (c : Context) (code : Int) (d : Payload) : Advances c (c.JSON code d).1 :=
  Advances.of_data c _

theorem Advances.abortWithStatus (c : Context) (code : Int) :
    Advances c (c.AbortWithStatus code) :=
  (Advances.abort c).trans (Advances.status _ code)

theorem Advances.abortWithStatusJSON (c : Context) (code : Int) (d : Payload) :
    Advances c (c.AbortWithStatusJSON code d) :=
  (Advances.abort c).trans (Advances.json _ code d)

theorem Advances.set (c : Context) (key : String) (v : Any) : Advances c (c.Set key v) :=
  Advances.of_data c _

/-- Handler bodies advance the traversal whenever `next` does. -/
theorem exec_advances (fuel : Nat) (next : Context → Option Context)
    (hnext : ∀ c : Context, c.HandlersChain.length ≤ c.Index + fuel →
      ∃ c', next c = some c' ∧ Advances c c') :
    ∀ (p : Prog) (c : Context), c.HandlersChain.length ≤ c.Index + fuel →
      ∃ c', p.exec next c = some c' ∧ Advances c c' := by
  have keep : ∀ {c c' : Context}, c.HandlersChain.length ≤ c.Index + fuel → Advances c c' →
      c'.HandlersChain.length ≤ c'.Index + fuel := by
    intro c c' h a
    have := a.idx
    rw [a.chain]
    omega
  have step : ∀ (k : Prog) (c c1 : Context),
      (∀ c : Context, c.HandlersChain.length ≤ c.Index + fuel →
        ∃ c', k.exec next c = some c' ∧ Advances c c') →
      c.HandlersChain.length ≤ c.Index + fuel → Advances c c1 →
      ∃ c', k.exec next c1 = some c' ∧ Advances c c' := by
    intro k c c1 ih h a
    obtain ⟨c', e, a'⟩ := ih c1 (keep h a)
    exact ⟨c', e, a.trans a'⟩
  intro p
  induction p with
  | ret => intro c _; exact ⟨c, rfl, Advances.refl c⟩
  | next k ih =>
    intro c h
    obtain ⟨c1, e1, a1⟩ := hnext c h
    simp only [Prog.exec, e1]
    by_cases hp : c1.panicking.isSome
    · simp only [hp, if_true]; exact ⟨c1, rfl, a1⟩
    · simp only [hp]; exact step k c c1 ih h a1
  | abort k ih => intro c h; exact step k c _ ih h (Advances.abort c)
  | abortWithStatus s k ih => intro c h; exact step k c _ ih h (Advances.abortWithStatus c s)
  | abortWithStatusJSON s j k ih =>
    intro c h; exact step k c _ ih h (Advances.abortWithStatusJSON c s j)
  | set key v k ih => intro c h; exact step k c _ ih h (Advances.set c key v)
  | get key k ih => intro c h; exact ih _ _ c h
  | status code k ih => intro c h; exact step k c _ ih h (Advances.status c code)
  | json code d k ih => intro c h; exact step (k _) c _ (ih _) h (Advances.json c code d)
  | read k ih => intro c h; exact ih _ c h
  | assign f k ih => intro c h; exact step k c _ ih h (Advances.of_data c _)
  | panic v =>
    intro c _
    exact ⟨_, rfl, ⟨rfl, Nat.le_refl _, fun h => h, [Event.panic v c.data.Writer],
      by simp [invoked, handlerOnly, hasAbort, okAfter]⟩⟩

/-- The call `Next` returns whenever the fuel covers the positions left, and advances
the traversal. -/
theorem Next_advances : ∀ (fuel : Nat) (c : Context), c.HandlersChain.length ≤ c.Index + fuel →
    ∃ c', c.Next fuel = some c' ∧ Advances c c' := by
  intro fuel
  induction fuel with
  | zero =>
    intro c h
    unfold Context.Next
    have : ¬ c.Index < c.HandlersChain.length := by omega
    simp only [this, if_false]
    exact ⟨c, rfl, Advances.refl c⟩
  | succ fuel ih =>
    intro c h
    unfold Context.Next
    by_cases hi : c.Index < c.HandlersChain.length
    · by_cases ha : c.Aborted = true
      · rw [if_pos hi, if_pos ha]; exact ⟨c, rfl, Advances.refl c⟩
      · rw [if_pos hi, if_neg ha]
        have start : Advances c
            { c with Index := c.Index + 1, trace := c.trace ++ [Event.invoke c.Index] } := by
          refine ⟨rfl, Nat.le_succ _, fun _ => hi, [Event.invoke c.Index], rfl, ?_, rfl, ?_, ?_⟩
          · simp [invoked]
          · simp [hasAbort]
          · simp only [Bool.not_eq_true] at ha; simp [okAfter, ha]
        obtain ⟨c', e, a⟩ := exec_advances fuel (Context.Next fuel) ih
          (c.HandlersChain.getD c.Index Prog.ret)
          { c with Index := c.Index + 1, trace := c.trace ++ [Event.invoke c.Index] }
          (by simp only; omega)
        exact ⟨c', e, start.trans a⟩
    · simp only [hi, if_false]; exact ⟨c, rfl, Advances.refl c⟩


/-! ## The dispatch entry -/

theorem isPathExist_iff (w : World H) (path : String) :
    Engine.isPathExist w path = true ↔ path ∈ w.finalPaths := by
  unfold Engine.isPathExist World.finalPaths World.allRoutes
  simp only [Bool.or_eq_true, List.any_eq_true, List.mem_filterMap, List.mem_append,
    List.mem_flatMap]
  constructor
  · rintro (⟨r, hr, h⟩ | ⟨g, hg, h⟩)
    · refine ⟨r, Or.inl hr, ?_⟩
      cases hro : w.routeObjs[r]? with
      | none => simp [hro] at h
      | some route => simp [hro] at h; simp [h]
    · cases hgo : w.groupObjs[g]? with
      | none => simp [hgo] at h
      | some group =>
        simp only [hgo, List.any_eq_true] at h
        obtain ⟨r, hr, h⟩ := h
        refine ⟨r, Or.inr ⟨g, hg, by simpa [hgo] using hr⟩, ?_⟩
        cases hro : w.routeObjs[r]? with
        | none => simp [hro] at h
        | some route => simp [hro] at h; simp [h]
  · rintro ⟨r, hr | ⟨g, hg, hr⟩, h⟩
    · refine Or.inl ⟨r, hr, ?_⟩
      cases hro : w.routeObjs[r]? with
      | none => simp [hro] at h
      | some route => simp [hro] at h; simp [h]
    · refine Or.inr ⟨g, hg, ?_⟩
      cases hgo : w.groupObjs[g]? with
      | none => simp [hgo] at hr
      | some group =>
        simp only [hgo] at hr
        simp only [List.any_eq_true]
        refine ⟨r, hr, ?_⟩
        cases hro : w.routeObjs[r]? with
        | none => simp [hro] at h
        | some route => simp [hro] at h; simp [h]

theorem handle_of_unknown_path (w : World Prog) (route : Route Prog) (now : Nat) (req : Request)
    (h : Engine.isPathExist w req.Path = false) :
    Engine.handle w route now req =
      some { Writer := notFound, trace := [], final := none, log := [] } := by
  simp [Engine.handle, h]

theorem handle_of_other_verb (w : World Prog) (route : Route Prog) (now : Nat) (req : Request)
    (h : Engine.isPathExist w req.Path = true) (hm : req.Method ≠ route.method) :
    Engine.handle w route now req =
      some { Writer := [WriterCall.writeHeader 405], trace := [], final := none, log := [] } := by
  simp [Engine.handle, h, hm]

theorem handle_of_match (w : World Prog) (route : Route Prog) (now : Nat) (req : Request)
    (h : Engine.isPathExist w req.Path = true) (hm : req.Method = route.method) :
    Engine.handle w route now req =
      match Engine.callAuth w route (Engine.newContext w [] req route now).HandlersChain.length
          (Engine.newContext w [] req route now) with
      | none => none
      | some c1 =>
        if c1.panicking.isSome then some (Outcome.ofContext c1)
        else
          match (Engine.parseOrAbort c1).Next
              (Engine.newContext w [] req route now).HandlersChain.length with
          | none => none
          | some c3 => some (Outcome.ofContext c3) := by
  simp [Engine.handle, h, hm]

/-- C1: once `Abort` (alone or through `AbortWithStatus` or
`AbortWithStatusJSON`) has run on a Context, no chain position is started
afterwards.  For every chain, every Context `c` on it and every code `p`
calling the Context operations, with fuel that covers the positions left:
the run returns, a run that starts with the flag set starts no position, and
in the events `t` it adds no `invoke` follows an `abort`. -/
theorem abort_stops_chain (fuel : Nat) (p : Prog) (c : Context)
    (hfuel : c.HandlersChain.length ≤ c.Index + fuel) :
    ∃ c' t, p.exec (Context.Next fuel) c = some c' ∧ c'.trace = c.trace ++ t ∧
      (c.Aborted = true → ∀ i, Event.invoke i ∉ t) ∧
      (∀ pre post, t = pre ++ Event.abort :: post → ∀ i, Event.invoke i ∉ post) := by
  obtain ⟨c', e, a⟩ := exec_advances fuel (Context.Next fuel) (Next_advances fuel) p c hfuel
  obtain ⟨t, ht, _, _, _, hok⟩ := a.ev
  refine ⟨c', t, e, ht, ?_, fun pre post hsplit => okAfter_split _ t pre post hok hsplit⟩
  intro hA
  rw [hA] at hok
  exact (invoked_nil_iff t).1 (okAfter_true_invoked t hok)

/-- Witness of C1: a three-handler chain whose second handler aborts and then
calls `Next`. -/
theorem abort_stops_chain_witness :
    (Context.start [Prog.next (Prog.next Prog.ret), Prog.abort (Prog.next Prog.ret),
        Prog.ret]).HandlersChain.length ≤
      (Context.start [Prog.next (Prog.next Prog.ret), Prog.abort (Prog.next Prog.ret),
        Prog.ret]).Index + 3 ∧
    ∃ c' t, (Prog.next Prog.ret).exec (Context.Next 3)
        (Context.start [Prog.next (Prog.next Prog.ret), Prog.abort (Prog.next Prog.ret),
          Prog.ret]) = some c' ∧
      c'.trace = (Context.start [Prog.next (Prog.next Prog.ret),
        Prog.abort (Prog.next Prog.ret), Prog.ret]).trace ++ t ∧
      ((Context.start [Prog.next (Prog.next Prog.ret), Prog.abort (Prog.next Prog.ret),
        Prog.ret]).Aborted = true → ∀ i, Event.invoke i ∉ t) ∧
      (∀ pre post, t = pre ++ Event.abort :: post → ∀ i, Event.invoke i ∉ post) :=
  ⟨by decide, abort_stops_chain 3 (Prog.next Prog.ret) _ (by decide)⟩

/-- C3: a request whose path is none of the final paths is answered 404, and
one whose path is registered but whose verb is not the route's is answered
405; in both cases no Context is built and the trace is empty: no auth hook,
no handler, no body parse. -/
theorem unmatched_request_rejected (w : World Prog) (route : Route Prog) (now : Nat)
    (req : Request) :
    (req.Path ∉ w.finalPaths →
      ∃ out, Engine.handle w route now req = some out ∧ statusSent out.Writer = some 404 ∧
        out.trace = [] ∧ out.final = none ∧ out.log = []) ∧
    (req.Path ∈ w.finalPaths → req.Method ≠ route.method →
      ∃ out, Engine.handle w route now req = some out ∧ statusSent out.Writer = some 405 ∧
        out.trace = [] ∧ out.final = none ∧ out.log = []) := by
  constructor
  · intro h
    have : Engine.isPathExist w req.Path = false := by
      rw [← Bool.not_eq_true, isPathExist_iff]; exact h
    exact ⟨_, handle_of_unknown_path w route now req this, rfl, rfl, rfl, rfl⟩
  · intro h hm
    exact ⟨_, handle_of_other_verb w route now req ((isPathExist_iff w _).2 h) hm,
      rfl, rfl, rfl, rfl⟩

/-! ## Full traversals -/

theorem Advances.start (c : Context) (hi : c.Index < c.HandlersChain.length)
    (ha : c.Aborted = false) :
    Advances c { c with Index := c.Index + 1, trace := c.trace ++ [Event.invoke c.Index] } := by
  refine ⟨rfl, Nat.le_succ _, fun _ => hi, [Event.invoke c.Index], rfl, ?_, rfl, ?_, ?_⟩
  · simp [invoked]
  · simp [hasAbort]
  · simp [okAfter, ha]

theorem Next_of_running (fuel : Nat) (c : Context) (hi : c.Index < c.HandlersChain.length)
    (ha : c.Aborted = false) :
    c.Next (fuel + 1) = (c.HandlersChain.getD c.Index Prog.ret).exec (Context.Next fuel)
      { c with Index := c.Index + 1, trace := c.trace ++ [Event.invoke c.Index] } := by
  have ha' : ¬ c.Aborted = true := by simp [ha]
  rw [Context.Next, if_pos hi, if_neg ha']

/-- At the end of the chain `Next` changes nothing that matters. -/
theorem Next_at_end (fuel : Nat) (c : Context) (hi : c.Index = c.HandlersChain.length) :
    ∃ c', c.Next fuel = some c' ∧ Advances c c' ∧ c'.Index = c.HandlersChain.length := by
  obtain ⟨c', e, a⟩ := Next_advances fuel c (by omega)
  refine ⟨c', e, a, ?_⟩
  have h1 := a.idx
  have h2 := a.bound (by omega)
  omega

/-- A body that calls `Next` before anything aborts drives the traversal to
the end of the chain, when `next` does. -/
theorem exec_runs_all (fuel : Nat) (chain : List Prog)
    (hA : ∀ c : Context, c.HandlersChain = chain → c.Index ≤ chain.length → c.Aborted = false →
      chain.length ≤ c.Index + fuel →
      ∃ c', c.Next fuel = some c' ∧ Advances c c' ∧ c'.Index = chain.length) :
    ∀ (p : Prog) (n : Nat), p.CallsNext (n + 1) → ∀ c : Context, c.HandlersChain = chain →
      c.Index ≤ chain.length → c.Aborted = false → chain.length ≤ c.Index + fuel →
      ∃ c', p.exec (Context.Next fuel) c = some c' ∧ Advances c c' ∧
        c'.Index = chain.length := by
  intro p
  induction p with
  | ret => intro n h; simp [Prog.CallsNext] at h
  | next k _ =>
    intro n _ c hc hi ha hf
    obtain ⟨c1, e1, a1, i1⟩ := hA c hc hi ha hf
    simp only [Prog.exec, e1]
    by_cases hp : c1.panicking.isSome
    · simp only [hp, if_true]; exact ⟨c1, rfl, a1, i1⟩
    · simp only [hp]
      have hc1 : c1.HandlersChain = chain := a1.chain.trans hc
      obtain ⟨c', e, a⟩ := exec_advances fuel (Context.Next fuel) (Next_advances fuel) k c1
        (by rw [hc1]; omega)
      refine ⟨c', e, a1.trans a, ?_⟩
      have h1 := a.idx
      have h2 := a.bound (by rw [hc1]; omega)
      rw [hc1] at h2
      omega
  | abort k _ => intro n h; simp [Prog.CallsNext] at h
  | abortWithStatus s k _ => intro n h; simp [Prog.CallsNext] at h
  | abortWithStatusJSON s j k _ => intro n h; simp [Prog.CallsNext] at h
  | set key v k ih =>
    intro n h c hc hi ha hf
    obtain ⟨c', e, a, i⟩ := ih n h (c.Set key v) hc hi ha hf
    exact ⟨c', e, (Advances.set c key v).trans a, i⟩
  | get key k ih =>
    intro n h c hc hi ha hf
    exact ih _ _ n (h _ _) c hc hi ha hf
  | status code k ih =>
    intro n h c hc hi ha hf
    obtain ⟨c', e, a, i⟩ := ih n h (c.Status code) hc hi ha hf
    exact ⟨c', e, (Advances.status c code).trans a, i⟩
  | json code d k ih =>
    intro n h c hc hi ha hf
    obtain ⟨c', e, a, i⟩ := ih _ n (h _) (c.JSON code d).1 hc hi ha hf
    exact ⟨c', e, (Advances.json c code d).trans a, i⟩
  | read k ih =>
    intro n h c hc hi ha hf
    exact ih _ n (h _) c hc hi ha hf
  | assign f k ih =>
    intro n h c hc hi ha hf
    obtain ⟨c', e, a, i⟩ := ih n h { c with data := f c.data } hc hi ha hf
    exact ⟨c', e, (Advances.of_data c _).trans a, i⟩
  | panic v => intro n h; simp [Prog.CallsNext] at h

/-- On a chain whose middlewares each call `Next` once, `Next` on a Context
that is not aborted runs the chain to its end. -/
theorem Next_runs_all (ms : List Prog) (h : Prog) (hms : ∀ m ∈ ms, m.CallsNext 1) :
    ∀ (fuel : Nat) (c : Context), c.HandlersChain = ms ++ [h] →
      c.Index ≤ (ms ++ [h]).length → c.Aborted = false → (ms ++ [h]).length ≤ c.Index + fuel →
      ∃ c', c.Next fuel = some c' ∧ Advances c c' ∧ c'.Index = (ms ++ [h]).length := by
  intro fuel
  induction fuel with
  | zero =>
    intro c hc hi _ hf
    have := Next_at_end 0 c (by rw [hc]; omega)
    rwa [hc] at this
  | succ fuel ih =>
    intro c hc hi ha hf
    by_cases hend : c.Index = (ms ++ [h]).length
    · have := Next_at_end (fuel + 1) c (by rw [hc]; exact hend)
      rwa [hc] at this
    · have hlt : c.Index < c.HandlersChain.length := by rw [hc]; omega
      rw [Next_of_running fuel c hlt ha]
      have st := Advances.start c hlt ha
      by_cases hm : c.Index < ms.length
      · have hmem : c.HandlersChain.getD c.Index Prog.ret ∈ ms := by
          rw [hc, List.getD_eq_getElem?_getD, List.getElem?_append_left hm,
            List.getElem?_eq_getElem hm]
          exact List.getElem_mem _
        obtain ⟨c', e, a, i⟩ := exec_runs_all fuel (ms ++ [h]) ih _ 0 (hms _ hmem)
          { c with Index := c.Index + 1, trace := c.trace ++ [Event.invoke c.Index] }
          hc (by simp only; rw [hc] at hlt; omega) ha (by simp only; omega)
        exact ⟨c', e, st.trans a, i⟩
      · obtain ⟨c', e, a⟩ := exec_advances fuel (Context.Next fuel) (Next_advances fuel)
          (c.HandlersChain.getD c.Index Prog.ret)
          { c with Index := c.Index + 1, trace := c.trace ++ [Event.invoke c.Index] }
          (by simp only; rw [hc]; omega)
        refine ⟨c', e, st.trans a, ?_⟩
        have h1 := a.idx
        have h2 := a.bound (by simp only; omega)
        simp only [hc] at h1 h2
        simp only [List.length_append, List.length_singleton] at hlt hend h2 ⊢
        rw [hc] at hlt
        simp only [List.length_append, List.length_singleton] at hlt
        omega

/-- A hook that never aborts and never panics leaves the Context either at
the end of the chain or neither aborted nor panicking. -/
theorem exec_quiet (fuel : Nat) (chain : List Prog)
    (hA : ∀ c : Context, c.HandlersChain = chain → c.Index ≤ chain.length → c.Aborted = false →
      chain.length ≤ c.Index + fuel →
      ∃ c', c.Next fuel = some c' ∧ Advances c c' ∧ c'.Index = chain.length) :
    ∀ f : Prog, f.Quiet → ∀ c : Context, c.HandlersChain = chain →
      c.Index ≤ chain.length → chain.length ≤ c.Index + fuel →
      (c.Index = chain.length ∨ (c.Aborted = false ∧ c.panicking = none)) →
      ∃ c', f.exec (Context.Next fuel) c = some c' ∧ Advances c c' ∧
        (c'.Index = chain.length ∨ (c'.Aborted = false ∧ c'.panicking = none)) := by
  intro f
  induction f with
  | ret => intro _ c _ _ _ hj; exact ⟨c, rfl, Advances.refl c, hj⟩
  | next k ih =>
    intro hq c hc hi hf hj
    have hstep : ∃ c1, c.Next fuel = some c1 ∧ Advances c c1 ∧ c1.Index = chain.length := by
      rcases hj with hj | ⟨hj, _⟩
      · have := Next_at_end fuel c (by rw [hc]; exact hj)
        rwa [hc] at this
      · exact hA c hc hi hj hf
    obtain ⟨c1, e1, a1, i1⟩ := hstep
    simp only [Prog.exec, e1]
    by_cases hp : c1.panicking.isSome
    · simp only [hp, if_true]; exact ⟨c1, rfl, a1, Or.inl i1⟩
    · simp only [hp]
      obtain ⟨c', e, a, j⟩ := ih hq c1 (a1.chain.trans hc) (by omega) (by omega) (Or.inl i1)
      exact ⟨c', e, a1.trans a, j⟩
  | abort k _ => intro h; simp [Prog.Quiet] at h
  | abortWithStatus s k _ => intro h; simp [Prog.Quiet] at h
  | abortWithStatusJSON s j k _ => intro h; simp [Prog.Quiet] at h
  | set key v k ih =>
    intro h c hc hi hf hj
    obtain ⟨c', e, a, j⟩ := ih h (c.Set key v) hc hi hf hj
    exact ⟨c', e, (Advances.set c key v).trans a, j⟩
  | get key k ih =>
    intro h c hc hi hf hj
    exact ih _ _ (h _ _) c hc hi hf hj
  | status code k ih =>
    intro h c hc hi hf hj
    obtain ⟨c', e, a, j⟩ := ih h (c.Status code) hc hi hf hj
    exact ⟨c', e, (Advances.status c code).trans a, j⟩
  | json code d k ih =>
    intro h c hc hi hf hj
    obtain ⟨c', e, a, j⟩ := ih _ (h _) (c.JSON code d).1 hc hi hf hj
    exact ⟨c', e, (Advances.json c code d).trans a, j⟩
  | read k ih =>
    intro h c hc hi hf hj
    exact ih _ (h _) c hc hi hf hj
  | assign g k ih =>
    intro h c hc hi hf hj
    obtain ⟨c', e, a, j⟩ := ih h { c with data := g c.data } hc hi hf hj
    exact ⟨c', e, (Advances.of_data c _).trans a, j⟩
  | panic v => intro h; simp [Prog.Quiet] at h

/-! ## Body parsing and the auth hook inside the dispatch entry -/

theorem readBody_frame (c : Context) (req : Request) :
    ∃ d, (c.readBody req).1 = { c with data := d } := by
  unfold Context.readBody
  dsimp only
  (repeat' split) <;> exact ⟨_, rfl⟩

theorem parseBody_frame (c : Context) : ∃ d, c.parseBody.1 = { c with data := d } := by
  unfold Context.parseBody
  dsimp only
  (repeat' split) <;> first | exact ⟨_, rfl⟩ | exact readBody_frame c _

theorem parseOrAbort_ok (c : Context) (h : c.parseBody.2 = none) :
    ∃ d, Engine.parseOrAbort c = { c with data := d, trace := c.trace ++ [Event.parse none] } := by
  obtain ⟨d, hd⟩ := parseBody_frame c
  refine ⟨d, ?_⟩
  simp only [Engine.parseOrAbort, h, hd]

theorem parseOrAbort_error (c : Context) (e : String) (h : c.parseBody.2 = some e) :
    ∃ d, Engine.parseOrAbort c =
      ({ c with data := d, trace := c.trace ++ [Event.parse (some e)] } :
        Context).AbortWithStatusJSON 500 parseErrorPayload := by
  obtain ⟨d, hd⟩ := parseBody_frame c
  refine ⟨d, ?_⟩
  simp only [Engine.parseOrAbort, h, hd]

theorem handlerOnly_not_parse (t : List Event) (h : handlerOnly t = true) (e : Option String) :
    Event.parse e ∉ t := by
  induction t with
  | nil => simp
  | cons x t ih => cases x <;> simp_all [handlerOnly]

theorem handlerOnly_not_auth (t : List Event) (h : handlerOnly t = true) : Event.auth ∉ t := by
  induction t with
  | nil => simp
  | cons x t ih => cases x <;> simp_all [handlerOnly]

/-- The two ways line 105-107 can go. -/
theorem callAuth_cases (w : World Prog) (route : Route Prog) (fuel : Nat) (c : Context) :
    (∃ f, route.requireAuth = true ∧ w.engine.authFunc = some f ∧
        Engine.authGate w route = true ∧
        Engine.callAuth w route fuel c =
          f.exec (Context.Next fuel) { c with trace := c.trace ++ [Event.auth] }) ∨
    (Engine.authGate w route = false ∧ Engine.callAuth w route fuel c = some c) := by
  unfold Engine.callAuth Engine.authGate
  cases hr : route.requireAuth <;> cases hf : w.engine.authFunc <;> simp

/-- From the Context the hook leaves, the rest of the dispatch entry runs the
chain to its end unless the body parse fails. -/
theorem run_after_auth (ms : List Prog) (h : Prog) (hms : ∀ m ∈ ms, m.CallsNext 1)
    (c1 : Context) (hc : c1.HandlersChain = ms ++ [h]) (hi : c1.Index ≤ (ms ++ [h]).length)
    (hj : c1.Index = (ms ++ [h]).length ∨ c1.Aborted = false) :
    ∃ c3 t, (Engine.parseOrAbort c1).Next (ms ++ [h]).length = some c3 ∧
      c3.trace = c1.trace ++ t ∧
      ((∀ e, Event.parse (some e) ∉ t) →
        invoked t = List.range' c1.Index ((ms ++ [h]).length - c1.Index)) := by
  cases hp : c1.parseBody.2 with
  | none =>
    obtain ⟨d, hd⟩ := parseOrAbort_ok c1 hp
    rw [hd]
    have hstep : ∃ c3, Context.Next (ms ++ [h]).length
        ({ c1 with data := d, trace := c1.trace ++ [Event.parse none] } : Context) = some c3 ∧
        Advances { c1 with data := d, trace := c1.trace ++ [Event.parse none] } c3 ∧
        c3.Index = (ms ++ [h]).length := by
      rcases hj with hj | hj
      · obtain ⟨c', e, a, i⟩ := Next_at_end (ms ++ [h]).length
          ({ c1 with data := d, trace := c1.trace ++ [Event.parse none] } : Context)
          (by simp only; rw [hc]; exact hj)
        exact ⟨c', e, a, i.trans (by show c1.HandlersChain.length = _; rw [hc])⟩
      · exact Next_runs_all ms h hms _ _ hc hi hj (by omega)
    obtain ⟨c3, e3, a3, i3⟩ := hstep
    obtain ⟨t, ht, hv, _⟩ := a3.ev
    refine ⟨c3, Event.parse none :: t, e3, ?_, fun _ => ?_⟩
    · rw [ht]; simp
    · simp only [invoked, hv, i3]
  | some e =>
    obtain ⟨d, hd⟩ := parseOrAbort_error c1 e hp
    rw [hd]
    obtain ⟨c3, e3, a3⟩ := Next_advances (ms ++ [h]).length
      (({ c1 with data := d, trace := c1.trace ++ [Event.parse (some e)] } :
        Context).AbortWithStatusJSON 500 parseErrorPayload)
      (by
        show c1.HandlersChain.length ≤ _
        rw [hc]; omega)
    obtain ⟨t, ht, _, _⟩ := a3.ev
    refine ⟨c3, Event.parse (some e) :: Event.abort :: t, e3, ?_, fun hno => ?_⟩
    · rw [ht]
      show (c1.trace ++ [Event.parse (some e)] ++ [Event.abort]) ++ t = _
      simp
    · exact absurd (List.mem_cons_self _ _) (hno e)

theorem mem_finalPaths (w : World H) (r : Nat) (route : Route H) (hr : r ∈ w.allRoutes)
    (hroute : w.routeObjs[r]? = some route) : route.path ∈ w.finalPaths := by
  unfold World.finalPaths
  rw [List.mem_filterMap]
  exact ⟨r, hr, by simp [hroute]⟩

/-- C2: on a mounted route whose frozen chain is `ms ++ [h]`, where every
middleware of `ms` calls `Next` exactly once and neither aborts nor panics,
and the auth hook (if it is called) neither aborts nor panics, a request with
the route's path and verb is served, and unless the body parse fails the
chain positions `0, 1, ..., ms.length` are started in that order, each
exactly once. -/
theorem chain_runs_in_order (w : World Prog) (r : Nat) (route : Route Prog) (now : Nat)
    (req : Request) (ms : List Prog) (h : Prog)
    (hmount : r ∈ w.allRoutes) (hroute : w.routeObjs[r]? = some route)
    (hchain : w.chain r = ms ++ [h]) (hms : ∀ m ∈ ms, m.CallsNext 1)
    (hpath : req.Path = route.path) (hverb : req.Method = route.method)
    (hauth : ∀ f, route.requireAuth = true → w.engine.authFunc = some f → f.Quiet) :
    ∃ out, w.serve r now req = some out ∧
      ((∀ e, Event.parse (some e) ∉ out.trace) →
        invoked out.trace = List.range (ms.length + 1)) := by
  have hex : Engine.isPathExist w req.Path = true := by
    rw [isPathExist_iff, hpath]; exact mem_finalPaths w r route hmount hroute
  have hc0 : (Engine.newContext w [] req route now).HandlersChain = ms ++ [h] := by
    rw [← hchain]; simp [Engine.newContext, World.chain, hroute]
  simp only [World.serve, hroute]
  rw [handle_of_match w route now req hex hverb, hc0]
  -- the hook
  have hook : ∃ c1, Engine.callAuth w route (ms ++ [h]).length
        (Engine.newContext w [] req route now) = some c1 ∧
      c1.HandlersChain = ms ++ [h] ∧ c1.Index ≤ (ms ++ [h]).length ∧
      (c1.Index = (ms ++ [h]).length ∨ (c1.Aborted = false ∧ c1.panicking = none)) ∧
      invoked c1.trace = List.range' 0 c1.Index ∧ (∀ e, Event.parse e ∉ c1.trace) := by
    rcases callAuth_cases w route (ms ++ [h]).length (Engine.newContext w [] req route now)
      with ⟨f, hr, hf, _, hcall⟩ | ⟨_, hcall⟩
    · obtain ⟨c1, e1, a1, j1⟩ := exec_quiet (ms ++ [h]).length (ms ++ [h])
        (fun c hc hi ha hf => Next_runs_all ms h hms _ c hc hi ha hf) f (hauth f hr hf)
        { Engine.newContext w [] req route now with
          trace := (Engine.newContext w [] req route now).trace ++ [Event.auth] }
        hc0 (Nat.zero_le _) (Nat.le_add_left _ _) (Or.inr ⟨rfl, rfl⟩)
      obtain ⟨t, ht, hv, ho, _⟩ := a1.ev
      have hb := a1.bound (Nat.zero_le _)
      refine ⟨c1, hcall.trans e1, a1.chain.trans hc0, ?_, j1, ?_, ?_⟩
      · simpa [hc0] using hb
      · rw [ht]
        simpa [Engine.newContext, invoked] using hv
      · intro e
        rw [ht]
        simp only [Engine.newContext, List.nil_append, List.mem_append, List.mem_singleton,
          not_or]
        exact ⟨by simp, handlerOnly_not_parse t ho e⟩
    · exact ⟨_, hcall, hc0, Nat.zero_le _, Or.inr ⟨rfl, rfl⟩, rfl, by simp [Engine.newContext]⟩
  obtain ⟨c1, e1, hc1, hi1, hj1, hv1, hnp1⟩ := hook
  simp only [e1]
  have hlen : (ms ++ [h]).length = ms.length + 1 := by simp
  by_cases hp : c1.panicking.isSome
  · simp only [hp, if_true]
    refine ⟨_, rfl, fun _ => ?_⟩
    have : c1.Index = (ms ++ [h]).length := by
      rcases hj1 with hj | ⟨_, hj⟩
      · exact hj
      · simp [hj] at hp
    simp only [Outcome.ofContext, hv1, this, hlen, List.range_eq_range']
  · simp only [hp]
    obtain ⟨c3, t, e3, ht, hinv⟩ := run_after_auth ms h hms c1 hc1 hi1
      (hj1.imp id fun x => x.1)
    simp only [e3]
    refine ⟨_, rfl, fun hno => ?_⟩
    have hno' : ∀ e, Event.parse (some e) ∉ t := by
      intro e he
      exact hno e (by simp only [Outcome.ofContext, ht]; exact List.mem_append_right _ he)
    simp only [Outcome.ofContext, ht, invoked_append, hv1, hinv hno', List.range_eq_range']
    have h1 : (ms ++ [h]).length = ((ms ++ [h]).length - c1.Index) + c1.Index := by omega
    have h2 : List.range' c1.Index ((ms ++ [h]).length - c1.Index) =
        List.range' (0 + c1.Index) ((ms ++ [h]).length - c1.Index) := by rw [Nat.zero_add]
    rw [h2, List.range'_append_1, ← h1, hlen]

theorem Next_of_aborted (fuel : Nat) (c : Context) (h : c.Aborted = true) :
    c.Next fuel = some c := by
  unfold Context.Next
  by_cases hi : c.Index < c.HandlersChain.length
  · rw [if_pos hi, if_pos h]
  · rw [if_neg hi]

theorem readBody_writer (c : Context) (req : Request) :
    (c.readBody req).1.data.Writer = c.data.Writer ∧
      (c.readBody req).1.data.StatusCode = c.data.StatusCode := by
  unfold Context.readBody
  dsimp only
  (repeat' split) <;> exact ⟨rfl, rfl⟩

theorem parseBody_writer (c : Context) :
    c.parseBody.1.data.Writer = c.data.Writer ∧
      c.parseBody.1.data.StatusCode = c.data.StatusCode := by
  unfold Context.parseBody
  dsimp only
  (repeat' split) <;> first | exact ⟨rfl, rfl⟩ | exact readBody_writer c _

/-- What a failed parse leaves: the Context is aborted, 500 is recorded, and
the three writer calls of `JSON` follow what was written before. -/
theorem parseOrAbort_failed (c : Context) (e : String) (h : c.parseBody.2 = some e) :
    (Engine.parseOrAbort c).Aborted = true ∧
    (Engine.parseOrAbort c).HandlersChain = c.HandlersChain ∧
    (Engine.parseOrAbort c).Index = c.Index ∧
    (Engine.parseOrAbort c).panicking = c.panicking ∧
    (Engine.parseOrAbort c).trace = c.trace ++ [Event.parse (some e), Event.abort] ∧
    (Engine.parseOrAbort c).data.StatusCode = 500 ∧
    (Engine.parseOrAbort c).data.Writer = c.data.Writer ++
      [WriterCall.setHeader "Content-Type" "application/json", WriterCall.writeHeader 500,
       WriterCall.write "\x7b\"error\":\"couldn\x27t parse request body\"\x7d\n"] := by
  have hw := (parseBody_writer c).1
  obtain ⟨d, hd⟩ := parseBody_frame c
  rw [hd] at hw
  simp only at hw
  simp only [Engine.parseOrAbort, h, hd]
  refine ⟨rfl, rfl, rfl, rfl, ?_, rfl, ?_⟩
  · simp [Context.AbortWithStatusJSON, Context.JSON, Context.Status, Context.Abort]
  · simp only [Context.AbortWithStatusJSON, Context.JSON, Context.Status, Context.Abort,
      parseErrorPayload, encode, hw, List.append_assoc, List.singleton_append]
    rfl

theorem parseOrAbort_passed (c : Context) (h : c.parseBody.2 = none) :
    (Engine.parseOrAbort c).Aborted = c.Aborted ∧
    (Engine.parseOrAbort c).HandlersChain = c.HandlersChain ∧
    (Engine.parseOrAbort c).Index = c.Index ∧
    (Engine.parseOrAbort c).panicking = c.panicking ∧
    (Engine.parseOrAbort c).trace = c.trace ++ [Event.parse none] := by
  obtain ⟨d, hd⟩ := parseOrAbort_ok c h
  rw [hd]
  exact ⟨rfl, rfl, rfl, rfl, rfl⟩

/-- The auth step always returns: with the gate open it is the hook's run on
the Context with the `auth` event recorded, otherwise nothing happens. -/
theorem callAuth_total (w : World Prog) (route : Route Prog) (fuel : Nat) (c : Context)
    (hf : c.HandlersChain.length ≤ c.Index + fuel) :
    ∃ c1, Engine.callAuth w route fuel c = some c1 ∧
      (Engine.authGate w route = true → ∃ f, w.engine.authFunc = some f ∧
        f.exec (Context.Next fuel) { c with trace := c.trace ++ [Event.auth] } = some c1 ∧
        Advances { c with trace := c.trace ++ [Event.auth] } c1) ∧
      (Engine.authGate w route = false → c1 = c) := by
  rcases callAuth_cases w route fuel c with ⟨f, _, hf', hg, hcall⟩ | ⟨hg, hcall⟩
  · obtain ⟨c1, e1, a1⟩ := exec_advances fuel (Context.Next fuel) (Next_advances fuel) f
      { c with trace := c.trace ++ [Event.auth] } hf
    refine ⟨c1, hcall.trans e1, fun _ => ⟨f, hf', e1, a1⟩, fun h => ?_⟩
    rw [hg] at h; cases h
  · refine ⟨c, hcall, fun h => ?_, fun _ => rfl⟩
    rw [hg] at h; cases h

/-- The shape of a served request: the auth step, then either the hook has
panicked and the request ends, or the body is parsed and the chain started. -/
theorem handle_decompose (w : World Prog) (route : Route Prog) (now : Nat) (req : Request)
    (hex : Engine.isPathExist w req.Path = true) (hverb : req.Method = route.method) :
    ∃ c1, Engine.callAuth w route (Engine.newContext w [] req route now).HandlersChain.length
        (Engine.newContext w [] req route now) = some c1 ∧
      c1.HandlersChain = (Engine.newContext w [] req route now).HandlersChain ∧
      ((c1.panicking.isSome = true ∧
          Engine.handle w route now req = some (Outcome.ofContext c1)) ∨
        (c1.panicking.isSome = false ∧ ∃ c3,
          (Engine.parseOrAbort c1).Next
            (Engine.newContext w [] req route now).HandlersChain.length = some c3 ∧
          Advances (Engine.parseOrAbort c1) c3 ∧
          Engine.handle w route now req = some (Outcome.ofContext c3))) := by
  rw [handle_of_match w route now req hex hverb]
  obtain ⟨c1, e1, hg, hng⟩ := callAuth_total w route
    (Engine.newContext w [] req route now).HandlersChain.length
    (Engine.newContext w [] req route now) (Nat.le_add_left _ _)
  have hch : c1.HandlersChain = (Engine.newContext w [] req route now).HandlersChain := by
    cases hgate : Engine.authGate w route with
    | true => obtain ⟨f, _, _, a⟩ := hg hgate; exact a.chain
    | false => rw [hng hgate]
  refine ⟨c1, e1, hch, ?_⟩
  simp only [e1]
  by_cases hp : c1.panicking.isSome = true
  · exact Or.inl ⟨hp, by simp [hp]⟩
  · simp only [Bool.not_eq_true] at hp
    have hch2 : (Engine.parseOrAbort c1).HandlersChain = c1.HandlersChain := by
      cases hpb : c1.parseBody.2 with
      | none => exact (parseOrAbort_passed c1 hpb).2.1
      | some e => exact (parseOrAbort_failed c1 e hpb).2.1
    obtain ⟨c3, e3, a3⟩ := Next_advances
      (Engine.newContext w [] req route now).HandlersChain.length (Engine.parseOrAbort c1)
      (by rw [hch2, hch]; exact Nat.le_add_left _ _)
    exact Or.inr ⟨hp, c3, e3, a3, by simp [hp, e3]⟩

/-- Witness of C2: `GET /health` on `healthWorld` with a hook that returns. -/
theorem chain_runs_in_order_witness :
    0 ∈ (healthWorld fillClient).allRoutes ∧
    (healthWorld fillClient).routeObjs[0]? = some healthRoute ∧
    (healthWorld fillClient).chain 0 = [passThrough] ++ [healthHandler] ∧
    (∀ m ∈ [passThrough], m.CallsNext 1) ∧
    (Request.plain "GET" "/health").Path = healthRoute.path ∧
    (Request.plain "GET" "/health").Method = healthRoute.method ∧
    (∀ f, healthRoute.requireAuth = true →
      (healthWorld fillClient).engine.authFunc = some f → f.Quiet) ∧
    (∃ out, (healthWorld fillClient).serve 0 0 (Request.plain "GET" "/health") = some out ∧
      ((∀ e, Event.parse (some e) ∉ out.trace) →
        invoked out.trace = List.range ([passThrough].length + 1))) ∧
    ((healthWorld fillClient).serve 0 0 (Request.plain "GET" "/health")).map
        (fun o => (o.trace, statusSent o.Writer)) =
      some ([Event.auth, Event.parse none, Event.invoke 0, Event.invoke 1], some 200) :=
  have hms : ∀ m ∈ [passThrough], m.CallsNext 1 := by
    intro m hm
    rw [List.mem_singleton] at hm
    subst hm
    exact ⟨0, rfl, rfl⟩
  have hauth : ∀ f, healthRoute.requireAuth = true →
      (healthWorld fillClient).engine.authFunc = some f → f.Quiet := by
    intro f _ hf
    have : f = fillClient := by
      have h2 : (healthWorld fillClient).engine.authFunc = some fillClient := rfl
      rw [h2] at hf
      exact (Option.some.inj hf).symm
    subst this
    exact trivial
  ⟨by decide, rfl, rfl, hms, rfl, rfl, hauth,
    chain_runs_in_order (healthWorld fillClient) 0 healthRoute 0 (Request.plain "GET" "/health")
      [passThrough] healthHandler (by decide) rfl rfl hms rfl rfl hauth, rfl⟩

/-- Witness of C3: scenario 2 (`GET /missing`) and a `DELETE` on a path
registered for `GET`. -/
theorem unmatched_request_rejected_witness :
    (∃ out, Engine.handle (healthWorld fillClient) healthRoute 0
        (Request.plain "GET" "/missing") = some out ∧
      statusSent out.Writer = some 404 ∧ out.trace = [] ∧ out.final = none ∧ out.log = []) ∧
    (∃ out, Engine.handle (healthWorld fillClient) healthRoute 0
        (Request.plain "DELETE" "/health") = some out ∧
      statusSent out.Writer = some 405 ∧ out.trace = [] ∧ out.final = none ∧ out.log = []) :=
  ⟨(unmatched_request_rejected (healthWorld fillClient) healthRoute 0
      (Request.plain "GET" "/missing")).1 (by decide),
    (unmatched_request_rejected (healthWorld fillClient) healthRoute 0
      (Request.plain "DELETE" "/health")).2 (by decide) (by decide)⟩


theorem not_invoke_of_okAfter_true (t : List Event) (h : okAfter true t = true) :
    ∀ i, Event.invoke i ∉ t :=
  (invoked_nil_iff t).1 (okAfter_true_invoked t h)

/-- A body that never calls `Next` leaves the cursor where it is. -/
theorem exec_noNext_index (next : Context → Option Context) :
    ∀ f : Prog, f.NoNext → ∀ c c' : Context, f.exec next c = some c' → c'.Index = c.Index := by
  intro f
  induction f with
  | ret => intro _ c c' h; simp only [Prog.exec, Option.some.injEq] at h; rw [← h]
  | next k _ => intro h; simp [Prog.NoNext] at h
  | abort k ih => intro h c c' e; exact ih h c.Abort c' e
  | abortWithStatus s k ih => intro h c c' e; exact ih h (c.AbortWithStatus s) c' e
  | abortWithStatusJSON s j k ih =>
    intro h c c' e; exact ih h (c.AbortWithStatusJSON s j) c' e
  | set key v k ih => intro h c c' e; exact ih h (c.Set key v) c' e
  | get key k ih => intro h c c' e; exact ih _ _ (h _ _) c c' e
  | status code k ih => intro h c c' e; exact ih h (c.Status code) c' e
  | json code d k ih => intro h c c' e; exact ih _ (h _) (c.JSON code d).1 c' e
  | read k ih => intro h c c' e; exact ih _ (h _) c c' e
  | assign g k ih => intro h c c' e; exact ih h { c with data := g c.data } c' e
  | panic v => intro _ c c' h; simp only [Prog.exec, Option.some.injEq] at h; rw [← h]

/-- What the dispatch entry adds to the trace after the auth step. -/
theorem after_auth_rest (fuel : Nat) (c1 c3 : Context)
    (e3 : (Engine.parseOrAbort c1).Next fuel = some c3)
    (a3 : Advances (Engine.parseOrAbort c1) c3) :
    ∃ rest, c3.trace = c1.trace ++ rest ∧ Event.auth ∉ rest ∧
      (c1.Aborted = true → ∀ i, Event.invoke i ∉ rest) ∧
      (∀ e, Event.parse (some e) ∈ rest → c1.parseBody.2 = some e ∧ c3 = Engine.parseOrAbort c1 ∧
        rest = [Event.parse (some e), Event.abort]) := by
  obtain ⟨t, ht, _, ho, hA, hk⟩ := a3.ev
  cases hp : c1.parseBody.2 with
  | none =>
    obtain ⟨hab, _, _, _, htr⟩ := parseOrAbort_passed c1 hp
    refine ⟨Event.parse none :: t, ?_, ?_, ?_, ?_⟩
    · rw [ht, htr]; simp
    · simp only [List.mem_cons, not_or]
      exact ⟨by simp, handlerOnly_not_auth t ho⟩
    · intro hab1 i
      rw [hab, hab1] at hk
      simp only [List.mem_cons, not_or]
      exact ⟨by simp, not_invoke_of_okAfter_true t hk i⟩
    · intro e he
      simp only [List.mem_cons] at he
      rcases he with he | he
      · cases he
      · exact absurd he (handlerOnly_not_parse t ho _)
  | some e' =>
    obtain ⟨hab, _, _, _, htr, _⟩ := parseOrAbort_failed c1 e' hp
    have hc3 : c3 = Engine.parseOrAbort c1 := by
      rw [Next_of_aborted fuel _ hab] at e3
      exact (Option.some.inj e3).symm
    refine ⟨[Event.parse (some e'), Event.abort], ?_, by simp, by simp, ?_⟩
    · rw [hc3, htr]
    · intro e he
      simp only [List.mem_cons, Event.parse.injEq, Option.some.injEq, List.mem_singleton] at he
      rcases he with he | he | he
      · subst he; exact ⟨rfl, hc3, rfl⟩
      · cases he
      · simp at he

/-- C9 (counterexample): on `healthWorld`, whose route has the chain
`[passThrough, healthHandler]`, a matching request whose body parse fails is
answered 500 and no position of the chain is started. -/
theorem parse_failure_chain_not_run :
    (healthWorld fillClient).chain 0 = [passThrough, healthHandler] ∧
    ((healthWorld fillClient).serve 0 0 (Request.malformed "GET" "/health")).map
        (fun o => (statusSent o.Writer, invoked o.trace, o.trace)) =
      some (some 500, [],
        [Event.auth, Event.parse (some "mime: invalid media parameter"), Event.abort]) :=
  ⟨rfl, rfl⟩

/-- C9 (amended): a matching request is always served, and when its body
parse fails with error `e` the dispatch entry calls `AbortWithStatusJSON`:
the Context ends aborted with `StatusCode` 500, the writer receives the JSON
content type, `WriteHeader(500)` and the error payload after whatever the
auth hook wrote, and the trace ends with the failed parse and the abort, so
no chain position is started after the failure.  When no hook runs, these
are the whole trace and the whole response, whose status is 500. -/
theorem parse_failure_aborts (w : World Prog) (r : Nat) (route : Route Prog) (now : Nat)
    (req : Request) (hmount : r ∈ w.allRoutes) (hroute : w.routeObjs[r]? = some route)
    (hpath : req.Path = route.path) (hverb : req.Method = route.method) :
    ∃ out, w.serve r now req = some out ∧ ∀ e, Event.parse (some e) ∈ out.trace →
      (∃ pre, out.trace = pre ++ [Event.parse (some e), Event.abort] ∧
        (Engine.authGate w route = false → pre = [])) ∧
      (∃ wpre, out.Writer = wpre ++
          [WriterCall.setHeader "Content-Type" "application/json", WriterCall.writeHeader 500,
           WriterCall.write "\x7b\"error\":\"couldn\x27t parse request body\"\x7d\n"] ∧
        (Engine.authGate w route = false → wpre = [])) ∧
      (∃ c, out.final = some c ∧ c.Aborted = true ∧ c.data.StatusCode = 500) ∧
      (Engine.authGate w route = false → statusSent out.Writer = some 500) := by
  have hex : Engine.isPathExist w req.Path = true := by
    rw [isPathExist_iff, hpath]; exact mem_finalPaths w r route hmount hroute
  simp only [World.serve, hroute]
  obtain ⟨c1, e1, _, hcase⟩ := handle_decompose w route now req hex hverb
  obtain ⟨c1', e1', hg, hng⟩ := callAuth_total w route
    (Engine.newContext w [] req route now).HandlersChain.length
    (Engine.newContext w [] req route now) (Nat.le_add_left _ _)
  rw [e1] at e1'
  cases Option.some.inj e1'
  have hnp : ∀ e, Event.parse e ∉ c1.trace := by
    intro e
    cases hgate : Engine.authGate w route with
    | true =>
      obtain ⟨f, _, _, a⟩ := hg hgate
      obtain ⟨t, ht, _, ho, _⟩ := a.ev
      rw [ht]
      simp only [Engine.newContext, List.nil_append, List.mem_append, List.mem_singleton, not_or]
      exact ⟨by simp, handlerOnly_not_parse t ho e⟩
    | false => rw [hng hgate]; simp [Engine.newContext]
  rcases hcase with ⟨_, hout⟩ | ⟨_, c3, e3, a3, hout⟩
  · exact ⟨_, hout, fun e he => absurd he (hnp (some e))⟩
  · refine ⟨_, hout, fun e he => ?_⟩
    obtain ⟨rest, hrest, _, _, hparse⟩ := after_auth_rest _ c1 c3 e3 a3
    have he' : Event.parse (some e) ∈ rest := by
      simp only [Outcome.ofContext, hrest, List.mem_append] at he
      exact he.resolve_left (hnp (some e))
    obtain ⟨hpb, hc3, hr⟩ := hparse e he'
    obtain ⟨hab, _, _, _, _, hsc, hwr⟩ := parseOrAbort_failed c1 e hpb
    have hfresh : Engine.authGate w route = false → c1 = Engine.newContext w [] req route now :=
      hng
    refine ⟨⟨c1.trace, ?_, ?_⟩, ⟨c1.data.Writer, ?_, ?_⟩, ⟨c3, rfl, ?_, ?_⟩, ?_⟩
    · simp only [Outcome.ofContext, hrest, hr]
    · intro hgate; rw [hfresh hgate]; rfl
    · simp only [Outcome.ofContext, hc3, hwr]
    · intro hgate; rw [hfresh hgate]; rfl
    · rw [hc3]; exact hab
    · rw [hc3]; exact hsc
    · intro hgate
      simp only [Outcome.ofContext, hc3, hwr]
      rw [hfresh hgate]
      rfl

/-- Witness of C9 (amended): the malformed request of the counterexample. -/
theorem parse_failure_aborts_witness :
    0 ∈ (healthWorld fillClient).allRoutes ∧
    (healthWorld fillClient).routeObjs[0]? = some healthRoute ∧
    (Request.malformed "GET" "/health").Path = healthRoute.path ∧
    (Request.malformed "GET" "/health").Method = healthRoute.method ∧
    ∃ out, (healthWorld fillClient).serve 0 0 (Request.malformed "GET" "/health") = some out ∧
      ∀ e, Event.parse (some e) ∈ out.trace →
      (∃ pre, out.trace = pre ++ [Event.parse (some e), Event.abort] ∧
        (Engine.authGate (healthWorld fillClient) healthRoute = false → pre = [])) ∧
      (∃ wpre, out.Writer = wpre ++
          [WriterCall.setHeader "Content-Type" "application/json", WriterCall.writeHeader 500,
           WriterCall.write "\x7b\"error\":\"couldn\x27t parse request body\"\x7d\n"] ∧
        (Engine.authGate (healthWorld fillClient) healthRoute = false → wpre = [])) ∧
      (∃ c, out.final = some c ∧ c.Aborted = true ∧ c.data.StatusCode = 500) ∧
      (Engine.authGate (healthWorld fillClient) healthRoute = false →
        statusSent out.Writer = some 500) :=
  ⟨by decide, rfl, rfl, rfl,
    parse_failure_aborts (healthWorld fillClient) 0 healthRoute 0
      (Request.malformed "GET" "/health") (by decide) rfl rfl rfl⟩

/-! ## The bearer token -/

/-- C8 (counterexample): for the header `"Bearer "` followed by the empty
token, `extractToken` returns the header itself, not the empty token. -/
theorem extractToken_bare_scheme :
    Engine.extractToken { Request.plain "GET" "/" with Authorization := "Bearer " ++ "" } =
      "Bearer " ∧
    Engine.extractToken { Request.plain "GET" "/" with Authorization := "Bearer " ++ "" } ≠ "" := by
  decide

theorem take_append_length (s t : String) : (s ++ t).take s.length = s := by
  rw [String.take_eq]
  apply String.ext
  show List.take s.data.length (s.data ++ t.data) = s.data
  exact List.take_left _ _

theorem drop_append_length (s t : String) : (s ++ t).drop s.length = t := by
  rw [String.drop_eq]
  apply String.ext
  show List.drop s.data.length (s.data ++ t.data) = t.data
  exact List.drop_left _ _

theorem take_append_drop (s : String) (n : Nat) : s.take n ++ s.drop n = s := by
  rw [String.take_eq, String.drop_eq]
  apply String.ext
  show List.take n s.data ++ List.drop n s.data = s.data
  exact List.take_append_drop n _

theorem length_drop (s : String) (n : Nat) : (s.drop n).length = s.length - n := by
  rw [String.drop_eq]
  show (List.drop n s.data).length = s.data.length - n
  exact List.length_drop n _

/-- C8 (amended): `extractToken` returns the header without its first seven
characters when the header is `"Bearer "` followed by a non-empty token, and
the header unchanged in every other case (absent header, other scheme, other
case, or `"Bearer "` alone). -/
theorem extractToken_spec (req : Request) :
    (∀ t, t ≠ "" → req.Authorization = "Bearer " ++ t → Engine.extractToken req = t) ∧
    ((¬ ∃ t, t ≠ "" ∧ req.Authorization = "Bearer " ++ t) →
      Engine.extractToken req = req.Authorization) := by
  constructor
  · intro t ht h
    have hl : 0 < t.length := by
      rcases t with ⟨l⟩
      cases l with
      | nil => exact absurd rfl ht
      | cons a l => simp [String.length]
    have htake : ("Bearer " ++ t).take 7 = "Bearer " :=
      take_append_length "Bearer " t
    have hdrop : ("Bearer " ++ t).drop 7 = t := drop_append_length "Bearer " t
    have hlen : ("Bearer " ++ t).length = 7 + t.length := by
      rw [String.length_append]; rfl
    simp only [Engine.extractToken, h, htake, hdrop, hlen]
    simp
    omega
  · intro hno
    unfold Engine.extractToken
    by_cases hc : (decide (req.Authorization.length > 7) &&
        req.Authorization.take 7 == "Bearer ") = true
    · exfalso
      apply hno
      simp only [Bool.and_eq_true, decide_eq_true_eq, beq_iff_eq] at hc
      refine ⟨req.Authorization.drop 7, ?_, ?_⟩
      · intro h0
        have h1 := length_drop req.Authorization 7
        rw [h0] at h1
        have h2 : ("" : String).length = 0 := rfl
        have h3 := hc.1
        omega
      · rw [← hc.2, take_append_drop]
    · simp only [hc]
      simp

/-- Witness of C8 (amended): a bearer header and a header of another
scheme. -/
theorem extractToken_spec_witness :
    Engine.extractToken { Request.plain "GET" "/" with Authorization := "Bearer " ++ "abc" } =
      "abc" ∧
    Engine.extractToken { Request.plain "GET" "/" with Authorization := "Basic abc" } =
      "Basic abc" :=
  ⟨(extractToken_spec { Request.plain "GET" "/" with Authorization := "Bearer " ++ "abc" }).1
      "abc" (by decide) rfl,
    (extractToken_spec { Request.plain "GET" "/" with Authorization := "Basic abc" }).2 (by
      rintro ⟨t, _, h⟩
      have h2 := congrArg (fun s : String => s.data.take 2) h
      simp at h2)⟩

/-! ## Registration and slices -/

/-- C4 (failing input): after `Apply`, the chains of the sibling routes `/a`
and `/b` both end with the handler of `/b`: the two `append` calls of `Apply`
write the same slot of the backing array the routes share with their group. -/
theorem sibling_routes_share_last_slot :
    siblingSetup.groupChain 0 = ["m1", "m2", "m3"] ∧
    siblingSetup.chain 0 = ["m1", "m2", "m3"] ∧
    (Engine.Apply gcGrow siblingSetup).routeObjs.map (fun r => (r.path, r.handler)) =
      [("/api/a", "ha"), ("/api/b", "hb")] ∧
    (Engine.Apply gcGrow siblingSetup).chain 0 = ["m1", "m2", "m3", "hb"] ∧
    (Engine.Apply gcGrow siblingSetup).chain 1 = ["m1", "m2", "m3", "hb"] := by
  decide

/-- C5 (failing input): after `e.Use(m); e.GET("/x", h); e.Apply()` the chain
of `/x` is `[h]`: the global middleware `m` is not in it. -/
theorem global_middleware_not_on_top_level :
    topLevelSetup.globalChain = ["m"] ∧
    (Engine.Apply gcGrow topLevelSetup).chain 0 = ["h"] ∧
    "m" ∉ (Engine.Apply gcGrow topLevelSetup).chain 0 := by
  decide

/-- C6 (failing input): `Use` on the group `h` rewrites the last middleware
of the group `g`, and `Engine.Use` rewrites the middleware a route of a
group added with its own `Use`. -/
theorem group_list_changed_by_other_use :
    twoGroupSetup.groupChain 1 = ["m1", "m2", "m3", "m4"] ∧
    (RouteGroup.Use gcGrow twoGroupSetup 0 ["x"]).groupChain 1 = ["m1", "m2", "m3", "x"] ∧
    routeUseSetup.chain 0 = ["m1", "m2", "m3", "x"] ∧
    (Engine.Use gcGrow routeUseSetup ["m4"]).chain 0 = ["m1", "m2", "m3", "m4"] := by
  decide

/-! ## Paths after `Apply` -/

theorem getElem?_set_map {α β : Type} (f : α → β) (l : List α) (i j : Nat) (a x : α)
    (h : l[i]? = some a) (hf : f x = f a) : ((l.set i x)[j]?).map f = (l[j]?).map f := by
  rw [List.getElem?_set]
  by_cases hij : i = j
  · subst hij
    have hlt : i < l.length := by
      by_contra hge
      rw [List.getElem?_eq_none (by omega)] at h
      cases h
    simp [hlt, h, hf]
  · simp [hij]

theorem getElem?_set_self {α : Type} (l : List α) (i : Nat) (a x : α) (h : l[i]? = some a) :
    (l.set i x)[i]? = some x := by
  have hlt : i < l.length := by
    by_contra hge
    rw [List.getElem?_eq_none (by omega)] at h
    cases h
  rw [List.getElem?_set]
  simp [hlt]

theorem getElem?_set_other {α : Type} (l : List α) (i j : Nat) (x : α) (h : i ≠ j) :
    (l.set i x)[j]? = l[j]? := by
  rw [List.getElem?_set]
  simp [h]

theorem mount_routeObjs (w : World H) (r : Nat) : (Engine.mount w r).routeObjs = w.routeObjs := by
  unfold Engine.mount
  cases w.routeObjs[r]? <;> rfl

theorem mount_groupObjs (w : World H) (r : Nat) : (Engine.mount w r).groupObjs = w.groupObjs := by
  unfold Engine.mount
  cases w.routeObjs[r]? <;> rfl

theorem mount_engine (w : World H) (r : Nat) : (Engine.mount w r).engine = w.engine := by
  unfold Engine.mount
  cases w.routeObjs[r]? <;> rfl

theorem applyRoute_frame (grow : Nat → Nat → Nat) (w : World H) (r' : Nat) :
    (Engine.applyRoute grow w r').groupObjs = w.groupObjs ∧
    (Engine.applyRoute grow w r').engine = w.engine ∧
    ∀ r, (Engine.applyRoute grow w r').pathOf r = w.pathOf r := by
  unfold Engine.applyRoute
  cases h : w.routeObjs[r']? with
  | none => exact ⟨rfl, rfl, fun _ => rfl⟩
  | some route =>
    simp only [mount_groupObjs, mount_engine, World.pathOf, mount_routeObjs]
    exact ⟨trivial, trivial, fun r => getElem?_set_map _ _ _ _ _ _ h rfl⟩

theorem applyGroupRoute_frame (grow : Nat → Nat → Nat) (base : String) (w : World H) (r' : Nat) :
    (Engine.applyGroupRoute grow base w r').groupObjs = w.groupObjs ∧
    (Engine.applyGroupRoute grow base w r').engine = w.engine ∧
    (∀ r, r ≠ r' → (Engine.applyGroupRoute grow base w r').pathOf r = w.pathOf r) ∧
    (Engine.applyGroupRoute grow base w r').pathOf r' =
      (w.pathOf r').map fun q => base ++ q := by
  unfold Engine.applyGroupRoute
  cases h : w.routeObjs[r']? with
  | none => exact ⟨rfl, rfl, fun _ _ => rfl, by simp [World.pathOf, h]⟩
  | some route =>
    simp only [mount_groupObjs, mount_engine, World.pathOf, mount_routeObjs]
    refine ⟨trivial, trivial, fun r hr => ?_, ?_⟩
    · rw [getElem?_set_other _ _ _ _ (Ne.symm hr)]
    · rw [getElem?_set_self _ _ _ _ h, h]
      rfl

theorem foldl_applyGroupRoute (grow : Nat → Nat → Nat) (base : String) (rs : List Nat) :
    ∀ w : World H,
      (rs.foldl (Engine.applyGroupRoute grow base) w).groupObjs = w.groupObjs ∧
      (rs.foldl (Engine.applyGroupRoute grow base) w).engine = w.engine ∧
      (∀ r, r ∉ rs → (rs.foldl (Engine.applyGroupRoute grow base) w).pathOf r = w.pathOf r) ∧
      (∀ r, rs.Nodup → r ∈ rs →
        (rs.foldl (Engine.applyGroupRoute grow base) w).pathOf r =
          (w.pathOf r).map fun q => base ++ q) := by
  induction rs with
  | nil => intro w; exact ⟨rfl, rfl, fun _ _ => rfl, fun _ _ h => by cases h⟩
  | cons r' rs ih =>
    intro w
    obtain ⟨f1, f2, f3, f4⟩ := applyGroupRoute_frame grow base w r'
    obtain ⟨i1, i2, i3, i4⟩ := ih (Engine.applyGroupRoute grow base w r')
    simp only [List.foldl_cons]
    refine ⟨i1.trans f1, i2.trans f2, fun r hr => ?_, fun r hnd hr => ?_⟩
    · simp only [List.mem_cons, not_or] at hr
      rw [i3 r hr.2, f3 r hr.1]
    · rw [List.nodup_cons] at hnd
      rcases List.mem_cons.1 hr with hr | hr
      · subst hr
        rw [i3 r hnd.1, f4]
      · have hne : r ≠ r' := fun e => hnd.1 (e ▸ hr)
        rw [i4 r hnd.2 hr, f3 r hne]

theorem applyGroup_frame (grow : Nat → Nat → Nat) (w : World H) (g : Nat) :
    (Engine.applyGroup grow w g).groupObjs = w.groupObjs ∧
    (Engine.applyGroup grow w g).engine = w.engine ∧
    (∀ r, (∀ rs, w.routesOf g = some rs → r ∉ rs) →
      (Engine.applyGroup grow w g).pathOf r = w.pathOf r) ∧
    (∀ r rs b, w.routesOf g = some rs → w.baseOf g = some b → rs.Nodup → r ∈ rs →
      (Engine.applyGroup grow w g).pathOf r = (w.pathOf r).map fun q => b ++ q) := by
  unfold Engine.applyGroup
  cases h : w.groupObjs[g]? with
  | none =>
    refine ⟨rfl, rfl, fun _ _ => rfl, fun r rs b hrs => ?_⟩
    simp [World.routesOf, h] at hrs
  | some group =>
    obtain ⟨i1, i2, i3, i4⟩ := foldl_applyGroupRoute grow group.basePath group.routes w
    refine ⟨i1, i2, fun r hr => i3 r (hr group.routes (by simp [World.routesOf, h])),
      fun r rs b hrs hb hnd hr => ?_⟩
    simp only [World.routesOf, h, Option.map_some', Option.some.injEq] at hrs
    simp only [World.baseOf, h, Option.map_some', Option.some.injEq] at hb
    subst hrs hb
    exact i4 r hnd hr

theorem foldl_applyGroup (grow : Nat → Nat → Nat) (gs : List Nat) :
    ∀ w : World H,
      (gs.foldl (Engine.applyGroup grow) w).groupObjs = w.groupObjs ∧
      (gs.foldl (Engine.applyGroup grow) w).engine = w.engine ∧
      (∀ r, (∀ g ∈ gs, ∀ rs, w.routesOf g = some rs → r ∉ rs) →
        (gs.foldl (Engine.applyGroup grow) w).pathOf r = w.pathOf r) ∧
      (∀ r g0 rs0 b, gs.Nodup → g0 ∈ gs → w.routesOf g0 = some rs0 → w.baseOf g0 = some b →
        rs0.Nodup → r ∈ rs0 →
        (∀ g ∈ gs, g ≠ g0 → ∀ rs, w.routesOf g = some rs → r ∉ rs) →
        (gs.foldl (Engine.applyGroup grow) w).pathOf r = (w.pathOf r).map fun q => b ++ q) := by
  induction gs with
  | nil => intro w; exact ⟨rfl, rfl, fun _ _ => rfl, fun _ _ _ _ _ h => by cases h⟩
  | cons g gs ih =>
    intro w
    obtain ⟨f1, f2, f3, f4⟩ := applyGroup_frame grow w g
    obtain ⟨i1, i2, i3, i4⟩ := ih (Engine.applyGroup grow w g)
    have hro : ∀ g', (Engine.applyGroup grow w g).routesOf g' = w.routesOf g' := by
      intro g'; simp only [World.routesOf, f1]
    have hbo : ∀ g', (Engine.applyGroup grow w g).baseOf g' = w.baseOf g' := by
      intro g'; simp only [World.baseOf, f1]
    simp only [List.foldl_cons]
    refine ⟨i1.trans f1, i2.trans f2, fun r hr => ?_, fun r g0 rs0 b hnd hg0 hrs0 hb hn0 hr hoth => ?_⟩
    · rw [i3 r (fun g' hg' rs hrs => hr g' (List.mem_cons_of_mem _ hg') rs (by rw [← hro]; exact hrs)),
        f3 r (hr g (List.mem_cons_self _ _))]
    · rw [List.nodup_cons] at hnd
      rcases List.mem_cons.1 hg0 with hg | hg
      · subst hg
        rw [i3 r (fun g' hg' rs hrs => hoth g' (List.mem_cons_of_mem _ hg')
            (fun e => hnd.1 (e ▸ hg')) rs (by rw [← hro]; exact hrs)),
          f4 r rs0 b hrs0 hb hn0 hr]
      · have hne : g ≠ g0 := fun e => hnd.1 (e ▸ hg)
        rw [i4 r g0 rs0 b hnd.2 hg (by rw [hro]; exact hrs0) (by rw [hbo]; exact hb) hn0 hr
            (fun g' hg' hne' rs hrs => hoth g' (List.mem_cons_of_mem _ hg') hne' rs
              (by rw [← hro]; exact hrs)),
          f3 r (hoth g (List.mem_cons_self _ _) hne)]

theorem foldl_applyRoute (grow : Nat → Nat → Nat) (rs : List Nat) :
    ∀ w : World H,
      (rs.foldl (Engine.applyRoute grow) w).groupObjs = w.groupObjs ∧
      (rs.foldl (Engine.applyRoute grow) w).engine = w.engine ∧
      ∀ r, (rs.foldl (Engine.applyRoute grow) w).pathOf r = w.pathOf r := by
  induction rs with
  | nil => intro w; exact ⟨rfl, rfl, fun _ => rfl⟩
  | cons r' rs ih =>
    intro w
    obtain ⟨f1, f2, f3⟩ := applyRoute_frame grow w r'
    obtain ⟨i1, i2, i3⟩ := ih (Engine.applyRoute grow w r')
    simp only [List.foldl_cons]
    exact ⟨i1.trans f1, i2.trans f2, fun r => (i3 r).trans (f3 r)⟩

/-- Paths after `Apply`: a top-level route keeps its path, a route of a group
gets the base path of its group in front, once. -/
theorem Apply_paths (grow : Nat → Nat → Nat) (w : World H) (hs : w.Sound) :
    (Engine.Apply grow w).groupObjs = w.groupObjs ∧
    (Engine.Apply grow w).engine = w.engine ∧
    (∀ r ∈ w.engine.routes, (Engine.Apply grow w).pathOf r = w.pathOf r) ∧
    (∀ g ∈ w.engine.routeGroups, ∀ rs b r, w.routesOf g = some rs → w.baseOf g = some b →
      r ∈ rs → (Engine.Apply grow w).pathOf r = (w.pathOf r).map fun q => b ++ q) := by
  obtain ⟨f1, f2, f3⟩ := foldl_applyRoute grow w.engine.routes w
  obtain ⟨i1, i2, i3, i4⟩ := foldl_applyGroup grow
    (w.engine.routes.foldl (Engine.applyRoute grow) w).engine.routeGroups
    (w.engine.routes.foldl (Engine.applyRoute grow) w)
  have hro : ∀ g, (w.engine.routes.foldl (Engine.applyRoute grow) w).routesOf g = w.routesOf g := by
    intro g; simp only [World.routesOf, f1]
  have hbo : ∀ g, (w.engine.routes.foldl (Engine.applyRoute grow) w).baseOf g = w.baseOf g := by
    intro g; simp only [World.baseOf, f1]
  unfold Engine.Apply
  simp only
  refine ⟨i1.trans f1, i2.trans f2, fun r hr => ?_, fun g hg rs b r hrs hb hmem => ?_⟩
  · rw [i3 r (fun g _ rs hrs => (hs.top r hr).2 g rs (by rw [← hro]; exact hrs)), f3]
  · rw [f2] at i4
    rw [f2, i4 r g rs b hs.gnodup hg (by rw [hro]; exact hrs) (by rw [hbo]; exact hb)
      (hs.rnodup g rs hrs) hmem
      (fun g' _ hne rs' hrs' hmem' =>
        hne (hs.owner g' g rs' rs r (by rw [← hro]; exact hrs') hrs hmem' hmem)), f3]

/-! ## Registration calls keep the pointer structure -/

theorem SameShape.sound {w w' : World H} (h : w.SameShape w') (hs : w.Sound) : w'.Sound where
  gnodup := by rw [h.groups]; exact hs.gnodup
  gbound := by rw [h.groups, h.ngroups]; exact hs.gbound
  rnodup := fun g rs hrs => hs.rnodup g rs (by rw [← h.members]; exact hrs)
  rbound := fun g rs hrs => by
    rw [h.nroutes]; exact hs.rbound g rs (by rw [← h.members]; exact hrs)
  owner := fun g g' rs rs' r h1 h2 => hs.owner g g' rs rs' r
    (by rw [← h.members]; exact h1) (by rw [← h.members]; exact h2)
  top := fun r hr => by
    rw [h.tops] at hr
    rw [h.nroutes]
    exact ⟨(hs.top r hr).1, fun g rs hrs => (hs.top r hr).2 g rs (by rw [← h.members]; exact hrs)⟩

theorem SameShape.extends {w w' : World H} (h : w.SameShape w') : w.Extends w' where
  paths := fun r q hq => by rw [h.paths]; exact hq
  bases := fun g b hb => by rw [h.bases]; exact hb
  members := fun g rs hrs => ⟨rs, by rw [h.members]; exact hrs, fun _ hr => hr⟩
  tops := fun r hr => by rw [h.tops]; exact hr
  groups := fun g hg => by rw [h.groups]; exact hg

theorem extends_refl (w : World H) : w.Extends w :=
  ⟨fun _ _ h => h, fun _ _ h => h, fun _ rs h => ⟨rs, h, fun _ hr => hr⟩, fun _ h => h,
    fun _ h => h⟩

theorem extends_trans {a b c : World H} (h1 : a.Extends b) (h2 : b.Extends c) : a.Extends c where
  paths := fun r q hq => h2.paths r q (h1.paths r q hq)
  bases := fun g x hb => h2.bases g x (h1.bases g x hb)
  members := fun g rs hrs => by
    obtain ⟨rs1, e1, m1⟩ := h1.members g rs hrs
    obtain ⟨rs2, e2, m2⟩ := h2.members g rs1 e1
    exact ⟨rs2, e2, fun r hr => m2 r (m1 r hr)⟩
  tops := fun r hr => h2.tops r (h1.tops r hr)
  groups := fun g hg => h2.groups g (h1.groups g hg)

theorem sameShape_of_heap (w : World H) (heap : List (BackingArray H)) (e : Engine H)
    (h1 : e.routes = w.engine.routes) (h2 : e.routeGroups = w.engine.routeGroups) :
    w.SameShape { w with heap := heap, engine := e } :=
  ⟨fun _ => rfl, fun _ => rfl, fun _ => rfl, rfl, rfl, h1, h2⟩

theorem sameShape_of_route (w : World H) (heap : List (BackingArray H)) (r : Nat)
    (route route' : Route H) (h : w.routeObjs[r]? = some route) (hp : route'.path = route.path) :
    w.SameShape { w with heap := heap, routeObjs := w.routeObjs.set r route' } :=
  ⟨fun _ => getElem?_set_map (fun x : Route H => x.path) _ _ _ _ _ h hp,
    fun _ => rfl, fun _ => rfl, List.length_set _ _ _, rfl, rfl, rfl⟩

theorem sameShape_of_group (w : World H) (heap : List (BackingArray H)) (g : Nat)
    (group group' : RouteGroup) (h : w.groupObjs[g]? = some group)
    (hb : group'.basePath = group.basePath) (hr : group'.routes = group.routes) :
    w.SameShape { w with heap := heap, groupObjs := w.groupObjs.set g group' } :=
  ⟨fun _ => rfl,
    fun _ => getElem?_set_map (fun x : RouteGroup => x.basePath) _ _ _ _ _ h hb,
    fun _ => getElem?_set_map (fun x : RouteGroup => x.routes) _ _ _ _ _ h hr,
    rfl, List.length_set _ _ _, rfl, rfl⟩

theorem sameShape_refl (w : World H) : w.SameShape w :=
  ⟨fun _ => rfl, fun _ => rfl, fun _ => rfl, rfl, rfl, rfl, rfl⟩

theorem UseAuth_shape (w : World H) (f : H) : w.SameShape (Engine.UseAuth w f) :=
  ⟨fun _ => rfl, fun _ => rfl, fun _ => rfl, rfl, rfl, rfl, rfl⟩

theorem AllowAllCORS_shape (grow : Nat → Nat → Nat) (cors : H) (w : World H) :
    w.SameShape (Engine.AllowAllCORS grow cors w) :=
  ⟨fun _ => rfl, fun _ => rfl, fun _ => rfl, rfl, rfl, rfl, rfl⟩

theorem Use_shape (grow : Nat → Nat → Nat) (w : World H) (mws : List H) :
    w.SameShape (Engine.Use grow w mws) :=
  ⟨fun _ => rfl, fun _ => rfl, fun _ => rfl, rfl, rfl, rfl, rfl⟩

theorem groupUse_shape (grow : Nat → Nat → Nat) (w : World H) (rg : Nat) (mws : List H) :
    w.SameShape (RouteGroup.Use grow w rg mws) := by
  unfold RouteGroup.Use
  cases h : w.groupObjs[rg]? with
  | none => exact sameShape_refl w
  | some group => exact sameShape_of_group w _ rg group _ h rfl rfl

theorem updRoute_shape (w : World H) (r : Nat) (f : Route H → Route H)
    (hf : ∀ route, (f route).path = route.path) : w.SameShape (w.updRoute r f) := by
  unfold World.updRoute
  cases h : w.routeObjs[r]? with
  | none => exact sameShape_refl w
  | some route => exact sameShape_of_route w w.heap r route _ h (hf route)

theorem routeUse_shape (grow : Nat → Nat → Nat) (w : World H) (r : Nat) (mws : List H) :
    w.SameShape (Route.Use grow w r mws) := by
  unfold Route.Use
  cases h : w.routeObjs[r]? with
  | none => exact sameShape_refl w
  | some route => exact sameShape_of_route w _ r route _ h rfl

theorem getElem?_append_old {α : Type} (l : List α) (x a : α) (i : Nat) (h : l[i]? = some a) :
    (l ++ [x])[i]? = some a := by
  have hlt : i < l.length := by
    by_contra hge
    rw [List.getElem?_eq_none (by omega)] at h
    cases h
  rw [List.getElem?_append_left hlt, h]

theorem getElem?_append_new {α : Type} (l : List α) (x : α) : (l ++ [x])[l.length]? = some x := by
  rw [List.getElem?_append_right (Nat.le_refl _)]
  simp

theorem getElem?_append_cases {α : Type} (l : List α) (x a : α) (i : Nat)
    (h : (l ++ [x])[i]? = some a) : l[i]? = some a ∨ (i = l.length ∧ a = x) := by
  by_cases hlt : i < l.length
  · rw [List.getElem?_append_left hlt] at h
    exact Or.inl h
  · rw [List.getElem?_append_right (by omega)] at h
    by_cases he : i = l.length
    · subst he
      simp at h
      exact Or.inr ⟨rfl, h.symm⟩
    · have : i - l.length ≠ 0 := by omega
      obtain ⟨k, hk⟩ := Nat.exists_eq_succ_of_ne_zero this
      rw [hk] at h
      simp at h

theorem lt_length_of_getElem? {α : Type} (l : List α) (a : α) (i : Nat) (h : l[i]? = some a) :
    i < l.length := by
  by_contra hge
  rw [List.getElem?_eq_none (by omega)] at h
  cases h

/-- The call `Engine.register` adds a top-level route with the given path. -/
theorem register_spec (w : World H) (path method : String) (handler : H) (hs : w.Sound) :
    (Engine.register w path method handler).1.Sound ∧
    w.Extends (Engine.register w path method handler).1 ∧
    (Engine.register w path method handler).1.pathOf (Engine.register w path method handler).2 =
      some path ∧
    (Engine.register w path method handler).2 ∈
      (Engine.register w path method handler).1.engine.routes := by
  refine ⟨⟨hs.gnodup, hs.gbound, hs.rnodup, fun g rs hrs r hr => ?_, hs.owner, fun r hr => ?_⟩,
    ⟨fun r q hq => ?_, fun _ _ h => h, fun _ rs h => ⟨rs, h, fun _ hr => hr⟩, fun r hr => ?_,
      fun _ h => h⟩, ?_, ?_⟩
  · have := hs.rbound g rs hrs r hr
    simp only [Engine.register, List.length_append, List.length_singleton]
    omega
  · simp only [Engine.register, List.mem_append, List.mem_singleton] at hr
    simp only [Engine.register, List.length_append, List.length_singleton]
    rcases hr with hr | hr
    · exact ⟨Nat.lt_succ_of_lt (hs.top r hr).1, (hs.top r hr).2⟩
    · subst hr
      refine ⟨Nat.lt_succ_self _, fun g rs hrs hmem => ?_⟩
      exact Nat.lt_irrefl _ (hs.rbound g rs hrs _ hmem)
  · simp only [World.pathOf, Engine.register] at hq ⊢
    cases hl : w.routeObjs[r]? with
    | none => rw [hl] at hq; cases hq
    | some route =>
      rw [hl] at hq
      rw [getElem?_append_old _ _ _ _ hl]
      exact hq
  · simp only [Engine.register, List.mem_append]
    exact Or.inl hr
  · simp only [World.pathOf, Engine.register, getElem?_append_new]
    rfl
  · simp [Engine.register]

/-- The call `Engine.Group` adds an empty group with base path `"/" ++ path`. -/
theorem Group_spec (w : World H) (path : String) (hs : w.Sound) :
    (Engine.Group w path).1.Sound ∧ w.Extends (Engine.Group w path).1 ∧
    (Engine.Group w path).1.baseOf (Engine.Group w path).2 = some ("/" ++ path) ∧
    (Engine.Group w path).1.routesOf (Engine.Group w path).2 = some [] ∧
    (Engine.Group w path).2 ∈ (Engine.Group w path).1.engine.routeGroups := by
  have hlook : ∀ g rs, (Engine.Group w path).1.routesOf g = some rs →
      w.routesOf g = some rs ∨ rs = [] := by
    intro g rs hrs
    simp only [World.routesOf, Engine.Group, Option.map_eq_some'] at hrs ⊢
    obtain ⟨group, hl, hgr⟩ := hrs
    rcases getElem?_append_cases _ _ _ _ hl with h | ⟨_, h⟩
    · exact Or.inl ⟨group, h, hgr⟩
    · subst h
      exact Or.inr hgr.symm
  refine ⟨⟨?_, fun g hg => ?_, fun g rs hrs => ?_, fun g rs hrs r hr => ?_,
      fun g g' rs rs' r h1 h2 m1 m2 => ?_, fun r hr => ⟨(hs.top r hr).1, fun g rs hrs hm => ?_⟩⟩,
    ⟨fun _ _ h => h, fun g b hb => ?_, fun g rs hrs => ⟨rs, ?_, fun _ hr => hr⟩, fun _ h => h,
      fun g hg => ?_⟩, ?_, ?_, ?_⟩
  · simp only [Engine.Group]
    rw [List.nodup_append]
    refine ⟨hs.gnodup, List.nodup_singleton _, ?_⟩
    intro a ha hb
    rw [List.mem_singleton] at hb
    subst hb
    exact Nat.lt_irrefl _ (hs.gbound _ ha)
  · simp only [Engine.Group, List.mem_append, List.mem_singleton, List.length_append,
      List.length_singleton] at hg ⊢
    rcases hg with hg | hg
    · exact Nat.lt_succ_of_lt (hs.gbound g hg)
    · omega
  · rcases hlook g rs hrs with h | h
    · exact hs.rnodup g rs h
    · subst h; exact List.nodup_nil
  · rcases hlook g rs hrs with h | h
    · exact hs.rbound g rs h r hr
    · subst h; cases hr
  · rcases hlook g rs h1 with a1 | a1
    · rcases hlook g' rs' h2 with a2 | a2
      · exact hs.owner g g' rs rs' r a1 a2 m1 m2
      · subst a2; cases m2
    · subst a1; cases m1
  · rcases hlook g rs hrs with h | h
    · exact (hs.top r hr).2 g rs h hm
    · subst h; cases hm
  · simp only [World.baseOf, Engine.Group] at hb ⊢
    cases hl : w.groupObjs[g]? with
    | none => rw [hl] at hb; cases hb
    | some group => rw [hl] at hb; rw [getElem?_append_old _ _ _ _ hl]; exact hb
  · simp only [World.routesOf, Engine.Group] at hrs ⊢
    cases hl : w.groupObjs[g]? with
    | none => rw [hl] at hrs; cases hrs
    | some group => rw [hl] at hrs; rw [getElem?_append_old _ _ _ _ hl]; exact hrs
  · simp only [Engine.Group, List.mem_append]
    exact Or.inl hg
  · simp only [World.baseOf, Engine.Group, getElem?_append_new]
    rfl
  · simp only [World.routesOf, Engine.Group, getElem?_append_new]
    rfl
  · simp [Engine.Group]

/-- The call `RouteGroup.register` on an existing group adds a route with the given
path to that group. -/
theorem groupRegister_spec (w : World H) (rg : Nat) (path method : String) (handler : H)
    (hs : w.Sound) :
    (RouteGroup.register w rg path method handler).1.Sound ∧
    w.Extends (RouteGroup.register w rg path method handler).1 ∧
    (∀ rs, w.routesOf rg = some rs →
      (RouteGroup.register w rg path method handler).1.pathOf
        (RouteGroup.register w rg path method handler).2 = some path ∧
      ∃ rs', (RouteGroup.register w rg path method handler).1.routesOf rg = some rs' ∧
        (RouteGroup.register w rg path method handler).2 ∈ rs') := by
  unfold RouteGroup.register
  cases hg : w.groupObjs[rg]? with
  | none =>
    refine ⟨hs, extends_refl w, fun rs hrs => ?_⟩
    simp [World.routesOf, hg] at hrs
  | some group =>
    simp only
    have hold : w.routesOf rg = some group.routes := by simp [World.routesOf, hg]
    have hnew : ∀ r ∈ group.routes, r < w.routeObjs.length := hs.rbound rg _ hold
    have hlook : ∀ g rs,
        ((w.groupObjs.set rg { group with routes := group.routes ++ [w.routeObjs.length] })[g]?).map
          (fun x : RouteGroup => x.routes) = some rs →
        (g ≠ rg ∧ w.routesOf g = some rs) ∨
          (g = rg ∧ rs = group.routes ++ [w.routeObjs.length]) := by
      intro g rs hrs
      by_cases hgr : rg = g
      · subst hgr
        rw [getElem?_set_self _ _ _ _ hg] at hrs
        exact Or.inr ⟨rfl, (Option.some.inj hrs).symm⟩
      · rw [getElem?_set_other _ _ _ _ hgr] at hrs
        exact Or.inl ⟨Ne.symm hgr, hrs⟩
    refine ⟨⟨hs.gnodup, fun g hg' => ?_, fun g rs hrs => ?_, fun g rs hrs r hr => ?_,
        fun g g' rs rs' r h1 h2 m1 m2 => ?_, fun r hr => ⟨?_, fun g rs hrs hm => ?_⟩⟩,
      ⟨fun r q hq => ?_, fun g b hb => ?_, fun g rs hrs => ?_, fun _ h => h, fun _ h => h⟩,
      fun rs _ => ⟨?_, group.routes ++ [w.routeObjs.length], ?_, by simp⟩⟩
    · simp only [List.length_set]; exact hs.gbound g hg'
    · rcases hlook g rs hrs with ⟨_, h⟩ | ⟨_, h⟩
      · exact hs.rnodup g rs h
      · subst h
        rw [List.nodup_append]
        refine ⟨hs.rnodup rg _ hold, List.nodup_singleton _, ?_⟩
        intro a ha hb
        rw [List.mem_singleton] at hb
        subst hb
        exact Nat.lt_irrefl _ (hnew _ ha)
    · simp only [List.length_append, List.length_singleton]
      rcases hlook g rs hrs with ⟨_, h⟩ | ⟨_, h⟩
      · exact Nat.lt_succ_of_lt (hs.rbound g rs h r hr)
      · subst h
        rcases List.mem_append.1 hr with hr | hr
        · exact Nat.lt_succ_of_lt (hnew r hr)
        · rw [List.mem_singleton] at hr; omega
    · rcases hlook g rs h1 with ⟨_, a1⟩ | ⟨e1, a1⟩ <;>
        rcases hlook g' rs' h2 with ⟨_, a2⟩ | ⟨e2, a2⟩
      · exact hs.owner g g' rs rs' r a1 a2 m1 m2
      · subst a2
        rcases List.mem_append.1 m2 with m2 | m2
        · rw [e2]; exact hs.owner g rg rs _ r a1 hold m1 m2
        · rw [List.mem_singleton] at m2
          subst m2
          exact absurd (hs.rbound g rs a1 _ m1) (Nat.lt_irrefl _)
      · subst a1
        rcases List.mem_append.1 m1 with m1 | m1
        · rw [e1]; exact hs.owner rg g' _ rs' r hold a2 m1 m2
        · rw [List.mem_singleton] at m1
          subst m1
          exact absurd (hs.rbound g' rs' a2 _ m2) (Nat.lt_irrefl _)
      · rw [e1, e2]
    · simp only [List.length_append, List.length_singleton]
      exact Nat.lt_succ_of_lt (hs.top r hr).1
    · rcases hlook g rs hrs with ⟨_, h⟩ | ⟨_, h⟩
      · exact (hs.top r hr).2 g rs h hm
      · subst h
        rcases List.mem_append.1 hm with hm | hm
        · exact (hs.top r hr).2 rg _ hold hm
        · rw [List.mem_singleton] at hm
          subst hm
          exact Nat.lt_irrefl _ (hs.top _ hr).1
    · simp only [World.pathOf] at hq ⊢
      cases hl : w.routeObjs[r]? with
      | none => rw [hl] at hq; cases hq
      | some route => rw [hl] at hq; rw [getElem?_append_old _ _ _ _ hl]; exact hq
    · simp only [World.baseOf] at hb ⊢
      refine (getElem?_set_map (fun x : RouteGroup => x.basePath) _ _ _ group _ hg ?_).trans hb
      rfl
    · by_cases hgr : rg = g
      · subst hgr
        rw [hold] at hrs
        cases Option.some.inj hrs
        refine ⟨group.routes ++ [w.routeObjs.length], ?_, fun r hr => List.mem_append_left _ hr⟩
        simp only [World.routesOf]
        rw [getElem?_set_self _ _ _ _ hg]
        rfl
      · refine ⟨rs, ?_, fun _ hr => hr⟩
        simp only [World.routesOf] at hrs ⊢
        rw [getElem?_set_other _ _ _ _ hgr]
        exact hrs
    · simp only [World.pathOf, getElem?_append_new]
      rfl
    · simp only [World.routesOf]
      rw [getElem?_set_self _ _ _ _ hg]
      rfl

/-- Every registration call keeps the pointer structure and what was
registered before. -/
theorem Cmd.run_spec (grow : Nat → Nat → Nat) (cors : H) (w : World H) (c : Cmd H)
    (hs : w.Sound) : (c.run grow cors w).Sound ∧ w.Extends (c.run grow cors w) := by
  cases c with
  | useAuth f => exact ⟨SameShape.sound (UseAuth_shape w f) hs, SameShape.extends (UseAuth_shape w f)⟩
  | allowAllCORS =>
    exact ⟨SameShape.sound (AllowAllCORS_shape grow cors w) hs,
      SameShape.extends (AllowAllCORS_shape grow cors w)⟩
  | use mws =>
    exact ⟨SameShape.sound (Use_shape grow w mws) hs, SameShape.extends (Use_shape grow w mws)⟩
  | register path method handler =>
    exact ⟨(register_spec w path method handler hs).1, (register_spec w path method handler hs).2.1⟩
  | group path => exact ⟨(Group_spec w path hs).1, (Group_spec w path hs).2.1⟩
  | groupUse rg mws =>
    exact ⟨SameShape.sound (groupUse_shape grow w rg mws) hs,
      SameShape.extends (groupUse_shape grow w rg mws)⟩
  | groupRegister rg path method handler =>
    exact ⟨(groupRegister_spec w rg path method handler hs).1,
      (groupRegister_spec w rg path method handler hs).2.1⟩
  | routeAuth r =>
    exact ⟨SameShape.sound (updRoute_shape w r _ fun _ => rfl) hs,
      SameShape.extends (updRoute_shape w r _ fun _ => rfl)⟩
  | routeRoles r roles =>
    exact ⟨SameShape.sound (updRoute_shape w r _ fun _ => rfl) hs,
      SameShape.extends (updRoute_shape w r _ fun _ => rfl)⟩
  | routeUse r mws =>
    exact ⟨SameShape.sound (routeUse_shape grow w r mws) hs,
      SameShape.extends (routeUse_shape grow w r mws)⟩

theorem runCmds_spec (grow : Nat → Nat → Nat) (cors : H) (cmds : List (Cmd H)) :
    ∀ w : World H, w.Sound →
      (runCmds grow cors w cmds).Sound ∧ w.Extends (runCmds grow cors w cmds) := by
  induction cmds with
  | nil => intro w hs; exact ⟨hs, extends_refl w⟩
  | cons c cmds ih =>
    intro w hs
    obtain ⟨s1, e1⟩ := Cmd.run_spec grow cors w c hs
    obtain ⟨s2, e2⟩ := ih (c.run grow cors w) s1
    exact ⟨s2, extends_trans e1 e2⟩

theorem New_sound : (New : World H).Sound := by
  have hno : ∀ g rs, (New : World H).routesOf g ≠ some rs := by
    intro g rs h
    simp [World.routesOf, New] at h
  exact ⟨List.nodup_nil, fun _ h => (by cases h), fun g rs h => absurd h (hno g rs),
    fun g rs h => absurd h (hno g rs), fun g g' rs rs' r h => absurd h (hno g rs),
    fun _ h => (by cases h)⟩

theorem mem_allRoutes_of_group (w : World H) (g r : Nat) (rs : List Nat)
    (hg : g ∈ w.engine.routeGroups) (hrs : w.routesOf g = some rs) (hr : r ∈ rs) :
    r ∈ w.allRoutes := by
  unfold World.allRoutes
  rw [List.mem_append, List.mem_flatMap]
  refine Or.inr ⟨g, hg, ?_⟩
  simp only [World.routesOf, Option.map_eq_some'] at hrs
  obtain ⟨group, hl, hgr⟩ := hrs
  rw [hl]
  simp only
  rw [hgr]
  exact hr

theorem isPathExist_of_pathOf (w : World H) (r : Nat) (x : String) (hr : r ∈ w.allRoutes)
    (hp : w.pathOf r = some x) : Engine.isPathExist w x = true := by
  simp only [World.pathOf, Option.map_eq_some'] at hp
  obtain ⟨route, hl, hx⟩ := hp
  rw [isPathExist_iff, ← hx]
  exact mem_finalPaths w r route hr hl

theorem allRoutes_congr (w w' : World H) (hg : w'.groupObjs = w.groupObjs)
    (he : w'.engine = w.engine) : w'.allRoutes = w.allRoutes := by
  unfold World.allRoutes
  rw [hg, he]

/-- C7: a route registered with path `q` in the group created by `Group(p)`
has the path `"/" ++ p ++ q` after `Apply`, whatever other registration calls
are made before, between and after, and `isPathExist` accepts that path (it
accepts a path exactly when it is the final path of a route the engine
reaches); a top-level route registered with path `q` still has the path `q`
after `Apply`. -/
theorem group_route_final_path (grow : Nat → Nat → Nat) (cors : H)
    (pre mid post : List (Cmd H)) (p q method : String) (handler : H) :
    (let w1 := runCmds grow cors New pre
     let g := Engine.Group w1 p
     let w2 := runCmds grow cors g.1 mid
     let r := RouteGroup.register w2 g.2 q method handler
     let w3 := runCmds grow cors r.1 post
     (Engine.Apply grow w3).pathOf r.2 = some ("/" ++ p ++ q) ∧
     Engine.isPathExist (Engine.Apply grow w3) ("/" ++ p ++ q) = true ∧
     ∀ x, Engine.isPathExist (Engine.Apply grow w3) x = true ↔
       x ∈ (Engine.Apply grow w3).finalPaths) ∧
    (let w1 := runCmds grow cors New pre
     let r := Engine.register w1 q method handler
     let w3 := runCmds grow cors r.1 post
     (Engine.Apply grow w3).pathOf r.2 = some q ∧
     Engine.isPathExist (Engine.Apply grow w3) q = true) := by
  have hs1 := (runCmds_spec grow cors pre New New_sound).1
  constructor
  · intro w1 g w2 r w3
    obtain ⟨sg, _, bg, rg, mg⟩ := Group_spec w1 p hs1
    obtain ⟨s2, e2⟩ := runCmds_spec grow cors mid g.1 sg
    obtain ⟨rs2, hrs2, _⟩ := e2.members g.2 [] rg
    obtain ⟨sr, er, hr⟩ := groupRegister_spec w2 g.2 q method handler s2
    obtain ⟨pr, rs', hrs', mr⟩ := hr rs2 hrs2
    obtain ⟨s3, e3⟩ := runCmds_spec grow cors post r.1 sr
    obtain ⟨rs3, hrs3, m3⟩ := e3.members g.2 rs' hrs'
    have hb3 : w3.baseOf g.2 = some ("/" ++ p) := e3.bases _ _ (er.bases _ _ (e2.bases _ _ bg))
    have hg3 : g.2 ∈ w3.engine.routeGroups := e3.groups _ (er.groups _ (e2.groups _ mg))
    have hp3 : w3.pathOf r.2 = some q := e3.paths _ _ pr
    obtain ⟨a1, a2, _, a4⟩ := Apply_paths grow w3 s3
    have hfinal : (Engine.Apply grow w3).pathOf r.2 = some ("/" ++ p ++ q) := by
      rw [a4 g.2 hg3 rs3 ("/" ++ p) r.2 hrs3 hb3 (m3 _ mr), hp3]
      rfl
    refine ⟨hfinal, ?_, fun x => isPathExist_iff _ x⟩
    refine isPathExist_of_pathOf _ r.2 _ ?_ hfinal
    rw [allRoutes_congr _ _ a1 a2]
    exact mem_allRoutes_of_group w3 g.2 r.2 rs3 hg3 hrs3 (m3 _ mr)
  · intro w1 r w3
    obtain ⟨sr, _, pr, mr⟩ := register_spec w1 q method handler hs1
    obtain ⟨s3, e3⟩ := runCmds_spec grow cors post r.1 sr
    have hp3 : w3.pathOf r.2 = some q := e3.paths _ _ pr
    have hm3 : r.2 ∈ w3.engine.routes := e3.tops _ mr
    obtain ⟨a1, a2, a3, _⟩ := Apply_paths grow w3 s3
    have hfinal : (Engine.Apply grow w3).pathOf r.2 = some q := by rw [a3 _ hm3, hp3]
    refine ⟨hfinal, isPathExist_of_pathOf _ r.2 _ ?_ hfinal⟩
    rw [allRoutes_congr _ _ a1 a2]
    unfold World.allRoutes
    exact List.mem_append_left _ hm3

/-- Witness of C7: scenario 6, the group `"api"` with the route `"/ping"`. -/
theorem group_route_final_path_witness :
    (Engine.Apply gcGrow
      (RouteGroup.register (Engine.Group (New : World String) "api").1
        (Engine.Group (New : World String) "api").2 "/ping" "GET" "pong").1).pathOf 0 =
      some "/api/ping" :=
  (group_route_final_path gcGrow "cors" [] [] [] "api" "/ping" "GET" "pong").1.1

/-! ## The auth requirement of a route -/

/-- A route is registered without the auth requirement; `Auth` and `Roles`
set it. -/
theorem requireAuth_set (w : World H) (r : Nat) (route : Route H) (roles : List Int)
    (path method : String) (handler : H) (h : w.routeObjs[r]? = some route) :
    ((Route.Auth w r).routeObjs[r]?).map (fun x => x.requireAuth) = some true ∧
    ((Route.Roles w r roles).routeObjs[r]?).map (fun x => (x.requireAuth, x.allowedRoles)) =
      some (true, route.allowedRoles ++ roles) ∧
    ((Engine.register w path method handler).1.routeObjs[
      (Engine.register w path method handler).2]?).map (fun x => x.requireAuth) = some false := by
  refine ⟨?_, ?_, ?_⟩
  · simp only [Route.Auth, World.updRoute, h]
    rw [getElem?_set_self _ _ _ _ h]
    rfl
  · simp only [Route.Roles, World.updRoute, h]
    rw [getElem?_set_self _ _ _ _ h]
    rfl
  · simp only [Engine.register, getElem?_append_new]
    rfl

/-! ## The custom-data store -/

theorem mapGet_mapSet_self (m : List (String × Any)) (key : String) (v : Any) :
    mapGet (mapSet m key v) key = (v, true) := by
  induction m with
  | nil => simp [mapSet, mapGet]
  | cons kv m ih =>
    obtain ⟨k, x⟩ := kv
    by_cases h : k = key
    · simp [mapSet, mapGet, h]
    · simp [mapSet, mapGet, h, ih]

theorem mapGet_mapSet_other (m : List (String × Any)) (key key' : String) (v : Any)
    (hne : key' ≠ key) : mapGet (mapSet m key v) key' = mapGet m key' := by
  induction m with
  | nil => simp [mapSet, mapGet, Ne.symm hne]
  | cons kv m ih =>
    obtain ⟨k, x⟩ := kv
    by_cases h : k = key
    · subst h
      simp [mapSet, mapGet, Ne.symm hne]
    · by_cases h' : k = key'
      · subst h'
        simp [mapSet, mapGet, h]
      · simp [mapSet, mapGet, h, h', ih]

theorem Get_Set_self (c : Context) (key : String) (v : Any) : (c.Set key v).Get key = (v, true) := by
  simp only [Context.Set, Context.Get]
  exact mapGet_mapSet_self _ key v

theorem Get_Set_other (c : Context) (key key' : String) (v : Any) (hne : key' ≠ key) :
    (c.Set key v).Get key' = c.Get key' := by
  simp only [Context.Set, Context.Get]
  rw [mapGet_mapSet_other _ key key' v hne]
  cases c.data.CustomData <;> rfl

theorem Get_setAll (sets : List (String × Any)) (key : String) :
    ∀ c : Context, (c.setAll sets).Get key =
      match lastSet sets key with
      | some v => (v, true)
      | none => c.Get key := by
  induction sets with
  | nil => intro c; rfl
  | cons kv sets ih =>
    intro c
    obtain ⟨k, v⟩ := kv
    have hstep : Context.setAll c ((k, v) :: sets) = (c.Set k v).setAll sets := rfl
    rw [hstep, ih (c.Set k v)]
    simp only [lastSet]
    cases hl : lastSet sets key with
    | some v' => rfl
    | none =>
      simp only
      by_cases h : k = key
      · subst h
        simp only [if_true]
        exact Get_Set_self c k v
      · simp only [h, if_false]
        exact Get_Set_other c k key v (Ne.symm h)

/-- C11: the custom-data store is a finite map.  After any sequence of `Set`
calls on any Context, `Get(k)` returns `(v, true)` for the value `v` of the
most recent `Set(k, v)`, and what it returned before the sequence when `k`
was not set in it, which on a Context whose map is nil is `(nil, false)`;
`Set(k, v)` followed by `Get(k)` gives `(v, true)`, and `Set(k, v)` does not
change `Get(k')` for `k'` other than `k`. -/
theorem custom_data_is_map (c : Context) (sets : List (String × Any)) (k : String) :
    ((c.setAll sets).Get k =
      match lastSet sets k with
      | some v => (v, true)
      | none => c.Get k) ∧
    (c.data.CustomData = none → c.Get k = (Any.nil, false)) ∧
    (∀ v, (c.Set k v).Get k = (v, true)) ∧
    (∀ k' v, k' ≠ k → (c.Set k v).Get k' = c.Get k') := by
  refine ⟨Get_setAll sets k c, fun h => ?_, fun v => Get_Set_self c k v,
    fun k' v hne => Get_Set_other c k k' v hne⟩
  simp [Context.Get, h]

/-- Witness of C11: three `Set` calls on a fresh Context. -/
theorem custom_data_is_map_witness :
    ((Context.start []).setAll [("a", Any.int 1), ("b", Any.str "x"), ("a", Any.int 2)]).Get "a" =
      (Any.int 2, true) ∧
    ((Context.start []).setAll [("a", Any.int 1), ("b", Any.str "x"), ("a", Any.int 2)]).Get "c" =
      (Any.nil, false) :=
  ⟨(custom_data_is_map (Context.start [])
      [("a", Any.int 1), ("b", Any.str "x"), ("a", Any.int 2)] "a").1,
    ((custom_data_is_map (Context.start [])
      [("a", Any.int 1), ("b", Any.str "x"), ("a", Any.int 2)] "c").1).trans
      ((custom_data_is_map (Context.start []) [] "c").2.1 rfl)⟩

/-! ## Cursor invariants and termination -/

theorem Op.run_advances (fuel : Nat) (c : Context) (op : Op)
    (hfuel : c.HandlersChain.length ≤ c.Index + fuel) :
    ∃ c', op.run fuel c = some c' ∧ Advances c c' := by
  cases op with
  | next => exact Next_advances fuel c hfuel
  | abort => exact ⟨_, rfl, Advances.abort c⟩
  | abortWithStatus s => exact ⟨_, rfl, Advances.abortWithStatus c s⟩
  | abortWithStatusJSON s j => exact ⟨_, rfl, Advances.abortWithStatusJSON c s j⟩
  | set key v => exact ⟨_, rfl, Advances.set c key v⟩
  | get key => exact ⟨_, rfl, Advances.refl c⟩
  | status code => exact ⟨_, rfl, Advances.status c code⟩

/-- C13: along every sequence of `Next`, `Abort`, `AbortWithStatus`,
`AbortWithStatusJSON`, `Set`, `Get` and `Status` calls on a Context whose
cursor is within the chain, with enough fuel for the positions left, every
call returns and, from each Context to the next: the cursor does not
decrease and moves exactly through the positions started in between, it
stays at most the length of the chain, the chain is unchanged, and `Aborted`
once true stays true. -/
theorem cursor_invariants (fuel : Nat) (ops : List Op) :
    ∀ c : Context, c.HandlersChain.length ≤ c.Index + fuel →
      c.Index ≤ c.HandlersChain.length →
      ∃ states, runOps fuel c ops = some states ∧
        List.Chain (fun a b : Context =>
          a.Index ≤ b.Index ∧ b.Index ≤ b.HandlersChain.length ∧
          b.HandlersChain = a.HandlersChain ∧ (a.Aborted = true → b.Aborted = true) ∧
          ∃ t, b.trace = a.trace ++ t ∧
            invoked t = List.range' a.Index (b.Index - a.Index)) c states := by
  induction ops with
  | nil => intro c _ _; exact ⟨[], rfl, List.Chain.nil⟩
  | cons op ops ih =>
    intro c hfuel hidx
    obtain ⟨c1, e1, a1⟩ := Op.run_advances fuel c op hfuel
    obtain ⟨t, ht, hv, _, hab, _⟩ := a1.ev
    have hb := a1.bound hidx
    have hrel : c.Index ≤ c1.Index ∧ c1.Index ≤ c1.HandlersChain.length ∧
        c1.HandlersChain = c.HandlersChain ∧ (c.Aborted = true → c1.Aborted = true) ∧
        ∃ t, c1.trace = c.trace ++ t ∧
          invoked t = List.range' c.Index (c1.Index - c.Index) := by
      refine ⟨a1.idx, by rw [a1.chain]; exact hb, a1.chain, fun h => ?_, t, ht, hv⟩
      rw [hab, h]; rfl
    simp only [runOps, e1]
    by_cases hp : c1.panicking.isSome
    · simp only [hp, if_true]
      exact ⟨[c1], rfl, List.Chain.cons hrel List.Chain.nil⟩
    · simp only [hp]
      obtain ⟨states, es, hs⟩ := ih c1 (by rw [a1.chain]; have := a1.idx; omega)
        (by rw [a1.chain]; exact hb)
      exact ⟨c1 :: states, by simp [es], List.Chain.cons hrel hs⟩

/-- Witness of C13: five operations on a two-handler chain. -/
theorem cursor_invariants_witness :
    (Context.start [passThrough, healthHandler]).HandlersChain.length ≤
      (Context.start [passThrough, healthHandler]).Index + 2 ∧
    (Context.start [passThrough, healthHandler]).Index ≤
      (Context.start [passThrough, healthHandler]).HandlersChain.length ∧
    ∃ states, runOps 2 (Context.start [passThrough, healthHandler])
        [Op.set "k" (Any.int 1), Op.next, Op.abort, Op.next, Op.status 204] = some states ∧
      List.Chain (fun a b : Context =>
        a.Index ≤ b.Index ∧ b.Index ≤ b.HandlersChain.length ∧
        b.HandlersChain = a.HandlersChain ∧ (a.Aborted = true → b.Aborted = true) ∧
        ∃ t, b.trace = a.trace ++ t ∧
          invoked t = List.range' a.Index (b.Index - a.Index))
        (Context.start [passThrough, healthHandler]) states :=
  ⟨by decide, by decide,
    cursor_invariants 2 [Op.set "k" (Any.int 1), Op.next, Op.abort, Op.next, Op.status 204]
      (Context.start [passThrough, healthHandler]) (by decide) (by decide)⟩

/-- C18: a traversal started by `Next` at position 0, bounded by the length
of the chain, returns, and the positions it starts are `0, 1, ..., k - 1` for
some `k` at most the length of the chain: each position at most once, in
strictly increasing order, at most as many as the chain has handlers.  The
handlers are arbitrary bodies, calling `Next` any number of times. -/
theorem traversal_terminates (c : Context) (h0 : c.Index = 0) :
    ∃ c' t k, c.Next c.HandlersChain.length = some c' ∧ c'.trace = c.trace ++ t ∧
      invoked t = List.range k ∧ k ≤ c.HandlersChain.length ∧
      (invoked t).Nodup ∧ (invoked t).Pairwise (fun i j => i < j) ∧
      (invoked t).length ≤ c.HandlersChain.length ∧
      ∀ i ∈ invoked t, i < c.HandlersChain.length := by
  obtain ⟨c', e, a⟩ := Next_advances c.HandlersChain.length c (by omega)
  obtain ⟨t, ht, hv, _⟩ := a.ev
  have hb := a.bound (by omega)
  rw [h0, Nat.sub_zero, ← List.range_eq_range'] at hv
  refine ⟨c', t, c'.Index, e, ht, hv, hb, ?_, ?_, ?_, ?_⟩
  · rw [hv]; exact List.nodup_range _
  · rw [hv]; exact List.pairwise_lt_range _
  · rw [hv, List.length_range]; exact hb
  · intro i hi
    rw [hv, List.mem_range] at hi
    omega

/-- Witness of C18: a chain whose first handler calls `Next` twice. -/
theorem traversal_terminates_witness :
    (Context.start [Prog.next (Prog.next Prog.ret), passThrough, healthHandler]).Index = 0 ∧
    ∃ c' t k, (Context.start [Prog.next (Prog.next Prog.ret), passThrough,
          healthHandler]).Next
        (Context.start [Prog.next (Prog.next Prog.ret), passThrough,
          healthHandler]).HandlersChain.length = some c' ∧
      c'.trace = (Context.start [Prog.next (Prog.next Prog.ret), passThrough,
        healthHandler]).trace ++ t ∧
      invoked t = List.range k ∧
      k ≤ (Context.start [Prog.next (Prog.next Prog.ret), passThrough,
        healthHandler]).HandlersChain.length ∧
      (invoked t).Nodup ∧ (invoked t).Pairwise (fun i j => i < j) ∧
      (invoked t).length ≤ (Context.start [Prog.next (Prog.next Prog.ret), passThrough,
        healthHandler]).HandlersChain.length ∧
      ∀ i ∈ invoked t, i < (Context.start [Prog.next (Prog.next Prog.ret), passThrough,
        healthHandler]).HandlersChain.length :=
  ⟨rfl, traversal_terminates _ rfl⟩

/-! ## Panic recovery -/

/-- C16 (failing input): `POST /x` with the JSON body `{"q":1}` on
`panicWorld`.  The body is read into `Context.Body` by `parseBody`, the
terminal handler panics, and the line `recoverPanic` logs has the path but an
empty body. -/
theorem panic_log_has_no_body :
    (panicWorld.serve 0 0 (Request.json "POST" "/x" "\x7b\"q\":1\x7d")).map
        (fun o => (o.final.map fun c => (c.data.Body, c.panicking), o.log)) =
      some (some (some "\x7b\"q\":1\x7d", some "boom"),
        ["[PANIC RECOVERED]:\nboom\nEndpoint: /x\nBody: \n\n"]) := by
  rfl

/-! ## Verbs are fixed at registration -/

theorem verbOf_set (w : World H) (heap : List (BackingArray H)) (r : Nat) (route route' : Route H)
    (h : w.routeObjs[r]? = some route) (hm : route'.method = route.method) (j : Nat) :
    World.verbOf { w with heap := heap, routeObjs := w.routeObjs.set r route' } j =
      w.verbOf j :=
  getElem?_set_map (fun x : Route H => x.method) _ _ _ _ _ h hm

theorem verbOf_append (w : World H) (route : Route H) (g : List RouteGroup) (e : Engine H)
    (r : Nat) (m : String) (h : w.verbOf r = some m) :
    World.verbOf { w with routeObjs := w.routeObjs ++ [route], groupObjs := g, engine := e } r =
      some m := by
  simp only [World.verbOf] at h ⊢
  cases hl : w.routeObjs[r]? with
  | none => rw [hl] at h; cases h
  | some x => rw [hl] at h; rw [getElem?_append_old _ _ _ _ hl]; exact h

theorem Cmd.run_verbOf (grow : Nat → Nat → Nat) (cors : H) (w : World H) (c : Cmd H) (r : Nat)
    (m : String) (h : w.verbOf r = some m) : (c.run grow cors w).verbOf r = some m := by
  cases c with
  | useAuth f => exact h
  | allowAllCORS => exact h
  | use mws => exact h
  | register path method handler => exact verbOf_append w _ _ _ r m h
  | group path => exact h
  | groupUse rg mws =>
    simp only [Cmd.run, RouteGroup.Use]
    cases w.groupObjs[rg]? <;> exact h
  | groupRegister rg path method handler =>
    simp only [Cmd.run, RouteGroup.register]
    cases w.groupObjs[rg]? with
    | none => exact h
    | some group => exact verbOf_append w _ _ _ r m h
  | routeAuth r' =>
    simp only [Cmd.run, Route.Auth, World.updRoute]
    cases hl : w.routeObjs[r']? with
    | none => exact h
    | some route =>
      dsimp only
      refine (verbOf_set w _ r' route _ hl ?_ r).trans h
      rfl
  | routeRoles r' roles =>
    simp only [Cmd.run, Route.Roles, World.updRoute]
    cases hl : w.routeObjs[r']? with
    | none => exact h
    | some route =>
      dsimp only
      refine (verbOf_set w _ r' route _ hl ?_ r).trans h
      rfl
  | routeUse r' mws =>
    simp only [Cmd.run, Route.Use]
    cases hl : w.routeObjs[r']? with
    | none => exact h
    | some route =>
      dsimp only
      refine (verbOf_set w _ r' route _ hl ?_ r).trans h
      rfl

theorem runCmds_verbOf (grow : Nat → Nat → Nat) (cors : H) (cmds : List (Cmd H)) (r : Nat)
    (m : String) : ∀ w : World H, w.verbOf r = some m →
      (runCmds grow cors w cmds).verbOf r = some m := by
  induction cmds with
  | nil => intro w h; exact h
  | cons c cmds ih => intro w h; exact ih _ (Cmd.run_verbOf grow cors w c r m h)

theorem applyRoute_verbOf (grow : Nat → Nat → Nat) (w : World H) (r' r : Nat) :
    (Engine.applyRoute grow w r').verbOf r = w.verbOf r := by
  unfold Engine.applyRoute
  cases h : w.routeObjs[r']? with
  | none => rfl
  | some route =>
    simp only [World.verbOf, mount_routeObjs]
    exact getElem?_set_map (fun x : Route H => x.method) _ _ _ _ _ h rfl

theorem applyGroupRoute_verbOf (grow : Nat → Nat → Nat) (base : String) (w : World H)
    (r' r : Nat) : (Engine.applyGroupRoute grow base w r').verbOf r = w.verbOf r := by
  unfold Engine.applyGroupRoute
  cases h : w.routeObjs[r']? with
  | none => rfl
  | some route =>
    simp only [World.verbOf, mount_routeObjs]
    exact getElem?_set_map (fun x : Route H => x.method) _ _ _ _ _ h rfl

theorem foldl_verbOf (f : World H → Nat → World H) (hf : ∀ w x r, (f w x).verbOf r = w.verbOf r)
    (l : List Nat) : ∀ (w : World H) (r : Nat), (l.foldl f w).verbOf r = w.verbOf r := by
  induction l with
  | nil => intro w r; rfl
  | cons x l ih => intro w r; simp only [List.foldl_cons]; rw [ih, hf]

theorem applyGroup_verbOf (grow : Nat → Nat → Nat) (w : World H) (g r : Nat) :
    (Engine.applyGroup grow w g).verbOf r = w.verbOf r := by
  unfold Engine.applyGroup
  cases w.groupObjs[g]? with
  | none => rfl
  | some group =>
    exact foldl_verbOf _ (fun w x r => applyGroupRoute_verbOf grow group.basePath w x r) _ w r

theorem Apply_verbOf (grow : Nat → Nat → Nat) (w : World H) (r : Nat) :
    (Engine.Apply grow w).verbOf r = w.verbOf r := by
  unfold Engine.Apply
  simp only
  rw [foldl_verbOf _ (fun w x r => applyGroup_verbOf grow w x r),
    foldl_verbOf _ (fun w x r => applyRoute_verbOf grow w x r)]

theorem ne_options_of_public (verb : String) (h : verb ∈ publicVerbs) : "OPTIONS" ≠ verb := by
  simp only [publicVerbs, List.mem_cons, List.mem_singleton, List.not_mem_nil, or_false] at h
  rcases h with h | h | h | h | h <;> subst h <;> decide

/-- A request with verb `OPTIONS` to the path of a route with a public verb is
answered 405 and nothing else happens. -/
theorem serve_options (w : World Prog) (r : Nat) (verb path : String)
    (hverb : verb ∈ publicVerbs) (hr : r ∈ w.allRoutes) (hp : w.pathOf r = some path)
    (hv : w.verbOf r = some verb) (now : Nat) (req : Request) (hm : req.Method = "OPTIONS")
    (hpath : req.Path = path) :
    w.serve r now req =
      some { Writer := [WriterCall.writeHeader 405], trace := [], final := none, log := [] } := by
  simp only [World.pathOf, Option.map_eq_some'] at hp
  obtain ⟨route, hl, hx⟩ := hp
  simp only [World.verbOf, hl, Option.map_some', Option.some.injEq] at hv
  simp only [World.serve, hl]
  refine handle_of_other_verb w route now req ?_ ?_
  · rw [isPathExist_iff, hpath, ← hx]
    exact mem_finalPaths w r route hr hl
  · rw [hm, hv]
    exact ne_options_of_public verb hverb

theorem register_verbOf (w : World H) (path method : String) (handler : H) :
    (Engine.register w path method handler).1.verbOf (Engine.register w path method handler).2 =
      some method := by
  simp only [World.verbOf, Engine.register, getElem?_append_new]
  rfl

theorem groupRegister_verbOf (w : World H) (rg : Nat) (path method : String) (handler : H)
    (rs : List Nat) (h : w.routesOf rg = some rs) :
    (RouteGroup.register w rg path method handler).1.verbOf
      (RouteGroup.register w rg path method handler).2 = some method := by
  simp only [World.routesOf, Option.map_eq_some'] at h
  obtain ⟨group, hl, _⟩ := h
  simp only [World.verbOf, RouteGroup.register, hl, getElem?_append_new]
  rfl

/-- A route registered in a group by a registration script: its path, verb
and reachability after `Apply`. -/
theorem grouped_route_after_Apply (grow : Nat → Nat → Nat) (cors : H)
    (pre mid post : List (Cmd H)) (p q method : String) (handler : H) :
    let w1 := runCmds grow cors New pre
    let g := Engine.Group w1 p
    let w2 := runCmds grow cors g.1 mid
    let r := RouteGroup.register w2 g.2 q method handler
    let w3 := runCmds grow cors r.1 post
    (Engine.Apply grow w3).pathOf r.2 = some ("/" ++ p ++ q) ∧
    r.2 ∈ (Engine.Apply grow w3).allRoutes ∧
    (Engine.Apply grow w3).verbOf r.2 = some method := by
  intro w1 g w2 r w3
  have hs1 := (runCmds_spec grow cors pre New New_sound).1
  obtain ⟨sg, _, bg, rg, mg⟩ := Group_spec w1 p hs1
  obtain ⟨s2, e2⟩ := runCmds_spec grow cors mid g.1 sg
  obtain ⟨rs2, hrs2, _⟩ := e2.members g.2 [] rg
  obtain ⟨sr, er, hr⟩ := groupRegister_spec w2 g.2 q method handler s2
  obtain ⟨pr, rs', hrs', mr⟩ := hr rs2 hrs2
  obtain ⟨s3, e3⟩ := runCmds_spec grow cors post r.1 sr
  obtain ⟨rs3, hrs3, m3⟩ := e3.members g.2 rs' hrs'
  have hb3 : w3.baseOf g.2 = some ("/" ++ p) := e3.bases _ _ (er.bases _ _ (e2.bases _ _ bg))
  have hg3 : g.2 ∈ w3.engine.routeGroups := e3.groups _ (er.groups _ (e2.groups _ mg))
  have hp3 : w3.pathOf r.2 = some q := e3.paths _ _ pr
  obtain ⟨a1, a2, _, a4⟩ := Apply_paths grow w3 s3
  refine ⟨?_, ?_, ?_⟩
  · rw [a4 g.2 hg3 rs3 ("/" ++ p) r.2 hrs3 hb3 (m3 _ mr), hp3]
    rfl
  · rw [allRoutes_congr _ _ a1 a2]
    exact mem_allRoutes_of_group w3 g.2 r.2 rs3 hg3 hrs3 (m3 _ mr)
  · rw [Apply_verbOf]
    exact runCmds_verbOf grow cors post r.2 method r.1
      (groupRegister_verbOf w2 g.2 q method handler rs2 hrs2)

/-- A top-level route registered by a registration script: its path, verb and
reachability after `Apply`. -/
theorem top_route_after_Apply (grow : Nat → Nat → Nat) (cors : H)
    (pre post : List (Cmd H)) (q method : String) (handler : H) :
    let w1 := runCmds grow cors New pre
    let r := Engine.register w1 q method handler
    let w3 := runCmds grow cors r.1 post
    (Engine.Apply grow w3).pathOf r.2 = some q ∧
    r.2 ∈ (Engine.Apply grow w3).allRoutes ∧
    (Engine.Apply grow w3).verbOf r.2 = some method := by
  intro w1 r w3
  have hs1 := (runCmds_spec grow cors pre New New_sound).1
  obtain ⟨sr, _, pr, mr⟩ := register_spec w1 q method handler hs1
  obtain ⟨s3, e3⟩ := runCmds_spec grow cors post r.1 sr
  have hp3 : w3.pathOf r.2 = some q := e3.paths _ _ pr
  have hm3 : r.2 ∈ w3.engine.routes := e3.tops _ mr
  obtain ⟨a1, a2, a3, _⟩ := Apply_paths grow w3 s3
  refine ⟨by rw [a3 _ hm3, hp3], ?_, ?_⟩
  · rw [allRoutes_congr _ _ a1 a2]
    unfold World.allRoutes
    exact List.mem_append_left _ hm3
  · rw [Apply_verbOf]
    exact runCmds_verbOf grow cors post r.2 method r.1 (register_verbOf w1 q method handler)

/-- C19: for a route registered with one of the verbs `GET`, `POST`, `PUT`,
`PATCH`, `DELETE`, at top level or in a group, whatever other registration
calls (`AllowAllCORS` among them) are made before and after, a request with
verb `OPTIONS` to the final path of the route gets `WriteHeader(405)` from
the dispatch entry and nothing else: the trace is empty, so no handler of the
chain runs, `allowAllCORS` included, and neither its header nor its 200 is
written. -/
theorem options_is_rejected (grow : Nat → Nat → Nat) (pre mid post : List (Cmd Prog))
    (p q verb : String) (handler : Prog) (now : Nat) (req : Request)
    (hverb : verb ∈ publicVerbs) (hm : req.Method = "OPTIONS") :
    (let w1 := runCmds grow allowAllCORS New pre
     let r := Engine.register w1 q verb handler
     let w3 := runCmds grow allowAllCORS r.1 post
     req.Path = q →
       ∃ out, (Engine.Apply grow w3).serve r.2 now req = some out ∧
         out.Writer = [WriterCall.writeHeader 405] ∧ statusSent out.Writer = some 405 ∧
         out.trace = [] ∧ out.final = none) ∧
    (let w1 := runCmds grow allowAllCORS New pre
     let g := Engine.Group w1 p
     let w2 := runCmds grow allowAllCORS g.1 mid
     let r := RouteGroup.register w2 g.2 q verb handler
     let w3 := runCmds grow allowAllCORS r.1 post
     req.Path = "/" ++ p ++ q →
       ∃ out, (Engine.Apply grow w3).serve r.2 now req = some out ∧
         out.Writer = [WriterCall.writeHeader 405] ∧ statusSent out.Writer = some 405 ∧
         out.trace = [] ∧ out.final = none) := by
  constructor
  · intro w1 r w3 hpath
    obtain ⟨h1, h2, h3⟩ := top_route_after_Apply grow allowAllCORS pre post q verb handler
    exact ⟨_, serve_options _ r.2 verb q hverb h2 h1 h3 now req hm hpath, rfl, rfl, rfl, rfl⟩
  · intro w1 g w2 r w3 hpath
    obtain ⟨h1, h2, h3⟩ :=
      grouped_route_after_Apply grow allowAllCORS pre mid post p q verb handler
    exact ⟨_, serve_options _ r.2 verb _ hverb h2 h1 h3 now req hm hpath, rfl, rfl, rfl, rfl⟩

/-- Witness of C19: `AllowAllCORS()`, then `GET("/health", healthHandler)`,
then `Apply()`; the chain of the route is `[healthHandler]`. -/
theorem options_is_rejected_witness :
    "GET" ∈ publicVerbs ∧ (Request.plain "OPTIONS" "/health").Method = "OPTIONS" ∧
    ((Request.plain "OPTIONS" "/health").Path = "/health" →
      ∃ out, (Engine.Apply gcGrow (runCmds gcGrow allowAllCORS
          (Engine.register (runCmds gcGrow allowAllCORS New [Cmd.allowAllCORS]) "/health" "GET"
            healthHandler).1 [])).serve
          (Engine.register (runCmds gcGrow allowAllCORS New [Cmd.allowAllCORS]) "/health" "GET"
            healthHandler).2 0 (Request.plain "OPTIONS" "/health") = some out ∧
        out.Writer = [WriterCall.writeHeader 405] ∧ statusSent out.Writer = some 405 ∧
        out.trace = [] ∧ out.final = none) :=
  ⟨by decide, rfl,
    (options_is_rejected gcGrow [Cmd.allowAllCORS] [] [] "" "/health" "GET" healthHandler 0
      (Request.plain "OPTIONS" "/health") (by decide) rfl).1⟩

/-! ## Allowed roles do not influence dispatch -/

theorem eraseRoles_idem (c : Context) : c.eraseRoles.eraseRoles = c.eraseRoles := rfl

theorem readBody_erase (c : Context) (req : Request) :
    (c.eraseRoles.readBody req).1 = (c.readBody req).1.eraseRoles ∧
      (c.eraseRoles.readBody req).2 = (c.readBody req).2 := by
  unfold Context.readBody
  dsimp only
  (repeat' split) <;> exact ⟨rfl, rfl⟩

theorem parseBody_erase (c : Context) :
    c.eraseRoles.parseBody.1 = c.parseBody.1.eraseRoles ∧
      c.eraseRoles.parseBody.2 = c.parseBody.2 := by
  unfold Context.parseBody
  have h1 : c.eraseRoles.data.Body = c.data.Body := rfl
  have h2 : c.eraseRoles.data.Request = c.data.Request := rfl
  rw [h1, h2]
  dsimp only
  (repeat' split) <;> first | exact ⟨rfl, rfl⟩ | exact readBody_erase c _

theorem parseOrAbort_erase (c : Context) :
    Engine.parseOrAbort c.eraseRoles = (Engine.parseOrAbort c).eraseRoles := by
  obtain ⟨h1, h2⟩ := parseBody_erase c
  unfold Engine.parseOrAbort
  simp only [h1, h2]
  cases c.parseBody.2 <;> rfl

theorem parseOrAbort_congr (c c' : Context) (h : c.eraseRoles = c'.eraseRoles) :
    (Engine.parseOrAbort c).eraseRoles = (Engine.parseOrAbort c').eraseRoles := by
  rw [← parseOrAbort_erase, ← parseOrAbort_erase, h]

theorem observable_congr (c c' : Context) (h : c.eraseRoles = c'.eraseRoles) :
    (Outcome.ofContext c).observable = (Outcome.ofContext c').observable := by
  have hw : c.data.Writer = c'.data.Writer := by
    have := congrArg (fun x : Context => x.data.Writer) h
    exact this
  have ht : c.trace = c'.trace := by
    have := congrArg (fun x : Context => x.trace) h
    exact this
  have hp : c.panicking = c'.panicking := by
    have := congrArg (fun x : Context => x.panicking) h
    exact this
  have hr : c.data.Request = c'.data.Request := by
    have := congrArg (fun x : Context => x.data.Request) h
    exact this
  simp only [Outcome.observable, Outcome.ofContext, Engine.recoverPanic, hw, ht, hp, hr]

theorem erase_fields (c c' : Context) (h : c.eraseRoles = c'.eraseRoles) :
    c.HandlersChain = c'.HandlersChain ∧ c.Index = c'.Index ∧ c.panicking = c'.panicking := by
  have h1 := congrArg (fun x : Context => x.HandlersChain) h
  have h2 := congrArg (fun x : Context => x.Index) h
  have h3 := congrArg (fun x : Context => x.panicking) h
  exact ⟨h1, h2, h3⟩

/-- A body that does not read the roles runs alike on a Context and on the
same Context without roles, when `next` does. -/
theorem exec_erase (fuel : Nat) (chain : List Prog) (next : Context → Option Context)
    (hnext : ∀ c : Context, c.HandlersChain = chain → chain.length ≤ c.Index + fuel →
      ∃ c1 c1', next c = some c1 ∧ next c.eraseRoles = some c1' ∧
        c1.eraseRoles = c1'.eraseRoles ∧ Advances c c1) :
    ∀ p : Prog, p.RolesBlind → ∀ c : Context, c.HandlersChain = chain →
      chain.length ≤ c.Index + fuel →
      ∃ c' c'', p.exec next c = some c' ∧ p.exec next c.eraseRoles = some c'' ∧
        c'.eraseRoles = c''.eraseRoles ∧ Advances c c' := by
  have step : ∀ (k : Prog) (c c1 : Context),
      (∀ c : Context, c.HandlersChain = chain → chain.length ≤ c.Index + fuel →
        ∃ c' c'', k.exec next c = some c' ∧ k.exec next c.eraseRoles = some c'' ∧
          c'.eraseRoles = c''.eraseRoles ∧ Advances c c') →
      c.HandlersChain = chain → chain.length ≤ c.Index + fuel → Advances c c1 →
      ∃ c' c'', k.exec next c1 = some c' ∧ k.exec next c1.eraseRoles = some c'' ∧
        c'.eraseRoles = c''.eraseRoles ∧ Advances c c' := by
    intro k c c1 ih hc hf a
    obtain ⟨c', c'', e1, e2, he, a'⟩ := ih c1 (a.chain.trans hc)
      (by have := a.idx; omega)
    exact ⟨c', c'', e1, e2, he, a.trans a'⟩
  intro p
  induction p with
  | ret => intro _ c _ _; exact ⟨c, c.eraseRoles, rfl, rfl, rfl, Advances.refl c⟩
  | next k ih =>
    intro hb c hc hf
    obtain ⟨c1, c1', n1, n2, he, a1⟩ := hnext c hc hf
    obtain ⟨hch, hix, hpn⟩ := erase_fields _ _ he
    simp only [Prog.exec, n1, n2]
    have hp' : c1'.panicking = c1.panicking := hpn.symm
    by_cases hp : c1.panicking.isSome
    · simp only [hp, hp', if_true]
      exact ⟨c1, c1', rfl, rfl, he, a1⟩
    · simp only [hp, hp']
      have hc1 : c1.HandlersChain = chain := a1.chain.trans hc
      have hf1 : chain.length ≤ c1.Index + fuel := by have := a1.idx; omega
      obtain ⟨d, d2, x1, x2, xe, xa⟩ := ih hb c1 hc1 hf1
      obtain ⟨d', d2', y1, y2, ye, _⟩ := ih hb c1' (hch ▸ hc1) (hix ▸ hf1)
      have : d2 = d2' := by
        rw [he, y2] at x2
        exact (Option.some.inj x2).symm
      subst this
      exact ⟨d, d', x1, y1, xe.trans ye.symm, a1.trans xa⟩
  | abort k ih => intro hb c hc hf; exact step k c c.Abort (ih hb) hc hf (Advances.abort c)
  | abortWithStatus s k ih =>
    intro hb c hc hf
    exact step k c (c.AbortWithStatus s) (ih hb) hc hf (Advances.abortWithStatus c s)
  | abortWithStatusJSON s j k ih =>
    intro hb c hc hf
    exact step k c (c.AbortWithStatusJSON s j) (ih hb) hc hf (Advances.abortWithStatusJSON c s j)
  | set key v k ih =>
    intro hb c hc hf; exact step k c (c.Set key v) (ih hb) hc hf (Advances.set c key v)
  | get key k ih => intro hb c hc hf; exact ih _ _ (hb _ _) c hc hf
  | status code k ih =>
    intro hb c hc hf; exact step k c (c.Status code) (ih hb) hc hf (Advances.status c code)
  | json code d k ih =>
    intro hb c hc hf
    exact step (k _) c (c.JSON code d).1 (ih _ (hb _)) hc hf (Advances.json c code d)
  | read k ih =>
    intro hb c hc hf
    obtain ⟨c', c'', e1, e2, he, a⟩ := ih c.view (hb.2 _) c hc hf
    refine ⟨c', c'', e1, ?_, he, a⟩
    have hv : c.eraseRoles.view = c.view.eraseRoles := rfl
    simp only [Prog.exec, hv, ← hb.1 c.view]
    exact e2
  | assign f k ih =>
    intro hb c hc hf
    obtain ⟨d, d2, x1, x2, xe, xa⟩ := ih hb.2 { c with data := f c.data } hc hf
    obtain ⟨d', d2', y1, y2, ye, _⟩ := ih hb.2 { c with data := f c.data.eraseRoles } hc hf
    have hE : ({ c with data := f c.data } : Context).eraseRoles =
        ({ c with data := f c.data.eraseRoles } : Context).eraseRoles := by
      simp only [Context.eraseRoles, hb.1 c.data]
    have : d2 = d2' := by
      rw [hE, y2] at x2
      exact (Option.some.inj x2).symm
    subst this
    exact ⟨d, d', x1, y1, xe.trans ye.symm, (Advances.of_data c _).trans xa⟩
  | panic v =>
    intro _ c _ _
    exact ⟨_, _, rfl, rfl, rfl, ⟨rfl, Nat.le_refl _, fun h => h, [Event.panic v c.data.Writer],
      by simp [invoked, handlerOnly, hasAbort, okAfter]⟩⟩

theorem Next_erase (chain : List Prog) (hblind : ∀ h ∈ chain, h.RolesBlind) :
    ∀ (fuel : Nat) (c : Context), c.HandlersChain = chain → chain.length ≤ c.Index + fuel →
      ∃ c1 c1', c.Next fuel = some c1 ∧ c.eraseRoles.Next fuel = some c1' ∧
        c1.eraseRoles = c1'.eraseRoles ∧ Advances c c1 := by
  have hget : ∀ i, (chain.getD i Prog.ret).RolesBlind := by
    intro i
    rw [List.getD_eq_getElem?_getD]
    cases h : chain[i]? with
    | none => exact trivial
    | some x => exact hblind x (List.getElem?_mem h)
  intro fuel
  induction fuel with
  | zero =>
    intro c hc hf
    have hi : ¬ c.Index < c.HandlersChain.length := by rw [hc]; omega
    have hi' : ¬ c.eraseRoles.Index < c.eraseRoles.HandlersChain.length := hi
    refine ⟨c, c.eraseRoles, ?_, ?_, rfl, Advances.refl c⟩
    · rw [Context.Next, if_neg hi]
    · rw [Context.Next, if_neg hi']
  | succ fuel ih =>
    intro c hc hf
    by_cases hi : c.Index < c.HandlersChain.length
    · cases ha : c.Aborted with
      | true =>
        have ha' : c.eraseRoles.Aborted = true := ha
        exact ⟨c, c.eraseRoles, Next_of_aborted _ c ha, Next_of_aborted _ _ ha', rfl,
          Advances.refl c⟩
      | false =>
        have hi' : c.eraseRoles.Index < c.eraseRoles.HandlersChain.length := hi
        have ha' : c.eraseRoles.Aborted = false := ha
        rw [Next_of_running fuel c hi ha, Next_of_running fuel c.eraseRoles hi' ha']
        have hh : c.HandlersChain.getD c.Index Prog.ret = chain.getD c.Index Prog.ret := by
          rw [hc]
        obtain ⟨c', c'', e1, e2, he, a⟩ := exec_erase fuel chain (Context.Next fuel) ih
          (c.HandlersChain.getD c.Index Prog.ret) (hh ▸ hget c.Index)
          { c with Index := c.Index + 1, trace := c.trace ++ [Event.invoke c.Index] } hc
          (by simp only; omega)
        exact ⟨c', c'', e1, e2, he, (Advances.start c hi ha).trans a⟩
    · have hi' : ¬ c.eraseRoles.Index < c.eraseRoles.HandlersChain.length := hi
      refine ⟨c, c.eraseRoles, ?_, ?_, rfl, Advances.refl c⟩
      · rw [Context.Next, if_neg hi]
      · rw [Context.Next, if_neg hi']

/-- Two Contexts that differ only in the roles run a body alike. -/
theorem exec_congr (chain : List Prog) (hblind : ∀ h ∈ chain, h.RolesBlind) (fuel : Nat)
    (p : Prog) (hp : p.RolesBlind) (c c' : Context) (h : c.eraseRoles = c'.eraseRoles)
    (hc : c.HandlersChain = chain) (hf : chain.length ≤ c.Index + fuel) :
    ∃ d d', p.exec (Context.Next fuel) c = some d ∧ p.exec (Context.Next fuel) c' = some d' ∧
      d.eraseRoles = d'.eraseRoles ∧ Advances c d := by
  obtain ⟨hch, hix, _⟩ := erase_fields c c' h
  obtain ⟨d, d2, x1, x2, xe, xa⟩ :=
    exec_erase fuel chain (Context.Next fuel) (Next_erase chain hblind fuel) p hp c hc hf
  obtain ⟨d', d2', y1, y2, ye, _⟩ :=
    exec_erase fuel chain (Context.Next fuel) (Next_erase chain hblind fuel) p hp c'
      (hch ▸ hc) (hix ▸ hf)
  have : d2 = d2' := by
    rw [h, y2] at x2
    exact (Option.some.inj x2).symm
  subst this
  exact ⟨d, d', x1, y1, xe.trans ye.symm, xa⟩

theorem Next_congr (chain : List Prog) (hblind : ∀ h ∈ chain, h.RolesBlind) (fuel : Nat)
    (c c' : Context) (h : c.eraseRoles = c'.eraseRoles)
    (hc : c.HandlersChain = chain) (hf : chain.length ≤ c.Index + fuel) :
    ∃ d d', c.Next fuel = some d ∧ c'.Next fuel = some d' ∧ d.eraseRoles = d'.eraseRoles := by
  obtain ⟨hch, hix, _⟩ := erase_fields c c' h
  obtain ⟨d, d2, x1, x2, xe, _⟩ := Next_erase chain hblind fuel c hc hf
  obtain ⟨d', d2', y1, y2, ye, _⟩ := Next_erase chain hblind fuel c' (hch ▸ hc) (hix ▸ hf)
  have : d2 = d2' := by
    rw [h, y2] at x2
    exact (Option.some.inj x2).symm
  subst this
  exact ⟨d, d', x1, y1, xe.trans ye.symm⟩

theorem parseOrAbort_chain (c : Context) :
    (Engine.parseOrAbort c).HandlersChain = c.HandlersChain ∧
      (Engine.parseOrAbort c).Index = c.Index := by
  cases hpb : c.parseBody.2 with
  | none => exact ⟨(parseOrAbort_passed c hpb).2.1, (parseOrAbort_passed c hpb).2.2.1⟩
  | some e => exact ⟨(parseOrAbort_failed c e hpb).2.1, (parseOrAbort_failed c e hpb).2.2.1⟩

/-- C17: the allowed roles of a route do not influence dispatch.  For a
route and the same route with any other `allowedRoles`, every request, an
auth hook and handlers that do not read `Context.AllowedRoles` (and may set
or read the client's `RoleID` as they like): both requests are served, with
the same calls on the response writer, the same trace (the same handlers
started in the same order) and the same log lines. -/
theorem roles_do_not_influence (w : World Prog) (route : Route Prog) (roles : List Int)
    (now : Nat) (req : Request)
    (hchain : ∀ h ∈ readSlice w.heap route.middlewaresChain, h.RolesBlind)
    (hhook : ∀ f, w.engine.authFunc = some f → f.RolesBlind) :
    ∃ out out', Engine.handle w route now req = some out ∧
      Engine.handle w { route with allowedRoles := roles } now req = some out' ∧
      out.observable = out'.observable := by
  cases hex : Engine.isPathExist w req.Path with
  | false =>
    exact ⟨_, _, handle_of_unknown_path w route now req hex,
      handle_of_unknown_path w _ now req hex, rfl⟩
  | true =>
    by_cases hm : req.Method = route.method
    · rw [handle_of_match w route now req hex hm,
        handle_of_match w { route with allowedRoles := roles } now req hex hm]
      have hE : (Engine.newContext w [] req route now).eraseRoles =
          (Engine.newContext w [] req { route with allowedRoles := roles } now).eraseRoles := rfl
      have hlen : (Engine.newContext w [] req { route with allowedRoles := roles }
          now).HandlersChain = (Engine.newContext w [] req route now).HandlersChain := rfl
      have hc0 : (Engine.newContext w [] req route now).HandlersChain =
          readSlice w.heap route.middlewaresChain := rfl
      rw [hlen, hc0]
      -- the auth step
      have hauth : ∃ c1 c1', Engine.callAuth w route
            (readSlice w.heap route.middlewaresChain).length
            (Engine.newContext w [] req route now) = some c1 ∧
          Engine.callAuth w { route with allowedRoles := roles }
            (readSlice w.heap route.middlewaresChain).length
            (Engine.newContext w [] req { route with allowedRoles := roles } now) = some c1' ∧
          c1.eraseRoles = c1'.eraseRoles ∧
          c1.HandlersChain = readSlice w.heap route.middlewaresChain := by
        unfold Engine.callAuth
        cases hr : route.requireAuth with
        | false => exact ⟨_, _, rfl, rfl, hE, rfl⟩
        | true =>
          cases hf : w.engine.authFunc with
          | none => exact ⟨_, _, rfl, rfl, hE, rfl⟩
          | some f =>
            obtain ⟨d, d', x1, x2, xe, xa⟩ := exec_congr _ hchain
              (readSlice w.heap route.middlewaresChain).length f (hhook f hf)
              { Engine.newContext w [] req route now with
                trace := (Engine.newContext w [] req route now).trace ++ [Event.auth] }
              { Engine.newContext w [] req { route with allowedRoles := roles } now with
                trace := (Engine.newContext w [] req { route with allowedRoles := roles }
                  now).trace ++ [Event.auth] }
              rfl rfl (Nat.le_add_left _ _)
            exact ⟨d, d', x1, x2, xe, xa.chain⟩
      obtain ⟨c1, c1', e1, e1', he, hch⟩ := hauth
      have hpn : c1'.panicking = c1.panicking := (erase_fields _ _ he).2.2.symm
      simp only [e1, e1']
      by_cases hp : c1.panicking.isSome
      · simp only [hp, hpn, if_true]
        exact ⟨_, _, rfl, rfl, observable_congr _ _ he⟩
      · simp only [hp, hpn]
        obtain ⟨d, d', x1, x2, xe⟩ := Next_congr _ hchain
          (readSlice w.heap route.middlewaresChain).length
          (Engine.parseOrAbort c1) (Engine.parseOrAbort c1') (parseOrAbort_congr _ _ he)
          ((parseOrAbort_chain c1).1.trans hch) (Nat.le_add_left _ _)
        simp only [x1, x2]
        exact ⟨_, _, rfl, rfl, observable_congr _ _ xe⟩
    · exact ⟨_, _, handle_of_other_verb w route now req hex hm,
        handle_of_other_verb w _ now req hex hm, rfl⟩

/-- Witness of C17: `GET /health` on `healthWorld`, with the roles 1 and 2
against no roles. -/
theorem roles_do_not_influence_witness :
    (∀ h ∈ readSlice (healthWorld fillClient).heap healthRoute.middlewaresChain, h.RolesBlind) ∧
    (∀ f, (healthWorld fillClient).engine.authFunc = some f → f.RolesBlind) ∧
    ∃ out out', Engine.handle (healthWorld fillClient) healthRoute 0
        (Request.plain "GET" "/health") = some out ∧
      Engine.handle (healthWorld fillClient) { healthRoute with allowedRoles := [1, 2] } 0
        (Request.plain "GET" "/health") = some out' ∧
      out.observable = out'.observable :=
  have hchain : ∀ h ∈ readSlice (healthWorld fillClient).heap healthRoute.middlewaresChain,
      h.RolesBlind := by
    intro h hh
    have hl : readSlice (healthWorld fillClient).heap healthRoute.middlewaresChain =
        [passThrough, healthHandler] := rfl
    rw [hl, List.mem_cons, List.mem_singleton] at hh
    rcases hh with hh | hh
    · subst hh; exact trivial
    · subst hh; exact fun _ => trivial
  have hhook : ∀ f, (healthWorld fillClient).engine.authFunc = some f → f.RolesBlind := by
    intro f hf
    have h2 : (healthWorld fillClient).engine.authFunc = some fillClient := rfl
    rw [h2] at hf
    cases Option.some.inj hf
    exact ⟨fun _ => rfl, trivial⟩
  ⟨hchain, hhook,
    roles_do_not_influence (healthWorld fillClient) healthRoute [1, 2] 0
      (Request.plain "GET" "/health") hchain hhook⟩

/-! ## Parsing the body twice -/

theorem readBody_success (c : Context) (req : Request) (h : (c.readBody req).2 = none) :
    (c.readBody req).1.data.Body.isSome = true := by
  unfold Context.readBody at h ⊢
  dsimp only at h ⊢
  cases hf : req.formErr with
  | some e => rw [hf] at h; simp at h
  | none =>
    simp only [hf] at h ⊢
    cases hr : req.readErr with
    | some e => rw [hr] at h; simp at h
    | none => simp

/-- After a successful `parseBody`, either `Body` is populated or the request
is a multipart request whose form is parsed. -/
theorem parseBody_success (c : Context) (h : c.parseBody.2 = none) :
    c.parseBody.1.data.Body.isSome = true ∨
    (c.parseBody.1.data.Body = none ∧ c.parseBody.1.data.Request.ContentType ≠ "" ∧
      c.parseBody.1.data.Request.mediaType = .ok "multipart/form-data" ∧
      ∃ form, c.parseBody.1.data.Request.MultipartForm = some form ∧
        c.parseBody.1.data.MultipartForm = some form) := by
  by_cases hb : c.data.Body.isSome = true
  · have e : c.parseBody = (c, none) := by simp [Context.parseBody, hb]
    rw [e]
    exact Or.inl hb
  · have hbn : c.data.Body = none := by
      cases hx : c.data.Body with
      | none => rfl
      | some x => rw [hx] at hb; simp at hb
    by_cases hct : c.data.Request.ContentType = ""
    · have e : c.parseBody = c.readBody c.data.Request := by
        simp [Context.parseBody, hbn, hct]
      rw [e] at h ⊢
      exact Or.inl (readBody_success c _ h)
    · cases hmt : c.data.Request.mediaType with
      | error x =>
        have e : c.parseBody.2 = some x := by simp [Context.parseBody, hbn, hct, hmt]
        rw [e] at h; cases h
      | ok mt =>
        by_cases hmp : mt = "multipart/form-data"
        · subst hmp
          cases hmf : c.data.Request.MultipartForm with
          | some form =>
            have e : c.parseBody = (({ c with data := { c.data with
                Request := { c.data.Request with calls := c.data.Request.calls ++
                  [ReqCall.parseMediaType] ++ [ReqCall.parseMultipartForm] },
                MultipartForm := some form } } : Context), none) := by
              simp [Context.parseBody, hbn, hct, hmt, hmf]
            rw [e]
            exact Or.inr ⟨hbn, hct, hmt, form, hmf, rfl⟩
          | none =>
            cases hmu : c.data.Request.multipart with
            | error x =>
              have e : c.parseBody.2 = some x := by
                simp [Context.parseBody, hbn, hct, hmt, hmf, hmu]
              rw [e] at h; cases h
            | ok form =>
              have e : c.parseBody = (({ c with data := { c.data with
                  Request := { c.data.Request with
                    calls := c.data.Request.calls ++ [ReqCall.parseMediaType] ++
                      [ReqCall.parseMultipartForm],
                    MultipartForm := some form, unread := "" },
                  MultipartForm := some form } } : Context), none) := by
                simp [Context.parseBody, hbn, hct, hmt, hmf, hmu]
              rw [e]
              exact Or.inr ⟨hbn, hct, hmt, form, rfl, rfl⟩
        · have e : c.parseBody = c.readBody { c.data.Request with
              calls := c.data.Request.calls ++ [ReqCall.parseMediaType] } := by
            simp [Context.parseBody, hbn, hct, hmt, hmp]
          rw [e] at h ⊢
          exact Or.inl (readBody_success c _ h)

theorem parseBody_of_body (c : Context) (h : c.data.Body.isSome = true) :
    c.parseBody = (c, none) := by
  simp [Context.parseBody, h]

theorem parseBody_of_parsed_form (c : Context) (form : String) (hb : c.data.Body = none)
    (hct : c.data.Request.ContentType ≠ "")
    (hmt : c.data.Request.mediaType = .ok "multipart/form-data")
    (hmf : c.data.Request.MultipartForm = some form) (hcf : c.data.MultipartForm = some form) :
    c.parseBody =
      (c.withCalls [ReqCall.parseMediaType, ReqCall.parseMultipartForm], none) := by
  obtain ⟨⟨W, R, F, Cl, B, M, CD, S, A, T⟩, ch, i, ab, tr, pn⟩ := c
  simp only at hb hct hmt hmf hcf
  subst hb hcf
  simp [Context.parseBody, Context.withCalls, hct, hmt, hmf]

/-- C14: after a first successful `parseBody`, a second call returns nil
and neither reads nor parses the request again: `Body`, `MultipartForm`, the
parsed form of the request and the unread part of the request body are what
the first call left, and neither `ParseForm` nor `io.ReadAll` is called.
When the first call populated `Body` the second call returns at the guard
and makes no library call.  On a multipart request, where `Body` stays nil,
the second call scans the Content-Type header and calls
`ParseMultipartForm`, which returns at once because the form of the request
is already parsed. -/
theorem parseBody_twice (c : Context) (h : c.parseBody.2 = none) :
    c.parseBody.1.parseBody.2 = none ∧
    (c.parseBody.1.parseBody.1.data.Body = c.parseBody.1.data.Body ∧
      c.parseBody.1.parseBody.1.data.MultipartForm = c.parseBody.1.data.MultipartForm ∧
      c.parseBody.1.parseBody.1.data.Request.MultipartForm =
        c.parseBody.1.data.Request.MultipartForm ∧
      c.parseBody.1.parseBody.1.data.Request.unread = c.parseBody.1.data.Request.unread) ∧
    ∃ extra, c.parseBody.1.parseBody.1 = c.parseBody.1.withCalls extra ∧
      ReqCall.readAll ∉ extra ∧ ReqCall.parseForm ∉ extra ∧
      (c.parseBody.1.data.Body.isSome = true → extra = []) ∧
      (c.parseBody.1.data.Body = none →
        extra = [ReqCall.parseMediaType, ReqCall.parseMultipartForm] ∧
        c.parseBody.1.data.Request.MultipartForm.isSome = true) := by
  rcases parseBody_success c h with hb | ⟨hb, hct, hmt, form, hmf, hcf⟩
  · rw [parseBody_of_body _ hb]
    refine ⟨rfl, ⟨rfl, rfl, rfl, rfl⟩, [], ?_, by simp, by simp, fun _ => rfl, fun hn => ?_⟩
    · simp [Context.withCalls]
    · rw [hn] at hb; cases hb
  · rw [parseBody_of_parsed_form _ form hb hct hmt hmf hcf]
    refine ⟨rfl, ⟨rfl, rfl, rfl, rfl⟩, _, rfl, by decide, by decide, fun hs => ?_,
      fun _ => ⟨rfl, ?_⟩⟩
    · rw [hb] at hs
      cases hs
    · rw [hmf]
      rfl

/-- Witness of C14: a JSON request, whose second `parseBody` makes no library
call, and a multipart request, whose second `parseBody` leaves the unread
body and the parsed form as they are. -/
theorem parseBody_twice_witness :
    (Context.ofRequest (Request.multipartForm "POST" "/up" "bytes" "form")).parseBody.2 = none ∧
    (Context.ofRequest (Request.json "POST" "/x" "\x7b\"q\":1\x7d")).parseBody.2 = none ∧
    (Context.ofRequest (Request.json "POST" "/x" "\x7b\"q\":1\x7d")).parseBody.1.parseBody.2 =
      none ∧
    (Context.ofRequest (Request.json "POST" "/x" "\x7b\"q\":1\x7d")).parseBody.1.parseBody.1.data.Body =
      some "\x7b\"q\":1\x7d" ∧
    (Context.ofRequest
      (Request.multipartForm "POST" "/up" "bytes" "form")).parseBody.1.parseBody.2 = none ∧
    (Context.ofRequest
      (Request.multipartForm "POST" "/up" "bytes"
        "form")).parseBody.1.parseBody.1.data.MultipartForm = some "form" :=
  ⟨rfl, rfl,
    (parseBody_twice (Context.ofRequest (Request.json "POST" "/x" "\x7b\"q\":1\x7d")) rfl).1,
    (parseBody_twice (Context.ofRequest (Request.json "POST" "/x" "\x7b\"q\":1\x7d"))
      rfl).2.1.1,
    (parseBody_twice (Context.ofRequest (Request.multipartForm "POST" "/up" "bytes" "form"))
      rfl).1,
    (parseBody_twice (Context.ofRequest (Request.multipartForm "POST" "/up" "bytes" "form"))
      rfl).2.1.2.1⟩

/-! ## Validation -/

/-- On a value that is no array and was not got from an unexported field of
another kind, `isEmpty` returns whether the value is the zero value. -/
theorem isEmpty_of_safe (v : Value) (h1 : ∀ z, v.data ≠ ValueData.array z)
    (h2 : ∀ z, v.data = ValueData.other z → v.readOnly = false) :
    isEmpty v = .ok v.data.isZero := by
  obtain ⟨t, ro, d⟩ := v
  cases d <;> simp [isEmpty, ValueData.isZero] at h1 h2 ⊢
  exact h2

/-- The rule loop returns the first violation of the field, when `isEmpty`
does not panic on it. -/
theorem checkRules_first_violation (name : String) (v : Value) (rs : List String)
    (h : "required" ∈ rs → (∀ z, v.data ≠ ValueData.array z) ∧
      (∀ z, v.data = ValueData.other z → v.readOnly = false)) :
    checkRules name v rs = .ok ((rs.filterMap fun rule =>
      if rule = "required" then
        if v.data.isZero then some (name ++ " is required") else none
      else if rule = "email" then
        if !isValidEmail v.String then some "invalid email format" else none
      else none).head?) := by
  induction rs with
  | nil => rfl
  | cons rule rest ih =>
    have ih' := ih fun hm => h (List.mem_cons_of_mem _ hm)
    by_cases hr : rule = "required"
    · have hs := h (hr ▸ List.mem_cons_self _ _)
      have he := isEmpty_of_safe v hs.1 hs.2
      cases hz : v.data.isZero
      · rw [hz] at he
        simp [checkRules, hr, he, hz, List.filterMap_cons]
        simpa [hz] using ih'
      · rw [hz] at he
        simp [checkRules, hr, he, hz, List.filterMap_cons]
    · by_cases hm : rule = "email"
      · have hne : ¬ ("email" = "required") := by decide
        cases hv : isValidEmail v.String
        · simp [checkRules, hm, hne, hv, List.filterMap_cons]
        · simp [checkRules, hm, hne, hv, List.filterMap_cons]
          simpa [hv] using ih'
      · simp [checkRules, hr, hm, List.filterMap_cons]
        simpa using ih'

/-- On a struct whose `required` fields are no arrays and no unexported
fields of a struct-like kind, `validateStruct` returns the first violation in
declaration order and tag order, and nil when there is none. -/
theorem validateStruct_first_violation (fs : List Field) (h : ∀ f ∈ fs, f.Safe) :
    validateStruct fs = .ok ((fs.flatMap Field.violations).head?) := by
  induction fs with
  | nil => rfl
  | cons f rest ih =>
    have ih' := ih fun g hg => h g (List.mem_cons_of_mem _ hg)
    have hf := checkRules_first_violation f.Name f.value (rulesOf f.binding)
      (h f (List.mem_cons_self _ _))
    by_cases hb : f.binding = ""
    · have hv : f.violations = [] := by
        simp [Field.violations, hb, rulesOf, splitComma]
      simp [validateStruct, hb, ih', List.flatMap_cons, hv]
    · have hv : f.violations = (rulesOf f.binding).filterMap fun rule =>
          if rule = "required" then
            if f.value.data.isZero then some (f.Name ++ " is required") else none
          else if rule = "email" then
            if !isValidEmail f.value.String then some "invalid email format" else none
          else none := rfl
      rw [← hv] at hf
      cases hvv : f.violations with
      | nil =>
        rw [hvv] at hf
        simp [validateStruct, hb, hf, ih', List.flatMap_cons, hvv]
      | cons e es =>
        rw [hvv] at hf
        simp [validateStruct, hb, hf, List.flatMap_cons, hvv]

/-- The examples of an `Email string` field tagged `required,email`: `bad`
and `not-an-email` give the email-format error, the empty string gives
`Email is required`, and a well-formed address gives nil. -/
theorem validateStruct_email_examples :
    validateStruct [emailField "bad"] = .ok (some "invalid email format") ∧
    validateStruct [emailField "not-an-email"] = .ok (some "invalid email format") ∧
    validateStruct [emailField ""] = .ok (some "Email is required") ∧
    validateStruct [emailField "a.b@example.com"] = .ok none := by
  decide

/-- C12 (fails on the code): a struct whose only tagged field is
`A [2]int` with `binding:"required"`, holding a non-zero array, violates no
rule, yet `validateStruct` does not return nil: it panics in `isEmpty`.  With
an invalid `Email` declared after that field the first violation is the
email-format error, and `validateStruct` panics again instead of returning
it. -/
theorem validateStruct_panics_before_result :
    ([arrayField false].flatMap Field.violations = [] ∧
      validateStruct [arrayField false] =
        .error "reflect: call of reflect.Value.IsNil on array Value") ∧
    (([arrayField false, emailField "bad"].flatMap Field.violations).head? =
        some "invalid email format" ∧
      validateStruct [arrayField false, emailField "bad"] =
        .error "reflect: call of reflect.Value.IsNil on array Value") := by
  decide

/-- C20 (fails on the code): `isEmpty` panics on every value of array kind,
because it calls `IsNil` on it, and so `validateStruct` panics on a struct
with a `required` array field; both also panic on a `required` unexported
field of struct kind, because `Interface` is called on it. -/
theorem isEmpty_panics_on_array :
    (∀ t ro z, isEmpty { typeName := t, readOnly := ro, data := .array z } =
      .error "reflect: call of reflect.Value.IsNil on array Value") ∧
    validateStruct [arrayField true] =
      .error "reflect: call of reflect.Value.IsNil on array Value" ∧
    validateStruct [innerField false] =
      .error "reflect.Value.Interface: cannot return value obtained from unexported field or method" := by
  refine ⟨fun _ _ _ => rfl, ?_, ?_⟩ <;> decide

/-! ## The auth hook -/

theorem authOf_append (w : World H) (route : Route H) (g : List RouteGroup) (e : Engine H)
    (r : Nat) (b : Bool) (h : w.authOf r = some b) :
    World.authOf { w with routeObjs := w.routeObjs ++ [route], groupObjs := g, engine := e } r =
      some b := by
  simp only [World.authOf] at h ⊢
  cases hl : w.routeObjs[r]? with
  | none => rw [hl] at h; cases h
  | some x => rw [hl] at h; rw [getElem?_append_old _ _ _ _ hl]; exact h

theorem authOf_set (w : World H) (heap : List (BackingArray H)) (r : Nat) (route route' : Route H)
    (h : w.routeObjs[r]? = some route) (hm : route'.requireAuth = route.requireAuth) (j : Nat) :
    World.authOf { w with heap := heap, routeObjs := w.routeObjs.set r route' } j =
      w.authOf j :=
  getElem?_set_map (fun x : Route H => x.requireAuth) _ _ _ _ _ h hm

theorem authOf_upd (w : World H) (r' r : Nat) (f : Route H → Route H) (b : Bool)
    (hf : ∀ x, (f x).requireAuth = true) (h : w.authOf r = some b) :
    (w.updRoute r' f).authOf r = some (b || (r' == r)) := by
  unfold World.updRoute
  cases hl : w.routeObjs[r']? with
  | none =>
    have hne : (r' == r) = false := by
      by_cases e : r' = r
      · subst e
        simp only [World.authOf, hl] at h
        cases h
      · simpa using e
    simp only [hne, Bool.or_false]
    exact h
  | some route =>
    simp only [World.authOf] at h ⊢
    by_cases e : r' = r
    · subst e
      rw [getElem?_set_self _ _ _ _ hl]
      simp [hf]
    · rw [getElem?_set_other _ _ _ _ e, h]
      simp [e]

theorem Cmd.run_authOf (grow : Nat → Nat → Nat) (cors : H) (w : World H) (c : Cmd H) (r : Nat)
    (b : Bool) (h : w.authOf r = some b) :
    (c.run grow cors w).authOf r = some (b || c.callsAuthOn r) := by
  cases c with
  | useAuth f => simpa [Cmd.callsAuthOn] using h
  | allowAllCORS => simpa [Cmd.callsAuthOn] using h
  | use mws => simpa [Cmd.callsAuthOn] using h
  | register path method handler =>
    simp only [Cmd.callsAuthOn, Bool.or_false]
    exact authOf_append w _ _ _ r b h
  | group path => simpa [Cmd.callsAuthOn] using h
  | groupUse rg mws =>
    simp only [Cmd.run, RouteGroup.Use, Cmd.callsAuthOn, Bool.or_false]
    cases w.groupObjs[rg]? <;> exact h
  | groupRegister rg path method handler =>
    simp only [Cmd.run, RouteGroup.register, Cmd.callsAuthOn, Bool.or_false]
    cases w.groupObjs[rg]? with
    | none => exact h
    | some group => exact authOf_append w _ _ _ r b h
  | routeAuth r' => exact authOf_upd w r' r _ b (fun _ => rfl) h
  | routeRoles r' roles => exact authOf_upd w r' r _ b (fun _ => rfl) h
  | routeUse r' mws =>
    simp only [Cmd.run, Route.Use, Cmd.callsAuthOn, Bool.or_false]
    cases hl : w.routeObjs[r']? with
    | none => exact h
    | some route =>
      dsimp only
      refine (authOf_set w _ r' route _ hl ?_ r).trans h
      rfl

theorem runCmds_authOf (grow : Nat → Nat → Nat) (cors : H) (cmds : List (Cmd H)) (r : Nat) :
    ∀ (w : World H) (b : Bool), w.authOf r = some b →
      (runCmds grow cors w cmds).authOf r = some (b || cmds.any (Cmd.callsAuthOn r)) := by
  induction cmds with
  | nil => intro w b h; simpa [runCmds] using h
  | cons c cmds ih =>
    intro w b h
    have := ih _ _ (Cmd.run_authOf grow cors w c r b h)
    simp only [runCmds, List.foldl_cons, List.any_cons] at this ⊢
    rw [this, Bool.or_assoc]

theorem applyRoute_authOf (grow : Nat → Nat → Nat) (w : World H) (r' r : Nat) :
    (Engine.applyRoute grow w r').authOf r = w.authOf r := by
  unfold Engine.applyRoute
  cases h : w.routeObjs[r']? with
  | none => rfl
  | some route =>
    simp only [World.authOf, mount_routeObjs]
    exact getElem?_set_map (fun x : Route H => x.requireAuth) _ _ _ _ _ h rfl

theorem applyGroupRoute_authOf (grow : Nat → Nat → Nat) (base : String) (w : World H)
    (r' r : Nat) : (Engine.applyGroupRoute grow base w r').authOf r = w.authOf r := by
  unfold Engine.applyGroupRoute
  cases h : w.routeObjs[r']? with
  | none => rfl
  | some route =>
    simp only [World.authOf, mount_routeObjs]
    exact getElem?_set_map (fun x : Route H => x.requireAuth) _ _ _ _ _ h rfl

theorem foldl_authOf (f : World H → Nat → World H) (hf : ∀ w x r, (f w x).authOf r = w.authOf r)
    (l : List Nat) : ∀ (w : World H) (r : Nat), (l.foldl f w).authOf r = w.authOf r := by
  induction l with
  | nil => intro w r; rfl
  | cons x l ih => intro w r; simp only [List.foldl_cons]; rw [ih, hf]

theorem applyGroup_authOf (grow : Nat → Nat → Nat) (w : World H) (g r : Nat) :
    (Engine.applyGroup grow w g).authOf r = w.authOf r := by
  unfold Engine.applyGroup
  cases w.groupObjs[g]? with
  | none => rfl
  | some group =>
    exact foldl_authOf _ (fun w x r => applyGroupRoute_authOf grow group.basePath w x r) _ w r

theorem Apply_authOf (grow : Nat → Nat → Nat) (w : World H) (r : Nat) :
    (Engine.Apply grow w).authOf r = w.authOf r := by
  unfold Engine.Apply
  simp only
  rw [foldl_authOf _ (fun w x r => applyGroup_authOf grow w x r),
    foldl_authOf _ (fun w x r => applyRoute_authOf grow w x r)]

theorem register_authOf (w : World H) (path method : String) (handler : H) :
    (Engine.register w path method handler).1.authOf (Engine.register w path method handler).2 =
      some false := by
  simp only [World.authOf, Engine.register, getElem?_append_new]
  rfl

theorem groupRegister_authOf (w : World H) (rg : Nat) (path method : String) (handler : H)
    (rs : List Nat) (h : w.routesOf rg = some rs) :
    (RouteGroup.register w rg path method handler).1.authOf
      (RouteGroup.register w rg path method handler).2 = some false := by
  simp only [World.routesOf, Option.map_eq_some'] at h
  obtain ⟨group, hl, _⟩ := h
  simp only [World.authOf, RouteGroup.register, hl, getElem?_append_new]
  rfl

/-- The `requireAuth` flag of a route registered by a registration script, at
top level or in a group, after `Apply`: it is set exactly when `Auth` or
`Roles` was called on the route after its registration. -/
theorem requireAuth_after_Apply (grow : Nat → Nat → Nat) (cors : H)
    (pre mid post : List (Cmd H)) (p q method : String) (handler : H) :
    (let w1 := runCmds grow cors New pre
     let r := Engine.register w1 q method handler
     let w3 := runCmds grow cors r.1 post
     (Engine.Apply grow w3).authOf r.2 = some (post.any (Cmd.callsAuthOn r.2))) ∧
    (let w1 := runCmds grow cors New pre
     let g := Engine.Group w1 p
     let w2 := runCmds grow cors g.1 mid
     let r := RouteGroup.register w2 g.2 q method handler
     let w3 := runCmds grow cors r.1 post
     (Engine.Apply grow w3).authOf r.2 = some (post.any (Cmd.callsAuthOn r.2))) := by
  constructor
  · intro w1 r w3
    rw [Apply_authOf]
    have := runCmds_authOf grow cors post r.2 r.1 false (register_authOf w1 q method handler)
    simpa using this
  · intro w1 g w2 r w3
    have hs1 := (runCmds_spec grow cors pre New New_sound).1
    obtain ⟨sg, _, bg, rg, mg⟩ := Group_spec w1 p hs1
    obtain ⟨s2, e2⟩ := runCmds_spec grow cors mid g.1 sg
    obtain ⟨rs2, hrs2, _⟩ := e2.members g.2 [] rg
    rw [Apply_authOf]
    have := runCmds_authOf grow cors post r.2 r.1 false
      (groupRegister_authOf w2 g.2 q method handler rs2 hrs2)
    simpa using this

/-- C10 (counterexample): on `healthWorld` with the hook `nextThenReject`,
which calls `Next` and then `AbortWithStatus(401)`, the gate is open and the
hook leaves the Context aborted, yet both handlers of the chain were invoked:
the hook started them itself before it aborted. -/
theorem hook_aborts_after_next :
    (healthWorld nextThenReject).routeObjs[0]? = some healthRoute ∧
    Engine.authGate (healthWorld nextThenReject) healthRoute = true ∧
    ((healthWorld nextThenReject).serve 0 0 (Request.plain "GET" "/health")).map
        (fun o => (o.trace, o.final.map fun c => c.Aborted)) =
      some ([Event.auth, Event.invoke 0, Event.invoke 1, Event.abort, Event.parse none],
        some true) :=
  ⟨rfl, rfl, rfl⟩

/-- C10 (amended): for a matching request the auth hook is called exactly
when `Engine.authGate` holds: the route has `requireAuth` set and a hook is
installed.  With the gate closed no `auth` event occurs and the outcome is
that of parsing the body and starting the chain on the fresh Context.  With
the gate open the `auth` event is the first event of the trace and occurs
once, and the hook runs on the fresh Context.  After a hook that leaves the
Context aborted the dispatch entry starts no chain position, so the positions
started in the whole request are those the hook started itself by calling
`Next`: `0, ..., Index - 1` for the cursor `Index` the hook left, hence none
when the hook left the cursor at 0, as every hook that never calls `Next`
does.  The second part is the flag: for a route registered at top level or in
a group by any registration calls, `requireAuth` is set after `Apply`
exactly when `Auth` or `Roles` was called on the route. -/
theorem auth_hook_gate (w : World Prog) (r : Nat) (route : Route Prog) (now : Nat)
    (req : Request) (hmount : r ∈ w.allRoutes) (hroute : w.routeObjs[r]? = some route)
    (hpath : req.Path = route.path) (hverb : req.Method = route.method) :
    (∃ out, w.serve r now req = some out ∧
      (Engine.authGate w route = false →
        Event.auth ∉ out.trace ∧
        ((Engine.parseOrAbort (Engine.newContext w [] req route now)).Next
          (w.chain r).length).map Outcome.ofContext = some out) ∧
      (Engine.authGate w route = true →
        (∃ t, out.trace = Event.auth :: t ∧ Event.auth ∉ t) ∧
        ∃ f c1 rest, w.engine.authFunc = some f ∧
          f.exec (Context.Next (w.chain r).length)
            { Engine.newContext w [] req route now with trace := [Event.auth] } = some c1 ∧
          out.trace = c1.trace ++ rest ∧
          (c1.Aborted = true → ∀ i, Event.invoke i ∉ rest) ∧
          (c1.Aborted = true → invoked out.trace = List.range c1.Index) ∧
          (c1.Aborted = true → c1.Index = 0 → ∀ i, Event.invoke i ∉ out.trace) ∧
          (f.NoNext → c1.Index = 0))) ∧
    (∀ (grow : Nat → Nat → Nat) (pre mid post : List (Cmd Prog)) (p q verb : String)
        (handler : Prog),
      (let w1 := runCmds grow allowAllCORS New pre
       let reg := Engine.register w1 q verb handler
       let w3 := runCmds grow allowAllCORS reg.1 post
       (Engine.Apply grow w3).authOf reg.2 = some (post.any (Cmd.callsAuthOn reg.2))) ∧
      (let w1 := runCmds grow allowAllCORS New pre
       let g := Engine.Group w1 p
       let w2 := runCmds grow allowAllCORS g.1 mid
       let reg := RouteGroup.register w2 g.2 q verb handler
       let w3 := runCmds grow allowAllCORS reg.1 post
       (Engine.Apply grow w3).authOf reg.2 = some (post.any (Cmd.callsAuthOn reg.2)))) := by
  refine ⟨?_, fun grow pre mid post p q verb handler =>
    requireAuth_after_Apply grow allowAllCORS pre mid post p q verb handler⟩
  have hex : Engine.isPathExist w req.Path = true := by
    rw [isPathExist_iff, hpath]; exact mem_finalPaths w r route hmount hroute
  have hlen : (Engine.newContext w [] req route now).HandlersChain = w.chain r := by
    simp [Engine.newContext, World.chain, hroute]
  simp only [World.serve, hroute]
  obtain ⟨c1, e1, _, hcase⟩ := handle_decompose w route now req hex hverb
  obtain ⟨c1', e1', hg, hng⟩ := callAuth_total w route
    (Engine.newContext w [] req route now).HandlersChain.length
    (Engine.newContext w [] req route now) (Nat.le_add_left _ _)
  rw [e1] at e1'
  cases Option.some.inj e1'
  have hlen' : (Engine.newContext w [] req route now).HandlersChain.length =
      (w.chain r).length := by rw [hlen]
  rw [hlen'] at hg hcase
  -- what follows the auth step
  have hrest : ∃ out rest, Engine.handle w route now req = some out ∧
      out.trace = c1.trace ++ rest ∧ Event.auth ∉ rest ∧
      (c1.Aborted = true → ∀ i, Event.invoke i ∉ rest) ∧
      (c1.panicking = none →
        ((Engine.parseOrAbort c1).Next (w.chain r).length).map Outcome.ofContext = some out) := by
    rcases hcase with ⟨hp, hout⟩ | ⟨_, c3, e3, a3, hout⟩
    · refine ⟨_, [], hout, by simp [Outcome.ofContext], by simp, by simp, fun hn => ?_⟩
      rw [hn] at hp; cases hp
    · obtain ⟨rest, hr, hna, hni, _⟩ := after_auth_rest _ c1 c3 e3 a3
      exact ⟨_, rest, hout, hr, hna, hni, fun _ => by rw [e3]; rfl⟩
  obtain ⟨out, rest, hout, htr, hna, hni, hplain⟩ := hrest
  refine ⟨out, hout, fun hgate => ?_, fun hgate => ?_⟩
  · have hc1 := hng hgate
    subst hc1
    refine ⟨?_, hplain rfl⟩
    rw [htr]
    simpa [Engine.newContext] using hna
  · obtain ⟨f, hf, ef, a⟩ := hg hgate
    obtain ⟨t, ht, hv, ho, _⟩ := a.ev
    have ht' : c1.trace = Event.auth :: t := by rw [ht]; rfl
    have hv' : invoked t = List.range c1.Index := by
      rw [hv, List.range_eq_range']
      rfl
    have hall : c1.Aborted = true → invoked out.trace = List.range c1.Index := by
      intro hab
      rw [htr, ht', invoked_append, (invoked_nil_iff rest).2 (hni hab), List.append_nil]
      exact hv'
    refine ⟨⟨t ++ rest, by rw [htr, ht']; rfl, ?_⟩, f, c1, rest, hf, ef, htr, hni, hall, ?_, ?_⟩
    · simp only [List.mem_append, not_or]
      exact ⟨handlerOnly_not_auth t ho, hna⟩
    · intro hab h0
      have := hall hab
      rw [h0, List.range_zero] at this
      exact (invoked_nil_iff _).1 this
    · intro hnn
      exact exec_noNext_index (Context.Next (w.chain r).length) f hnn _ _ ef

/-- Witness of C10 (amended): `healthWorld` with the hook `checkToken` and a
request without a token.  The hook rejects the request without calling
`Next`; the trace is `auth`, `abort` and the parse event, with no handler
invoked. -/
theorem auth_hook_gate_witness :
    0 ∈ (healthWorld checkToken).allRoutes ∧
    (healthWorld checkToken).routeObjs[0]? = some healthRoute ∧
    (Request.plain "GET" "/health").Path = healthRoute.path ∧
    (Request.plain "GET" "/health").Method = healthRoute.method ∧
    ((healthWorld checkToken).serve 0 0 (Request.plain "GET" "/health")).map
        (fun o => (o.trace, o.final.map fun c => (c.Aborted, c.Index))) =
      some ([Event.auth, Event.abort, Event.parse none], some (true, 0)) ∧
    (healthWorld checkToken).authOf 0 = some true ∧
    ∃ out, (healthWorld checkToken).serve 0 0 (Request.plain "GET" "/health") = some out ∧
      (Engine.authGate (healthWorld checkToken) healthRoute = false →
        Event.auth ∉ out.trace ∧
        ((Engine.parseOrAbort (Engine.newContext (healthWorld checkToken) []
            (Request.plain "GET" "/health") healthRoute 0)).Next
          ((healthWorld checkToken).chain 0).length).map Outcome.ofContext = some out) ∧
      (Engine.authGate (healthWorld checkToken) healthRoute = true →
        (∃ t, out.trace = Event.auth :: t ∧ Event.auth ∉ t) ∧
        ∃ f c1 rest, (healthWorld checkToken).engine.authFunc = some f ∧
          f.exec (Context.Next ((healthWorld checkToken).chain 0).length)
            { Engine.newContext (healthWorld checkToken) [] (Request.plain "GET" "/health")
                healthRoute 0 with trace := [Event.auth] } = some c1 ∧
          out.trace = c1.trace ++ rest ∧
          (c1.Aborted = true → ∀ i, Event.invoke i ∉ rest) ∧
          (c1.Aborted = true → invoked out.trace = List.range c1.Index) ∧
          (c1.Aborted = true → c1.Index = 0 → ∀ i, Event.invoke i ∉ out.trace) ∧
          (f.NoNext → c1.Index = 0)) :=
  ⟨by decide, rfl, rfl, rfl, rfl,
    ((auth_hook_gate (healthWorld checkToken) 0 healthRoute 0 (Request.plain "GET" "/health")
      (by decide) rfl rfl rfl).2 gcGrow [Cmd.useAuth checkToken] []
      [Cmd.routeUse 0 [passThrough], Cmd.routeAuth 0] "" "/health" "GET" healthHandler).1,
    (auth_hook_gate (healthWorld checkToken) 0 healthRoute 0 (Request.plain "GET" "/health")
      (by decide) rfl rfl rfl).1⟩

end Flux
